import Mathlib

/-!
# DefraDB: storage keys, description codec, transactions, peer, index fetcher, clock

A shallow embedding of `core/key.go`, of the JSON decoding in
`client/descriptions.go`, of `db/db.go` and `db/txn_db.go`, of the broadcast loop of
`net/peer.go`, of `IndexFetcher.FetchNext` and of `merkle/clock/ipld.go`, followed by
theorems about them. The access control module, the DPI validation of schemas and the
Merkle clock are not among the sources; they are modelled from the specification, in
definitions marked as such.

Conventions of the embedding
* A Go `string` / `[]byte` is a list of bytes (`Str`); a byte is a `Fin 256`.
* Go `int` is 64 bit and is embedded as `Int`; `uint32` values are `Nat`s, the
  conversion `uint32(x)` is written `x % 2 ^ 32` explicitly.
* A Go function returning `(T, error)` returns `Except Error T`.
* A Go slice is embedded as the list of its elements.
* Calls that leave the embedded files are fields of an environment structure
  (`TxnEnv`, `PeerEnv`, `DagLib`, `NodeGetterEnv`), and the effects of a function are
  the list of events it returns.
-/

namespace DefraDB

/-! ## Bytes and strings -/

abbrev Byte := Fin 256

abbrev Str := List Byte

/-- The bytes of an ASCII string literal of the source. -/
def lit (s : String) : Str := s.toList.map (fun c => Fin.ofNat c.toNat)

/-- The separator `'/'`. -/
def slash : Byte := 47

/-- Go's `<` on strings (and `bytes.Compare(a, b) < 0`): bytewise lexicographic order. -/
def strLt : Str → Str → Bool
  | [], [] => false
  | [], _ :: _ => true
  | _ :: _, [] => false
  | a :: as, b :: bs => decide (a < b) || (decide (a = b) && strLt as bs)

/-- Go's `<=` on strings. -/
def strLe (a b : Str) : Bool := !strLt b a

/-- `strings.Split(s, sep)` for a one byte separator. -/
def Split (sep : Byte) : Str → List Str
  | [] => [[]]
  | c :: cs =>
    if c = sep then [] :: Split sep cs
    else
      match Split sep cs with
      | [] => [[c]]
      | h :: t => (c :: h) :: t

/-- `strings.TrimPrefix(s, "/")`. -/
def TrimPrefixSlash : Str → Str
  | c :: cs => if c = slash then cs else c :: cs
  | [] => []

/-- `strings.HasPrefix(s, "/")`. -/
def HasPrefixSlash : Str → Bool
  | c :: _ => decide (c = slash)
  | [] => false

/-! ## Errors -/

/-- The kind of a `*strconv.NumError`. -/
inductive NumErrKind
  | ErrSyntax
  | ErrRange
  deriving DecidableEq, Repr

/-- Modelled from the spec: the reasons of the error kind `DPINonCompliant(permission,
relation, ...)`, which the error texts expected by the tests tell apart; the errors are
declared in the access control module, which is not among the sources. The reasons:
the required permission is missing, its expression does not start with the required
relation, the relation is followed by an invalid character, or the required relation
lacks the actor type. -/
inductive DPIReason
  | missingPermission
  | exprMustStartWithRelation
  | invalidCharAfterRelation (char : Byte)
  | relationWithoutActor
  deriving DecidableEq, Repr

/-- The errors the embedded functions return. -/
inductive Error
  | ErrEmptyKey
  | ErrInvalidKey
  | NumError (num : Str) (kind : NumErrKind)
  | CidError (input : Str)
  | ErrFailedToUnmarshalCollection
  | JsonError (msg : Nat)
  | ErrTxnConflict
  | StoreError (code : Nat)
  | ErrNotProtoNode
  | ProtoError (code : Nat)
  | ErrFailedToRegisterDocWithACP
  | ErrFailedToVerifyDocAccessWithACP
  | ErrPolicyDoesNotExistWithACP
  | ErrResourceDoesNotExistOnTargetPolicy
  | ErrFailedToCheckIfDocIsRegisteredWithACP
  | DPINonCompliant (permission relation : Str) (reason : DPIReason)
  | ErrSchemaTypeAlreadyExists
  | ErrPolicyIDEmpty
  | ErrPolicyResourceEmpty
  deriving DecidableEq, Repr

instance instDecidableEqExcept {ε α : Type} [DecidableEq ε] [DecidableEq α] :
    DecidableEq (Except ε α)
  | .ok a, .ok b => decidable_of_iff (a = b) (by simp)
  | .error a, .error b => decidable_of_iff (a = b) (by simp)
  | .ok _, .error _ => isFalse (by simp)
  | .error _, .ok _ => isFalse (by simp)

/-! ## strconv -/

/-- The ASCII digit of `d < 10`. -/
def digitByte (d : Nat) : Byte := Fin.ofNat (48 + d % 10)

def isDigit (c : Byte) : Bool := decide (48 ≤ c.val) && decide (c.val ≤ 57)

/-- Decimal digits of `n`, most significant first; the first argument bounds the
number of digits and `n + 1` always suffices. -/
def natDigits : Nat → Nat → Str
  | 0, _ => []
  | f + 1, n => if n < 10 then [digitByte n] else natDigits f (n / 10) ++ [digitByte (n % 10)]

/-- `strconv.Itoa(i)`, also `fmt.Sprint` of an unsigned integer. -/
def Itoa (i : Int) : Str :=
  if i < 0 then 45 :: natDigits (i.natAbs + 1) i.natAbs else natDigits (i.natAbs + 1) i.natAbs

/-- The digit loop of `strconv.ParseUint(s, 10, 64)` with the value read so far: a byte
that is not a decimal digit is a syntax error, a value above `2 ^ 64 - 1` is a range
error. -/
def parseUint : Str → Nat → Except NumErrKind Nat
  | [], acc => .ok acc
  | c :: cs, acc =>
    if isDigit c then
      if acc * 10 + (c.val - 48) < 2 ^ 64 then parseUint cs (acc * 10 + (c.val - 48))
      else .error .ErrRange
    else .error .ErrSyntax

/-- `strconv.Atoi(s)` on a 64 bit platform: an optional sign followed by at least one
decimal digit, with a value in the range of `int64`. -/
def Atoi (s : Str) : Except Error Int :=
  match s with
  | [] => .error (.NumError s .ErrSyntax)
  | c :: rest =>
    let neg := decide (c = 45)
    let body := if c = 45 ∨ c = 43 then rest else s
    if body = [] then .error (.NumError s .ErrSyntax)
    else
      match parseUint body 0 with
      | .error kind => .error (.NumError s kind)
      | .ok n =>
        if neg then
          if n ≤ 2 ^ 63 then .ok (-(n : Int)) else .error (.NumError s .ErrRange)
        else
          if n < 2 ^ 63 then .ok (n : Int) else .error (.NumError s .ErrRange)

/-- The conversion `uint32(x)` of an `int`. -/
def toUint32 (x : Int) : Nat := (x % 2 ^ 32).toNat

/-! ## `bytesPrefixEnd` -/

/-- The addition `b + 1` on a `byte`, wrapping at 256. -/
def incByte (b : Byte) : Byte := ⟨(b.val + 1) % 256, Nat.mod_lt _ (by decide)⟩

/-- The loop of `bytesPrefixEnd`: the counter is `i + 1` for the loop index `i`, the
second list is the working copy `end`. -/
def bytesPrefixEndLoop (b : List Byte) : Nat → List Byte → List Byte
  | 0, _ => b
  | i + 1, e =>
    let e1 := e.set i (incByte (e.getD i 0))
    if e1.getD i 0 ≠ 0 then e1.take (i + 1) else bytesPrefixEndLoop b i e1

def bytesPrefixEnd (b : List Byte) : List Byte := bytesPrefixEndLoop b b.length b

/-! ## `DataStoreKey` -/

structure DataStoreKey where
  CollectionRootID : Nat
  InstanceType : Str
  DocID : Str
  FieldId : Str
  deriving DecidableEq, Repr

def DataStoreKey.ToString (k : DataStoreKey) : Str :=
  let result : Str := []
  let result := if k.CollectionRootID ≠ 0 then result ++ slash :: Itoa (k.CollectionRootID : Int) else result
  let result := if k.InstanceType ≠ [] then result ++ slash :: k.InstanceType else result
  let result := if k.DocID ≠ [] then result ++ slash :: k.DocID else result
  let result := if k.FieldId ≠ [] then result ++ slash :: k.FieldId else result
  result

def DataStoreKey.Equal (k other : DataStoreKey) : Bool :=
  decide (k.CollectionRootID = other.CollectionRootID) &&
    decide (k.DocID = other.DocID) &&
    decide (k.FieldId = other.FieldId) &&
    decide (k.InstanceType = other.InstanceType)

def NewDataStoreKey (key : Str) : Except Error DataStoreKey :=
  let dataStoreKey : DataStoreKey := ⟨0, [], [], []⟩
  if key = [] then .error .ErrEmptyKey
  else
    let elements := Split slash (TrimPrefixSlash key)
    let numberOfElements := elements.length
    if numberOfElements < 3 ∨ numberOfElements > 4 then .error .ErrInvalidKey
    else
      match Atoi (elements.getD 0 []) with
      | .error err => .error err
      | .ok colRootID =>
        let dataStoreKey := { dataStoreKey with
          CollectionRootID := toUint32 colRootID
          InstanceType := elements.getD 1 []
          DocID := elements.getD 2 [] }
        let dataStoreKey :=
          if numberOfElements = 4 then { dataStoreKey with FieldId := elements.getD 3 [] }
          else dataStoreKey
        .ok dataStoreKey

def DataStoreKey.PrefixEnd (k : DataStoreKey) : DataStoreKey :=
  let newKey := k
  if k.FieldId ≠ [] then { newKey with FieldId := bytesPrefixEnd k.FieldId }
  else if k.DocID ≠ [] then { newKey with DocID := bytesPrefixEnd k.DocID }
  else if k.InstanceType ≠ [] then { newKey with InstanceType := bytesPrefixEnd k.InstanceType }
  else if k.CollectionRootID ≠ 0 then
    { newKey with CollectionRootID := (k.CollectionRootID + 1) % 2 ^ 32 }
  else newKey

/-! ## `IndexDataStoreKey` -/

structure IndexDataStoreKey where
  CollectionID : Nat
  IndexID : Nat
  FieldValues : List Str
  deriving DecidableEq, Repr

/-- The loop over `k.FieldValues` of `IndexDataStoreKey.ToString`, on the builder `sb`. -/
def writeFieldValues : List Str → Str → Str
  | [], sb => sb
  | v :: vs, sb => if v.length = 0 then sb else writeFieldValues vs (sb ++ slash :: v)

def IndexDataStoreKey.ToString (k : IndexDataStoreKey) : Str :=
  let sb : Str := []
  if k.CollectionID = 0 then []
  else
    let sb := sb ++ [slash]
    let sb := sb ++ Itoa (k.CollectionID : Int)
    if k.IndexID = 0 then sb
    else
      let sb := sb ++ [slash]
      let sb := sb ++ Itoa (k.IndexID : Int)
      writeFieldValues k.FieldValues sb

/-- The loop of `IndexDataStoreKey.Equal`, run once the lengths are known to agree. -/
def fieldValuesEqual : List Str → List Str → Bool
  | a :: as, b :: bs => if a ≠ b then false else fieldValuesEqual as bs
  | _, _ => true

def IndexDataStoreKey.Equal (k other : IndexDataStoreKey) : Bool :=
  if k.CollectionID ≠ other.CollectionID then false
  else if k.IndexID ≠ other.IndexID then false
  else if k.FieldValues.length ≠ other.FieldValues.length then false
  else fieldValuesEqual k.FieldValues other.FieldValues

def NewIndexDataStoreKey (key : Str) : Except Error IndexDataStoreKey :=
  if key = [] then .error .ErrEmptyKey
  else if !HasPrefixSlash key then .error .ErrInvalidKey
  else
    let elements := Split slash (key.drop 1)
    if elements.length < 3 then .error .ErrInvalidKey
    else
      match Atoi (elements.getD 0 []) with
      | .error _ => .error .ErrInvalidKey
      | .ok colID =>
        let indexKey : IndexDataStoreKey := ⟨toUint32 colID, 0, []⟩
        match Atoi (elements.getD 1 []) with
        | .error _ => .error .ErrInvalidKey
        | .ok indID =>
          let indexKey := { indexKey with IndexID := toUint32 indID }
          .ok { indexKey with FieldValues := indexKey.FieldValues ++ elements.drop 2 }

/-! ## `HeadStoreKey` -/

/-- The part of `github.com/ipfs/go-cid` the key model uses, for a type `Cid` of
content identifiers. -/
structure CidLib (Cid : Type) where
  Decode : Str → Except Error Cid
  String : Cid → Str
  Defined : Cid → Bool
  Undef : Cid

structure HeadStoreKey (Cid : Type) where
  DocID : Str
  FieldId : Str
  Cid : Cid
  deriving DecidableEq, Repr

def HeadStoreKey.ToString {Cid : Type} (L : CidLib Cid) (k : HeadStoreKey Cid) : Str :=
  let result : Str := []
  let result := if k.DocID ≠ [] then result ++ slash :: k.DocID else result
  let result := if k.FieldId ≠ [] then result ++ slash :: k.FieldId else result
  let result := if L.Defined k.Cid then result ++ slash :: L.String k.Cid else result
  result

def NewHeadStoreKey {Cid : Type} (L : CidLib Cid) (key : Str) : Except Error (HeadStoreKey Cid) :=
  let elements := Split slash key
  if elements.length ≠ 4 then .error .ErrInvalidKey
  else
    match L.Decode (elements.getD 3 []) with
    | .error err => .error err
    | .ok cid => .ok ⟨elements.getD 1 [], elements.getD 2 [], cid⟩

/-! ## `CollectionIndexKey` -/

def COLLECTION : Str := lit "collection"

def COLLECTION_INDEX : Str := lit "/collection/index"

/-- The field `CollectionID` is an `immutable.Option[uint32]`. -/
structure CollectionIndexKey where
  CollectionID : Option Nat
  IndexName : Str
  deriving DecidableEq, Repr

def NewCollectionIndexKeyFromString (key : Str) : Except Error CollectionIndexKey :=
  let keyArr := Split slash key
  if keyArr.length < 4 ∨ keyArr.length > 5 ∨ keyArr.getD 1 [] ≠ COLLECTION
      ∨ keyArr.getD 2 [] ≠ lit "index" then
    .error .ErrInvalidKey
  else
    match Atoi (keyArr.getD 3 []) with
    | .error err => .error err
    | .ok colID =>
      let result : CollectionIndexKey := ⟨some (toUint32 colID), []⟩
      let result := if keyArr.length = 5 then { result with IndexName := keyArr.getD 4 [] } else result
      .ok result

def CollectionIndexKey.ToString (k : CollectionIndexKey) : Str :=
  let result := COLLECTION_INDEX
  match k.CollectionID with
  | some v =>
    let result := result ++ slash :: Itoa (v : Int)
    if k.IndexName ≠ [] then result ++ slash :: k.IndexName else result
  | none => result

/-! ## `CollectionSchemaVersionKey` -/

structure CollectionSchemaVersionKey where
  SchemaVersionId : Str
  CollectionID : Nat
  deriving DecidableEq, Repr

/-- What a call of a Go function ends in: a value, an error, or a run time panic
for an index out of range. -/
inductive Outcome (α : Type)
  | ret (a : α)
  | fail (e : Error)
  | panicIndexOutOfRange (index : Int) (length : Nat)
  deriving DecidableEq, Repr

/-- The indexing `elements[i]` of a slice by an `int`. -/
def index? (elements : List Str) (i : Int) : Option Str :=
  if 0 ≤ i ∧ i < elements.length then elements.get? i.toNat else none

def NewCollectionSchemaVersionKeyFromString (key : Str) : Outcome CollectionSchemaVersionKey :=
  let elements := Split slash key
  match index? elements ((elements.length : Int) - 1) with
  | none => .panicIndexOutOfRange ((elements.length : Int) - 1) elements.length
  | some last =>
    match Atoi last with
    | .error err => .fail err
    | .ok colID =>
      match index? elements ((elements.length : Int) - 2) with
      | none => .panicIndexOutOfRange ((elements.length : Int) - 2) elements.length
      | some schemaVersionId => .ret ⟨schemaVersionId, toUint32 colID⟩

/-! ## JSON values and `encoding/json`

`client/descriptions.go` decodes with `encoding/json`. The embedding works on JSON
values: the text of a document is parsed by the library, a `json.RawMessage` is the
value it holds, and a Go string is taken to be valid UTF-8, which the library carries
unchanged. -/

/-- A JSON value; numbers are the integer literals. -/
inductive Json
  | null
  | bool (b : Bool)
  | num (n : Int)
  | str (s : Str)
  | arr (elems : List Json)
  | obj (fields : List (Str × Json))

/-- How `encoding/json` encodes and decodes the values of a Go type: `zero` is the zero
value, `Unmarshal v j` is `json.Unmarshal(j, &v)` and returns the new value of `v`. -/
structure JsonCodec (α : Type) where
  zero : α
  Marshal : α → Json
  Unmarshal : α → Json → Except Error α

/-- The types `client/descriptions.go` uses from other files, with their JSON codecs:
`request.Select`, `model.Lens`, `IndexDescription` and `PolicyDescription`. -/
structure Externals where
  Select : Type
  Lens : Type
  IndexDescription : Type
  PolicyDescription : Type
  select : JsonCodec Select
  lens : JsonCodec Lens
  index : JsonCodec IndexDescription
  policy : JsonCodec PolicyDescription

/-- ASCII case folding of an object key. -/
def foldKey (s : Str) : Str :=
  s.map (fun c => if 65 ≤ c.val ∧ c.val ≤ 90 then Fin.ofNat (c.val + 32) else c)

/-- The match of an object key with a struct field name: `encoding/json` takes the
field of that name, or else the field whose name is equal to it ignoring case. -/
def keyMatches (key field : Str) : Bool := decide (foldKey key = foldKey field)

/-- Decoding into a `uint32`. -/
def unmarshalUint32 (cur : Nat) : Json → Except Error Nat
  | .null => .ok cur
  | .num n => if 0 ≤ n ∧ n.toNat < 2 ^ 32 then .ok n.toNat else .error (.JsonError 1)
  | _ => .error (.JsonError 1)

/-- Decoding into a `string`. -/
def unmarshalString (cur : Str) : Json → Except Error Str
  | .null => .ok cur
  | .str s => .ok s
  | _ => .error (.JsonError 2)

/-- Decoding into an `immutable.Option[T]`: `null` is the option without a value. -/
def unmarshalOption {α : Type} (zero : α) (unmarshal : α → Json → Except Error α) :
    Json → Except Error (Option α)
  | .null => .ok none
  | j =>
    match unmarshal zero j with
    | .error err => .error err
    | .ok v => .ok (some v)

/-- Encoding of an `immutable.Option[T]`. -/
def marshalOption {α : Type} (marshal : α → Json) : Option α → Json
  | none => .null
  | some v => marshal v

/-- Decoding the elements of an array one after the other, each into a zero value. -/
def unmarshalElems {α : Type} (zero : α) (unmarshal : α → Json → Except Error α) :
    List Json → Except Error (List α)
  | [] => .ok []
  | j :: js =>
    match unmarshal zero j with
    | .error err => .error err
    | .ok v =>
      match unmarshalElems zero unmarshal js with
      | .error err => .error err
      | .ok vs => .ok (v :: vs)

/-- Decoding into a slice. -/
def unmarshalSlice {α : Type} (zero : α) (unmarshal : α → Json → Except Error α) :
    Json → Except Error (List α)
  | .null => .ok []
  | .arr elems => unmarshalElems zero unmarshal elems
  | _ => .error (.JsonError 3)

/-- A `map[string]json.RawMessage`, with its keys in increasing order as `json.Marshal`
writes them. -/
abbrev RawMap := List (Str × Json)

/-- The assignment `m[k] = v`. -/
def mapInsert (k : Str) (v : Json) : RawMap → RawMap
  | [] => [(k, v)]
  | (k2, v2) :: m =>
    if k = k2 then (k, v) :: m
    else if strLt k k2 then (k, v) :: (k2, v2) :: m
    else (k2, v2) :: mapInsert k v m

/-- The test `_, ok := m[k]`. -/
def mapHas (k : Str) (m : RawMap) : Bool := m.any (fun kv => decide (kv.1 = k))

/-- Decoding into a `map[string]json.RawMessage`. -/
def unmarshalRawMap (_cur : RawMap) : Json → Except Error RawMap
  | .null => .ok []
  | .obj fields => .ok (fields.foldl (fun m kv => mapInsert kv.1 kv.2 m) [])
  | _ => .error (.JsonError 4)

/-! ## `client/descriptions.go` -/

structure QuerySource (X : Externals) where
  Query : X.Select
  Transform : Option X.Lens

structure CollectionSource (X : Externals) where
  SourceCollectionID : Nat
  Transform : Option X.Lens

/-- An element of `Sources []any`: a `*QuerySource` or a `*CollectionSource`, the
source types the collection description supports. -/
inductive Source (X : Externals)
  | query (q : QuerySource X)
  | collection (c : CollectionSource X)

structure CollectionDescription (X : Externals) where
  Name : Option Str
  ID : Nat
  RootID : Nat
  SchemaVersionID : Str
  Sources : List (Source X)
  Indexes : List X.IndexDescription
  Policy : Option X.PolicyDescription

/-- The private type `collectionDescription`; it has no `Policy` field. -/
structure collectionDescription (X : Externals) where
  Name : Option Str
  ID : Nat
  RootID : Nat
  SchemaVersionID : Str
  Indexes : List X.IndexDescription
  Sources : List RawMap

/-- The loop of `encoding/json` over the keys of an object decoded into a
`collectionDescription`; a key that matches no field is skipped. -/
def unmarshalCollectionDescriptionFields (X : Externals) :
    List (Str × Json) → collectionDescription X → Except Error (collectionDescription X)
  | [], acc => .ok acc
  | (k, v) :: rest, acc =>
    if keyMatches k (lit "Name") then
      match unmarshalOption [] unmarshalString v with
      | .error err => .error err
      | .ok x => unmarshalCollectionDescriptionFields X rest { acc with Name := x }
    else if keyMatches k (lit "ID") then
      match unmarshalUint32 acc.ID v with
      | .error err => .error err
      | .ok x => unmarshalCollectionDescriptionFields X rest { acc with ID := x }
    else if keyMatches k (lit "RootID") then
      match unmarshalUint32 acc.RootID v with
      | .error err => .error err
      | .ok x => unmarshalCollectionDescriptionFields X rest { acc with RootID := x }
    else if keyMatches k (lit "SchemaVersionID") then
      match unmarshalString acc.SchemaVersionID v with
      | .error err => .error err
      | .ok x => unmarshalCollectionDescriptionFields X rest { acc with SchemaVersionID := x }
    else if keyMatches k (lit "Indexes") then
      match unmarshalSlice X.index.zero X.index.Unmarshal v with
      | .error err => .error err
      | .ok x => unmarshalCollectionDescriptionFields X rest { acc with Indexes := x }
    else if keyMatches k (lit "Sources") then
      match unmarshalSlice [] unmarshalRawMap v with
      | .error err => .error err
      | .ok x => unmarshalCollectionDescriptionFields X rest { acc with Sources := x }
    else unmarshalCollectionDescriptionFields X rest acc

/-- The call `json.Unmarshal(bytes, &descMap)` on a zero `descMap`. -/
def unmarshalCollectionDescription (X : Externals) : Json → Except Error (collectionDescription X)
  | .null => .ok ⟨none, 0, 0, [], [], []⟩
  | .obj fields => unmarshalCollectionDescriptionFields X fields ⟨none, 0, 0, [], [], []⟩
  | _ => .error (.JsonError 5)

/-- The loop of `encoding/json` over the keys of an object decoded into a `QuerySource`. -/
def unmarshalQuerySourceFields (X : Externals) :
    List (Str × Json) → QuerySource X → Except Error (QuerySource X)
  | [], acc => .ok acc
  | (k, v) :: rest, acc =>
    if keyMatches k (lit "Query") then
      match X.select.Unmarshal acc.Query v with
      | .error err => .error err
      | .ok x => unmarshalQuerySourceFields X rest { acc with Query := x }
    else if keyMatches k (lit "Transform") then
      match unmarshalOption X.lens.zero X.lens.Unmarshal v with
      | .error err => .error err
      | .ok x => unmarshalQuerySourceFields X rest { acc with Transform := x }
    else unmarshalQuerySourceFields X rest acc

/-- The call `json.Unmarshal(sourceJson, &querySource)` on a zero `querySource`. -/
def unmarshalQuerySource (X : Externals) : Json → Except Error (QuerySource X)
  | .null => .ok ⟨X.select.zero, none⟩
  | .obj fields => unmarshalQuerySourceFields X fields ⟨X.select.zero, none⟩
  | _ => .error (.JsonError 6)

/-- The loop of `encoding/json` over the keys of an object decoded into a
`CollectionSource`. -/
def unmarshalCollectionSourceFields (X : Externals) :
    List (Str × Json) → CollectionSource X → Except Error (CollectionSource X)
  | [], acc => .ok acc
  | (k, v) :: rest, acc =>
    if keyMatches k (lit "SourceCollectionID") then
      match unmarshalUint32 acc.SourceCollectionID v with
      | .error err => .error err
      | .ok x => unmarshalCollectionSourceFields X rest { acc with SourceCollectionID := x }
    else if keyMatches k (lit "Transform") then
      match unmarshalOption X.lens.zero X.lens.Unmarshal v with
      | .error err => .error err
      | .ok x => unmarshalCollectionSourceFields X rest { acc with Transform := x }
    else unmarshalCollectionSourceFields X rest acc

/-- The call `json.Unmarshal(sourceJson, &collectionSource)` on a zero `collectionSource`. -/
def unmarshalCollectionSource (X : Externals) : Json → Except Error (CollectionSource X)
  | .null => .ok ⟨0, none⟩
  | .obj fields => unmarshalCollectionSourceFields X fields ⟨0, none⟩
  | _ => .error (.JsonError 7)

/-- The body of the loop of `CollectionDescription.UnmarshalJSON` for one element
`source` of `descMap.Sources`: the value stored in `c.Sources[i]`, or the error
returned. `json.Marshal(source)` writes the map back as an object. -/
def unmarshalSource (X : Externals) (source : RawMap) : Except Error (Source X) :=
  let sourceJson := Json.obj source
  if mapHas (lit "Query") source then
    match unmarshalQuerySource X sourceJson with
    | .error err => .error err
    | .ok querySource => .ok (.query querySource)
  else if mapHas (lit "SourceCollectionID") source then
    match unmarshalCollectionSource X sourceJson with
    | .error err => .error err
    | .ok collectionSource => .ok (.collection collectionSource)
  else .error .ErrFailedToUnmarshalCollection

/-- The loop `for i, source := range descMap.Sources` of
`CollectionDescription.UnmarshalJSON`: `done` holds `c.Sources[0..i)`. -/
def unmarshalSources (X : Externals) : List RawMap → List (Source X) → Except Error (List (Source X))
  | [], done => .ok done
  | source :: rest, done =>
    match unmarshalSource X source with
    | .error err => .error err
    | .ok sourceValue => unmarshalSources X rest (done ++ [sourceValue])

/-- `CollectionDescription.UnmarshalJSON` on the receiver `c`: the value of `c` after a
call that returns no error, or the error returned. -/
def CollectionDescription.UnmarshalJSON {X : Externals} (c : CollectionDescription X)
    (bytes : Json) : Except Error (CollectionDescription X) :=
  match unmarshalCollectionDescription X bytes with
  | .error err => .error err
  | .ok descMap =>
    let c := { c with
      Name := descMap.Name
      ID := descMap.ID
      RootID := descMap.RootID
      SchemaVersionID := descMap.SchemaVersionID
      Indexes := descMap.Indexes }
    match unmarshalSources X descMap.Sources [] with
    | .error err => .error err
    | .ok sources => .ok { c with Sources := sources }

/-- The JSON encoding of a `*QuerySource` or `*CollectionSource`. -/
def Source.Marshal {X : Externals} : Source X → Json
  | .query q =>
    .obj [(lit "Query", X.select.Marshal q.Query),
      (lit "Transform", marshalOption X.lens.Marshal q.Transform)]
  | .collection c =>
    .obj [(lit "SourceCollectionID", .num (c.SourceCollectionID : Int)),
      (lit "Transform", marshalOption X.lens.Marshal c.Transform)]

/-- The JSON encoding `json.Marshal(d)` of a `CollectionDescription`: the type has no
`MarshalJSON`, every field is written under its name, `Policy` included. -/
def CollectionDescription.Marshal {X : Externals} (d : CollectionDescription X) : Json :=
  .obj [(lit "Name", marshalOption Json.str d.Name),
    (lit "ID", .num (d.ID : Int)),
    (lit "RootID", .num (d.RootID : Int)),
    (lit "SchemaVersionID", .str d.SchemaVersionID),
    (lit "Sources", .arr (d.Sources.map Source.Marshal)),
    (lit "Indexes", .arr (d.Indexes.map X.index.Marshal)),
    (lit "Policy", marshalOption X.policy.Marshal d.Policy)]

/-- The zero value of `CollectionDescription`. -/
def CollectionDescription.zero (X : Externals) : CollectionDescription X :=
  ⟨none, 0, 0, [], [], [], none⟩

/-- A codec for examples: a natural number `n` is written as the object
`{"Value": n}`. -/
def exampleCodec : JsonCodec Nat where
  zero := 0
  Marshal := fun n => .obj [(lit "Value", .num (n : Int))]
  Unmarshal := fun cur j =>
    match j with
    | .null => .ok cur
    | .obj [(_, .num n)] => if 0 ≤ n then .ok n.toNat else .error (.JsonError 8)
    | _ => .error (.JsonError 8)

/-- Externals for examples: every type is `Nat` with `exampleCodec`. -/
@[reducible] def exampleExternals : Externals where
  Select := Nat
  Lens := Nat
  IndexDescription := Nat
  PolicyDescription := Nat
  select := exampleCodec
  lens := exampleCodec
  index := exampleCodec
  policy := exampleCodec

/-- A content identifier library for examples: a `Cid` is its own string, the
undefined `Cid` is the empty string, and only non-empty strings decode. -/
def exampleCidLib : CidLib Str where
  Decode := fun s => if s = [] then .error (.CidError s) else .ok s
  String := fun c => c
  Defined := fun c => decide (c ≠ [])
  Undef := []

/-! ## `db/db.go` -/

/-- The fields of the struct `db` that the options and `NewTxn` act on; the stores, the
parser and the lens registry are left out. `previousTxnID` is the `atomic.Uint64`, `acp`
holds the path given to `WithACPModule`, `updateEvents` tells whether the update
channel was created. -/
structure db where
  maxTxnRetries : Option Int
  lensPoolSize : Option Int
  previousTxnID : Nat
  acp : Option Str
  updateEvents : Bool
  deriving DecidableEq, Repr

def defaultMaxTxnRetries : Int := 5

/-- The functional option type `Option func(*db)`: the options the package offers, and
the `nil` option. -/
inductive DBOption
  | nil
  | WithACPModule (path : Str)
  | WithUpdateEvents
  | WithMaxRetries (num : Int)
  | WithLensPoolSize (num : Int)
  deriving DecidableEq, Repr

/-- The call `opt(db)` of an option other than `nil`. -/
def DBOption.apply : DBOption → db → db
  | .nil, d => d
  | .WithACPModule path, d => { d with acp := some path }
  | .WithUpdateEvents, d => { d with updateEvents := true }
  | .WithMaxRetries num, d => { d with maxTxnRetries := some num }
  | .WithLensPoolSize num, d => { d with lensPoolSize := some num }

/-- The loop `for _, opt := range options` of `newDB`. -/
def applyOptions : List DBOption → db → db
  | [], d => d
  | opt :: options, d =>
    if opt = .nil then applyOptions options d
    else applyOptions options (opt.apply d)

/-- The `db` that `newDB` builds before it applies the options. -/
def newDBStruct : db := ⟨none, none, 0, none, false⟩

def db.MaxTxnRetries (d : db) : Int :=
  match d.maxTxnRetries with
  | some v => v
  | none => defaultMaxTxnRetries

/-- A `datastore.Txn`, known by the ID and the flags it was created with. -/
structure Txn where
  id : Nat
  readonly : Bool
  concurrent : Bool
  deriving DecidableEq, Repr

/-- What the functions of `db/txn_db.go` call outside the file: the constructors of
package `datastore`, `txn.Commit`, and the operations of `db` that take a transaction.
`Cols` stands for `[]client.CollectionDescription`, `GQLData` for the data of a
`client.RequestResult`. -/
structure TxnEnv where
  Cols : Type
  GQLData : Type
  NewTxnFrom : Nat → Bool → Except Error Txn
  NewConcurrentTxnFrom : Nat → Bool → Except Error Txn
  Commit : Txn → Option Error
  execRequest : Txn → Str → Option GQLData × List Error
  addSchema : Txn → Str → Except Error Cols
  patchSchema : Txn → Str → Option Error

/-- The call `db.previousTxnID.Add(1)`: the counter wraps at `2 ^ 64`. -/
def db.addTxnID (d : db) : db × Nat :=
  ({ d with previousTxnID := (d.previousTxnID + 1) % 2 ^ 64 }, (d.previousTxnID + 1) % 2 ^ 64)

def db.NewTxn (E : TxnEnv) (d : db) (readonly : Bool) : db × Except Error Txn :=
  let (d, txnId) := d.addTxnID
  (d, E.NewTxnFrom txnId readonly)

def db.NewConcurrentTxn (E : TxnEnv) (d : db) (readonly : Bool) : db × Except Error Txn :=
  let (d, txnId) := d.addTxnID
  (d, E.NewConcurrentTxnFrom txnId readonly)

/-- A call of `db.NewTxn` or of `db.NewConcurrentTxn`, with its `readonly` argument. -/
inductive TxnCall
  | NewTxn (readonly : Bool)
  | NewConcurrentTxn (readonly : Bool)
  deriving DecidableEq, Repr

/-- The transaction IDs given to a sequence of calls on one `db`, in the order in which
the calls reach the counter. -/
def txnIDsOfCalls : List TxnCall → db → List Nat
  | [], _ => []
  | _ :: calls, d => d.addTxnID.2 :: txnIDsOfCalls calls d.addTxnID.1

/-! ## `db/txn_db.go` -/

/-- What happens to a transaction during an operation of `implicitTxnDB` or
`explicitTxnDB`, by the ID of the transaction. -/
inductive TxnEvent
  | run (id : Nat)
  | commit (id : Nat)
  | discard (id : Nat)
  deriving DecidableEq, Repr

/-- A `client.RequestResult`: the data and `GQL.Errors`. -/
structure RequestResult (E : TxnEnv) where
  Data : Option E.GQLData
  Errors : List Error

/-- `implicitTxnDB.ExecRequest`: the new state of the `db`, the result, and the events
on the transaction; `defer txn.Discard(ctx)` gives the last event of every path. -/
def implicitTxnDB.ExecRequest (E : TxnEnv) (d : db) (request : Str) :
    db × RequestResult E × List TxnEvent :=
  match d.NewTxn E false with
  | (d, .error err) => (d, ⟨none, [err]⟩, [])
  | (d, .ok txn) =>
    let res : RequestResult E := ⟨(E.execRequest txn request).1, (E.execRequest txn request).2⟩
    if res.Errors.length > 0 then (d, res, [.run txn.id, .discard txn.id])
    else
      match E.Commit txn with
      | some err => (d, { res with Errors := [err] }, [.run txn.id, .commit txn.id, .discard txn.id])
      | none => (d, res, [.run txn.id, .commit txn.id, .discard txn.id])

def explicitTxnDB.ExecRequest (E : TxnEnv) (txn : Txn) (request : Str) :
    RequestResult E × List TxnEvent :=
  (⟨(E.execRequest txn request).1, (E.execRequest txn request).2⟩, [.run txn.id])

def implicitTxnDB.AddSchema (E : TxnEnv) (d : db) (schemaString : Str) :
    db × Except Error E.Cols × List TxnEvent :=
  match d.NewTxn E false with
  | (d, .error err) => (d, .error err, [])
  | (d, .ok txn) =>
    match E.addSchema txn schemaString with
    | .error err => (d, .error err, [.run txn.id, .discard txn.id])
    | .ok cols =>
      match E.Commit txn with
      | some err => (d, .error err, [.run txn.id, .commit txn.id, .discard txn.id])
      | none => (d, .ok cols, [.run txn.id, .commit txn.id, .discard txn.id])

def explicitTxnDB.AddSchema (E : TxnEnv) (txn : Txn) (schemaString : Str) :
    Except Error E.Cols × List TxnEvent :=
  (E.addSchema txn schemaString, [.run txn.id])

/-- `implicitTxnDB.PatchSchema`, for fixed `migration` and `setAsDefaultVersion`. -/
def implicitTxnDB.PatchSchema (E : TxnEnv) (d : db) (patchString : Str) :
    db × Option Error × List TxnEvent :=
  match d.NewTxn E false with
  | (d, .error err) => (d, some err, [])
  | (d, .ok txn) =>
    match E.patchSchema txn patchString with
    | some err => (d, some err, [.run txn.id, .discard txn.id])
    | none => (d, E.Commit txn, [.run txn.id, .commit txn.id, .discard txn.id])

def explicitTxnDB.PatchSchema (E : TxnEnv) (txn : Txn) (patchString : Str) :
    Option Error × List TxnEvent :=
  (E.patchSchema txn patchString, [.run txn.id])

/-- An environment for examples: the commit of the transaction with ID 1 fails with a
transaction conflict, every other call succeeds. -/
@[reducible] def conflictOnFirstEnv : TxnEnv where
  Cols := List Nat
  GQLData := Nat
  NewTxnFrom := fun id readonly => .ok ⟨id, readonly, false⟩
  NewConcurrentTxnFrom := fun id readonly => .ok ⟨id, readonly, true⟩
  Commit := fun txn => if txn.id = 1 then some .ErrTxnConflict else none
  execRequest := fun txn _ => (some txn.id, [])
  addSchema := fun txn _ => .ok [txn.id]
  patchSchema := fun _ _ => none

/-! ## `net/peer.go`: the broadcast loop -/

/-- A `core.Log`; `Priority` is a `uint64`, the block is held as its raw data. -/
structure Log where
  DocKey : Str
  Cid : Str
  SchemaID : Str
  Block : Str
  Priority : Nat
  deriving DecidableEq, Repr

/-- A value received from the internal broadcaster: a `core.Log` or a value of another
type. -/
inductive BusMessage
  | log (msg : Log)
  | other (tag : Nat)
  deriving DecidableEq, Repr

/-- What the peer does while it handles broadcast messages, in order. -/
inductive PeerEvent
  | warnNoBus
  | create (lg : Log)
  | update (lg : Log)
  | skip (lg : Log)
  | pushLogToReplicators (lg : Log)
  | addPubSubTopic (topic : Str)
  | publishLog (topic : Str) (cid : Str)
  | logError (err : Error)
  deriving DecidableEq, Repr

/-- What the handlers of `net/peer.go` call outside the file: `key.NewFromString` (the
result is the string of the key), `db.GetBlock`, and the server's `addPubSubTopic` and
`publishLog`. -/
structure PeerEnv where
  NewFromString : Str → Except Error Str
  GetBlock : Str → Except Error Str
  addPubSubTopic : Str → Option Error
  publishLog : Str → Str → Option Error

/-- `Peer.RegisterNewDocument`: the error returned and the events. -/
def Peer.RegisterNewDocument (P : PeerEnv) (dockey : Str) (c : Str) :
    Option Error × List PeerEvent :=
  match P.GetBlock c with
  | .error err => (some err, [])
  | .ok _ =>
    match P.addPubSubTopic dockey with
    | some err => (some err, [.addPubSubTopic dockey])
    | none => (P.publishLog dockey c, [.addPubSubTopic dockey, .publishLog dockey c])

/-- `Peer.handleDocCreateLog`; an error of `key.NewFromString` is returned wrapped. -/
def Peer.handleDocCreateLog (P : PeerEnv) (lg : Log) : Option Error × List PeerEvent :=
  match P.NewFromString lg.DocKey with
  | .error err => (some err, [])
  | .ok dockey =>
    ((Peer.RegisterNewDocument P dockey lg.Cid).1,
      .pushLogToReplicators lg :: (Peer.RegisterNewDocument P dockey lg.Cid).2)

/-- `Peer.handleDocUpdateLog`; the errors are returned wrapped. -/
def Peer.handleDocUpdateLog (P : PeerEnv) (lg : Log) : Option Error × List PeerEvent :=
  match P.NewFromString lg.DocKey with
  | .error err => (some err, [])
  | .ok _ =>
    (P.publishLog lg.DocKey lg.Cid, [.pushLogToReplicators lg, .publishLog lg.DocKey lg.Cid])

/-- The events of `if err != nil { log.Errorf(...) }`. -/
def logErrorEvents : Option Error → List PeerEvent
  | some err => [.logError err]
  | none => []

/-- The body of the loop of `Peer.handleBroadcastLoop` for one value `v` received from
the broadcaster. -/
def Peer.handleBroadcastMessage (P : PeerEnv) (v : BusMessage) : List PeerEvent :=
  match v with
  | .log msg =>
    if msg.Priority = 1 then
      .create msg :: (Peer.handleDocCreateLog P msg).2 ++
        logErrorEvents (Peer.handleDocCreateLog P msg).1
    else if msg.Priority > 1 then
      .update msg :: (Peer.handleDocUpdateLog P msg).2 ++
        logErrorEvents (Peer.handleDocUpdateLog P msg).1
    else [.skip msg]
  | .other _ => []

/-- `Peer.handleBroadcastLoop` on the values the channel of the listener delivers; the
bus is `none` when `p.bus == nil`. -/
def Peer.handleBroadcastLoop (P : PeerEnv) : Option (List BusMessage) → List PeerEvent
  | none => [.warnNoBus]
  | some [] => []
  | some (v :: rest) => Peer.handleBroadcastMessage P v ++ Peer.handleBroadcastLoop P (some rest)

/-- A peer environment for examples: every call succeeds. -/
def examplePeerEnv : PeerEnv where
  NewFromString := fun s => .ok s
  GetBlock := fun c => .ok c
  addPubSubTopic := fun _ => none
  publishLog := fun _ _ => none

/-! ## `db/fetcher/indexer.go`: `IndexFetcher.FetchNext` -/

/-- A `client.FieldDescription`. -/
structure FieldDescription where
  Name : Str
  ID : Nat
  Kind : Nat
  Schema : Str
  RelationName : Str
  Typ : Nat
  IsPrimaryRelation : Bool
  deriving DecidableEq, Repr

structure encProperty where
  Desc : FieldDescription
  Raw : Str
  deriving DecidableEq, Repr

/-- The fields of `encodedDocument` that `FetchNext` sets from an index entry; the map
`properties` is a list of entries with distinct keys. -/
structure encodedDocument where
  id : Str
  properties : List (FieldDescription × encProperty)
  deriving DecidableEq, Repr

/-- The result of `indexIter.Next()`. -/
structure indexIterResult where
  key : IndexDataStoreKey
  foundKey : Bool
  value : Str
  deriving DecidableEq, Repr

/-- The assignment `properties[field] = property`. -/
def setProperty (field : FieldDescription) (property : encProperty) :
    List (FieldDescription × encProperty) → List (FieldDescription × encProperty)
  | [] => [(field, property)]
  | (f, p) :: rest =>
    if f = field then (field, property) :: rest else (f, p) :: setProperty field property rest

def cborNil : Byte := 0xf6

/-- The loop `for i, indexedField := range f.indexedFields` of `FetchNext`, from the
index `i` on, with the properties and `hasNilField` so far; `none` is the index out of
range panic of `res.key.FieldValues[i]`. -/
def fetchIndexedFields (FieldValues : List Str) :
    List FieldDescription → Nat → List (FieldDescription × encProperty) → Bool →
      Option (List (FieldDescription × encProperty) × Bool)
  | [], _, properties, hasNilField => some (properties, hasNilField)
  | indexedField :: rest, i, properties, hasNilField =>
    match FieldValues.get? i with
    | none => none
    | some raw =>
      let property : encProperty := ⟨indexedField, raw⟩
      let hasNilField :=
        if raw.length = 1 ∧ raw.get? 0 = some cborNil then true else hasNilField
      fetchIndexedFields FieldValues rest (i + 1) (setProperty indexedField property properties)
        hasNilField

/-- How the part of the loop body of `FetchNext` that reads one index entry ends. -/
inductive FetchEntry
  | failed (err : Error)
  | noMore
  | entry (doc : encodedDocument)
  | panicIndexOutOfRange
  deriving DecidableEq, Repr

/-- The loop body of `IndexFetcher.FetchNext` from `f.doc.Reset()` to the assignment of
`f.doc.id`, for the result `next` of `f.indexIter.Next()`, the fields `f.indexedFields`
and the flag `f.indexDesc.Unique`: the document held in `f.doc` after the assignment.
The document fetcher part that follows in the loop body is not embedded. -/
def IndexFetcher.fetchEntry (indexedFields : List FieldDescription) (Unique : Bool)
    (next : Except Error indexIterResult) : FetchEntry :=
  match next with
  | .error err => .failed err
  | .ok res =>
    if !res.foundKey then .noMore
    else
      match fetchIndexedFields res.key.FieldValues indexedFields 0 [] false with
      | none => .panicIndexOutOfRange
      | some (properties, hasNilField) =>
        if Unique && !hasNilField then .entry ⟨res.value, properties⟩
        else
          match index? res.key.FieldValues ((res.key.FieldValues.length : Int) - 1) with
          | none => .panicIndexOutOfRange
          | some last => .entry ⟨last, properties⟩

/-! ## `merkle/clock/ipld.go` -/

/-- An `ipld.Link`. -/
structure Link where
  Name : Str
  Size : Nat
  Cid : Str
  deriving DecidableEq, Repr

/-- The part of `github.com/ipfs/go-merkledag` that `makeNode` uses, for a type `Node`
of nodes: `dag.NodeWithData`, `AddRawLink`, and the data and links of a node. -/
structure DagLib (Node : Type) where
  NodeWithData : Str → Node
  AddRawLink : Node → Str → Link → Except Error Node
  Data : Node → Str
  Links : Node → List Link

/-- The loop `for _, h := range heads` of `makeNode`. -/
def makeNodeLinks {Node : Type} (L : DagLib Node) : List Str → Node → Except Error Node
  | [], nd => .ok nd
  | h :: heads, nd =>
    match L.AddRawLink nd [] ⟨[], 0, h⟩ with
    | .error err => .error err
    | .ok nd => makeNodeLinks L heads nd

/-- `makeNode`; the delta is `none` when `delta == nil`, `Marshal` is the method of
`core.Delta`. -/
def makeNode {Node Delta : Type} (L : DagLib Node) (Marshal : Delta → Except Error Str)
    (delta : Option Delta) (heads : List Str) : Except Error Node :=
  match delta with
  | some d =>
    match Marshal d with
    | .error err => .error err
    | .ok data => makeNodeLinks L heads (L.NodeWithData data)
  | none => makeNodeLinks L heads (L.NodeWithData [])

/-- A node for examples: its data and its links. -/
structure ExampleNode where
  data : Str
  links : List Link
  deriving DecidableEq, Repr

/-- A library for examples: `AddRawLink` appends a copy of the link under the given
name. -/
def exampleDagLib : DagLib ExampleNode where
  NodeWithData := fun data => ⟨data, []⟩
  AddRawLink := fun nd name l => .ok { nd with links := nd.links ++ [⟨name, l.Size, l.Cid⟩] }
  Data := fun nd => nd.data
  Links := fun nd => nd.links

/-! ## The access control module

The module (`acp/acp_local.go`) is not among the sources; `acp/acp_local_test.go` and
the integration tests call it. -/

/-- Modelled from the spec: the entity DocumentObject, with identity
`(policyID, resource, docID)` and the owner identity as its attribute; the type is
declared in the access control module, which is not among the sources. -/
structure DocumentObject where
  policyID : Str
  resource : Str
  docID : Str
  owner : Str
  deriving DecidableEq, Repr

/-- Modelled from the spec: a permission of a resource of a policy, by the key
`resources.<name>.permissions.<name>.expr` of the policy language; the policy types are
declared in the access control module, which is not among the sources. -/
structure PolicyPermission where
  name : Str
  expr : Str
  deriving DecidableEq, Repr

/-- Modelled from the spec: a relation of a resource of a policy, by the key
`resources.<name>.relations.<name>.types` of the policy language; the policy types are
declared in the access control module, which is not among the sources. -/
structure PolicyRelation where
  name : Str
  types : List Str
  deriving DecidableEq, Repr

/-- Modelled from the spec: a resource of a policy, with its permissions and relations;
the policy types are declared in the access control module, which is not among the
sources. -/
structure PolicyResource where
  name : Str
  permissions : List PolicyPermission
  relations : List PolicyRelation
  deriving DecidableEq, Repr

/-- Modelled from the spec: a registered policy, with its ID, the name of its actor type
and its resources; the policy types are declared in the access control module, which
is not among the sources. -/
structure Policy where
  id : Str
  description : Str
  actorName : Str
  resources : List PolicyResource
  deriving DecidableEq, Repr

/-- Modelled from the spec: the state of the access control module, the registered
policies and the registered document objects (registered on first write, never
removed); the module is not among the sources. -/
structure ACPState where
  policies : List Policy
  objects : List DocumentObject
  deriving DecidableEq, Repr

/-- Modelled from the spec: the protected permissions, `write` and `read`, which the
tests name `WritePermission` and `ReadPermission`; the type is declared in the access
control module, which is not among the sources. -/
inductive DPIPermission
  | ReadPermission
  | WritePermission
  deriving DecidableEq, Repr

/-- Modelled from the spec: the lookup of the DocumentObject `(policyID, resource,
docID)` among the registered ones; the access control module is not among the
sources. -/
def ACPState.findObject (s : ACPState) (policyID resource docID : Str) : Option DocumentObject :=
  s.objects.find? (fun o => decide (o.policyID = policyID ∧ o.resource = resource ∧ o.docID = docID))

/-- Modelled from the spec: `IsDocRegistered(policyID, resource, docID) → bool`, with
the error of scenario 2 for an empty document and resource; the function
(`acp/acp_local.go`) is not among the sources. -/
def ACPState.IsDocRegistered (s : ACPState) (policyID resource docID : Str) : Bool × Option Error :=
  if resource = [] ∨ docID = [] then (false, some .ErrFailedToCheckIfDocIsRegisteredWithACP)
  else ((s.findObject policyID resource docID).isSome, none)

/-- Modelled from the spec: `RegisterDocObject(actor, policyID, resource, docID)` marks
the document as owned by `actor`; an empty `docID` or `resource` is an error; a
registered object is never removed, so a second registration is an error as well. The
function (`acp/acp_local.go`) is not among the sources. The result is the new state. -/
def ACPState.RegisterDocObject (s : ACPState) (actor policyID resource docID : Str) :
    Except Error ACPState :=
  if resource = [] ∨ docID = [] then .error .ErrFailedToRegisterDocWithACP
  else
    match s.findObject policyID resource docID with
    | some _ => .error .ErrFailedToRegisterDocWithACP
    | none => .ok { s with objects := s.objects ++ [⟨policyID, resource, docID, actor⟩] }

/-- Modelled from the spec: `CheckDocAccess(permission, actor, policyID, resource,
docID) → bool`: an unregistered document yields `false` and no error, empty arguments
(an empty resource or document ID, as for the registration) yield an error, and for a
registered DocumentObject the owner has access and every other actor has not. The
function (`acp/acp_local.go`) is not among the sources. -/
def ACPState.CheckDocAccess (s : ACPState) (_permission : DPIPermission)
    (actor policyID resource docID : Str) : Bool × Option Error :=
  if resource = [] ∨ docID = [] then (false, some .ErrFailedToVerifyDocAccessWithACP)
  else
    match s.findObject policyID resource docID with
    | none => (false, none)
    | some object => (decide (object.owner = actor), none)

/-- Modelled from the spec: the characters of a relation token of a permission
expression, letters, digits and the underscore; the parser of expressions is in the
access control module, which is not among the sources. -/
def isIdentChar (c : Byte) : Bool :=
  (decide (97 ≤ c.val) && decide (c.val ≤ 122)) || (decide (65 ≤ c.val) && decide (c.val ≤ 90)) ||
    (decide (48 ≤ c.val) && decide (c.val ≤ 57)) || decide (c.val = 95)

/-- Modelled from the spec: the DPI requirement on the expression of a protected
permission, a sum of relations that starts with the required relation token: no
other token and no whitespace may precede the token, and after it, spaces aside, the
expression ends or goes on with `+`. The result is the error, `none` for a compliant
expression. The check is in the access control module, which is not among the
sources. -/
def validateDPIExpr (permission relation expr : Str) : Option Error :=
  if relation.isPrefixOf expr then
    match (expr.drop relation.length).dropWhile (fun c => decide (c = 32)) with
    | [] => none
    | c :: _ =>
      if c = 43 then none
      else some (.DPINonCompliant permission relation (.invalidCharAfterRelation c))
  else some (.DPINonCompliant permission relation .exprMustStartWithRelation)

/-- Modelled from the spec: the DPI requirement on one protected permission of a
resource; the permission has to be there and its expression has to be compliant. The
check is in the access control module, which is not among the sources. -/
def validateDPIPermission (r : PolicyResource) (permission : Str) : Option Error :=
  match r.permissions.find? (fun p => decide (p.name = permission)) with
  | none => some (.DPINonCompliant permission (lit "owner") .missingPermission)
  | some p => validateDPIExpr permission (lit "owner") p.expr

/-- Modelled from the spec: `ValidateResourceExistsOnValidDPI(policyID, resource)`
checks that the policy exists and names the resource, and that the policy meets the DPI
requirements: for the protected permissions `write` and `read` the expression starts
with the `owner` relation token, and the `owner` relation includes the actor type. The
function (`acp/acp_local.go`) is not among the sources. -/
def ACPState.ValidateResourceExistsOnValidDPI (s : ACPState) (policyID resource : Str) :
    Option Error :=
  match s.policies.find? (fun p => decide (p.id = policyID)) with
  | none => some .ErrPolicyDoesNotExistWithACP
  | some policy =>
    match policy.resources.find? (fun r => decide (r.name = resource)) with
    | none => some .ErrResourceDoesNotExistOnTargetPolicy
    | some r =>
      match validateDPIPermission r (lit "write") with
      | some err => some err
      | none =>
        match validateDPIPermission r (lit "read") with
        | some err => some err
        | none =>
          match r.relations.find? (fun rel => decide (rel.name = lit "owner")) with
          | none => some (.DPINonCompliant (lit "write") (lit "owner") .relationWithoutActor)
          | some rel =>
            if policy.actorName ∈ rel.types then none
            else some (.DPINonCompliant (lit "write") (lit "owner") .relationWithoutActor)

/-- Modelled from the spec: a type of a schema definition, with its fields and its
optional directive `@policy(id: ..., resource: ...)`; the schema parser is not among
the sources. -/
structure SchemaTypeDef where
  name : Str
  fields : List (Str × Str)
  policy : Option (Str × Str)
  deriving DecidableEq, Repr

/-- Modelled from the spec: a collection created by `AddSchema`, with its ID from the
`collection` sequence, its name (the name of its type) and its optional policy
binding; the collection store is not among the sources. -/
structure SchemaCollection where
  id : Nat
  name : Str
  policy : Option (Str × Str)
  deriving DecidableEq, Repr

/-- Modelled from the spec: the state `AddSchema` works on, the access control module,
the collections with their types, and the `collection` sequence; the database schema
code is not among the sources. -/
structure SchemaState where
  acp : ACPState
  collections : List SchemaCollection
  collectionSeq : Nat
  deriving DecidableEq, Repr

/-- Modelled from the spec: the validation of the `@policy` directive of a type: both
arguments are required and not empty, and the named policy resource has to exist on a
DPI valid policy. The validation is in the schema code, which is not among the
sources. -/
def SchemaState.validatePolicyDirective (s : SchemaState) (t : SchemaTypeDef) : Option Error :=
  match t.policy with
  | none => none
  | some (id, resource) =>
    if id = [] then some .ErrPolicyIDEmpty
    else if resource = [] then some .ErrPolicyResourceEmpty
    else s.acp.ValidateResourceExistsOnValidDPI id resource

/-- Modelled from the spec: the first error among the policy directives of the types of
a schema, in the order of the types; the schema code is not among the sources. -/
def SchemaState.validatePolicyDirectives (s : SchemaState) : List SchemaTypeDef → Option Error
  | [] => none
  | t :: types =>
    match s.validatePolicyDirective t with
    | some err => some err
    | none => s.validatePolicyDirectives types

/-- Modelled from the spec: the creation of the collections of the types of a schema,
each with a new ID from the `collection` sequence; the schema code is not among the
sources. -/
def SchemaState.createCollections (s : SchemaState) : List SchemaTypeDef → SchemaState
  | [] => s
  | t :: types =>
    SchemaState.createCollections
      { s with
        collections := s.collections ++ [⟨s.collectionSeq + 1, t.name, t.policy⟩]
        collectionSeq := s.collectionSeq + 1 } types

/-- Modelled from the spec: `AddSchema` on a parsed schema definition: the policy
directives are validated, the types must not exist, and then a collection is created
for every type; when the schema is rejected the state stays as it is. The result is
the state after the call and the error. The function `addSchema` is not among the
sources. -/
def SchemaState.AddSchema (s : SchemaState) (types : List SchemaTypeDef) :
    SchemaState × Option Error :=
  match s.validatePolicyDirectives types with
  | some err => (s, some err)
  | none =>
    if types.any (fun t => s.collections.any (fun c => decide (c.name = t.name))) then
      (s, some .ErrSchemaTypeAlreadyExists)
    else (s.createCollections types, none)

/-- The policy of the tests of `reject_invalid_owner_write_perm_on_dpi_test.go`, with the
expression given for the permission `write`. -/
def testPolicy (id writeExpr : Str) : Policy :=
  ⟨id, lit "a policy", lit "actor",
    [⟨lit "users", [⟨lit "read", lit "owner"⟩, ⟨lit "write", writeExpr⟩],
      [⟨lit "owner", [lit "actor"]⟩, ⟨lit "writer", [lit "actor"]⟩]⟩]⟩

/-- The type `Users` of the tests, bound to the resource `users` of the policy `id`. -/
def testUsersType (id : Str) : SchemaTypeDef :=
  ⟨lit "Users", [(lit "name", lit "String"), (lit "age", lit "Int")], some (id, lit "users")⟩

/-! ## `merkle/clock/ipld.go`: the node getter -/

/-- An `ipld.Node`: a `*dag.ProtoNode` with its data and links, or a node of another
kind. -/
inductive IpldNode
  | proto (data : Str) (links : List Link)
  | other (tag : Nat)
  deriving DecidableEq, Repr

/-- `dag.NodeWithData`, `AddRawLink`, `Data` and `Links` on a `*dag.ProtoNode`:
`AddRawLink` adds a copy of the link to the node. -/
def protoNodeLib : DagLib IpldNode where
  NodeWithData := fun data => .proto data []
  AddRawLink := fun nd name l =>
    match nd with
    | .proto data links => .ok (.proto data (links ++ [⟨name, l.Size, l.Cid⟩]))
    | .other _ => .error .ErrNotProtoNode
  Data := fun nd =>
    match nd with
    | .proto data _ => data
    | .other _ => []
  Links := fun nd =>
    match nd with
    | .proto _ links => links
    | .other _ => []

/-- What `crdtNodeGetter` calls outside the file: `Get` of the embedded
`ipld.NodeGetter`, `proto.Unmarshal` into a `pb.Delta`, and `GetPriority` of the
delta. -/
structure NodeGetterEnv where
  Delta : Type
  Get : Str → Except Error IpldNode
  Unmarshal : Str → Except Error Delta
  GetPriority : Delta → Nat

/-- `extractDelta`; the delta that the source returns next to an error is dropped. -/
def extractDelta (G : NodeGetterEnv) (nd : IpldNode) : Except Error G.Delta :=
  match nd with
  | .other _ => .error .ErrNotProtoNode
  | .proto data _ => G.Unmarshal data

def crdtNodeGetter.GetDelta (G : NodeGetterEnv) (c : Str) : Except Error (IpldNode × G.Delta) :=
  match G.Get c with
  | .error err => .error err
  | .ok nd =>
    match extractDelta G nd with
    | .error err => .error err
    | .ok delta => .ok (nd, delta)

/-- `crdtNodeGetter.GetPriority`: the height of a block, and the error. -/
def crdtNodeGetter.GetPriority (G : NodeGetterEnv) (c : Str) : Nat × Option Error :=
  match crdtNodeGetter.GetDelta G c with
  | .error err => (0, some err)
  | .ok (_, delta) => (G.GetPriority delta, none)

/-! ## The Merkle clock

The clock (`merkle/clock/clock.go`) is not among the sources. -/

/-- Modelled from the spec: a delta, an opaque payload plus the priority, the logical
clock value; the delta types are not among the sources. -/
structure ClockDelta where
  priority : Nat
  payload : Str
  deriving DecidableEq, Repr

/-- Modelled from the spec: a head, the CID of a block that is a head of
`(docID, fieldID)`, with the priority of the block; the head store is not among the
sources. -/
structure Head where
  docID : Str
  fieldID : Str
  cid : Str
  priority : Nat
  deriving DecidableEq, Repr

/-- Modelled from the spec: the state of the clock, the persisted blocks by CID and the
head store; the stores are not among the sources. -/
structure ClockState where
  blocks : List (Str × IpldNode)
  heads : List Head
  deriving DecidableEq, Repr

/-- Modelled from the spec: the serialization of deltas and the computation of the CID
of a block, which the clock takes from the codec and the CID library; they are not
among the sources. -/
structure ClockEnv where
  Marshal : ClockDelta → Except Error Str
  Unmarshal : Str → Except Error ClockDelta
  cidOf : IpldNode → Str

/-- Modelled from the spec: the current heads `H` of `(docID, fieldID)`, step 1 of adding
a local delta; the head store is not among the sources. -/
def ClockState.headsOf (s : ClockState) (docID fieldID : Str) : List Head :=
  s.heads.filter (fun h => decide (h.docID = docID ∧ h.fieldID = fieldID))

/-- Modelled from the spec: `max h∈H priority(h)`, which is 0 for no heads; the clock
is not among the sources. -/
def maxPriority : List Head → Nat
  | [] => 0
  | h :: H => max h.priority (maxPriority H)

/-- Modelled from the spec: adding a local delta `(docID, fieldID, payload)`: read the
current heads `H`, compute `priority = (max h∈H priority(h)) + 1`, serialize the delta
and attach the parent links `H` (with `makeNode` of `merkle/clock/ipld.go`), compute the
CID, persist the block and replace the old heads by the new head with its priority.
The merge of the delta into the field value (step 5) is left out. The result is the
new state and the CID of the block. The clock (`merkle/clock/clock.go`) is not among
the sources. -/
def ClockState.AddDelta (C : ClockEnv) (s : ClockState) (docID fieldID payload : Str) :
    Except Error (ClockState × Str) :=
  let H := s.headsOf docID fieldID
  let priority := maxPriority H + 1
  match makeNode protoNodeLib C.Marshal (some (ClockDelta.mk priority payload))
      (H.map (fun h => h.cid)) with
  | .error err => .error err
  | .ok nd =>
    let cid := C.cidOf nd
    .ok ({ blocks := (cid, nd) :: s.blocks
           heads := s.heads.filter (fun h => !decide (h.docID = docID ∧ h.fieldID = fieldID))
             ++ [⟨docID, fieldID, cid, priority⟩] }, cid)

/-- Modelled from the spec: the lookup of a persisted block by its CID; the block store
is not among the sources. -/
def ClockState.getBlock (s : ClockState) (c : Str) : Except Error IpldNode :=
  match s.blocks.find? (fun b => decide (b.1 = c)) with
  | some b => .ok b.2
  | none => .error (.StoreError 0)

/-- The node getter over the blocks of a clock state. -/
@[reducible] def ClockState.nodeGetter (C : ClockEnv) (s : ClockState) : NodeGetterEnv where
  Delta := ClockDelta
  Get := s.getBlock
  Unmarshal := C.Unmarshal
  GetPriority := fun delta => delta.priority

/-- The constant `core.COMPOSITE_NAMESPACE`, the field ID of the composite CRDT of a
document (`FieldId` "can be 'C'", `core/key.go`). -/
def COMPOSITE_NAMESPACE : Str := lit "C"

/-- The decoding of the serialization of the examples: the priority in unary, a zero
byte, and the payload. -/
def unmarshalUnary : Str → Except Error ClockDelta
  | [] => .error (.ProtoError 0)
  | b :: rest =>
    if b = 0 then .ok ⟨0, rest⟩
    else
      match unmarshalUnary rest with
      | .error err => .error err
      | .ok delta => .ok ⟨delta.priority + 1, delta.payload⟩

/-- A clock environment for examples: a delta is serialized as its priority in unary, a
zero byte and its payload, and the CID of a block is its data. -/
def exampleClockEnv : ClockEnv where
  Marshal := fun delta => .ok (List.replicate delta.priority 1 ++ 0 :: delta.payload)
  Unmarshal := unmarshalUnary
  cidOf := fun nd => protoNodeLib.Data nd

/-! ## `KeyMin`, `KeyMax` and the bytes of a `DataStoreKey` -/

/-- The minimum key value `[]byte{}`. -/
def KeyMin : List Byte := []

/-- The maximum key value `[]byte{0xff, 0xff}`. -/
def KeyMax : List Byte := [0xff, 0xff]

def DataStoreKey.Bytes (k : DataStoreKey) : List Byte := k.ToString

/-! ## `client/descriptions.go`: `FieldKind` -/

/-- A `FieldKind`, a `uint8`. -/
abbrev FieldKind := Nat

def FieldKind_None : FieldKind := 0
def FieldKind_DocID : FieldKind := 1
def FieldKind_NILLABLE_BOOL : FieldKind := 2
def FieldKind_BOOL_ARRAY : FieldKind := 3
def FieldKind_NILLABLE_INT : FieldKind := 4
def FieldKind_INT_ARRAY : FieldKind := 5
def FieldKind_NILLABLE_FLOAT : FieldKind := 6
def FieldKind_FLOAT_ARRAY : FieldKind := 7
def FieldKind_NILLABLE_DATETIME : FieldKind := 10
def FieldKind_NILLABLE_STRING : FieldKind := 11
def FieldKind_STRING_ARRAY : FieldKind := 12
def FieldKind_NILLABLE_BLOB : FieldKind := 13
def FieldKind_NILLABLE_JSON : FieldKind := 14
def FieldKind_FOREIGN_OBJECT : FieldKind := 16
def FieldKind_FOREIGN_OBJECT_ARRAY : FieldKind := 17
def FieldKind_NILLABLE_BOOL_ARRAY : FieldKind := 18
def FieldKind_NILLABLE_INT_ARRAY : FieldKind := 19
def FieldKind_NILLABLE_FLOAT_ARRAY : FieldKind := 20
def FieldKind_NILLABLE_STRING_ARRAY : FieldKind := 21

/-- `FieldKind.String`; the default case prints `uint8(f)` in decimal. -/
def FieldKind.String (f : FieldKind) : Str :=
  if f = FieldKind_DocID then lit "ID"
  else if f = FieldKind_NILLABLE_BOOL then lit "Boolean"
  else if f = FieldKind_NILLABLE_BOOL_ARRAY then lit "[Boolean]"
  else if f = FieldKind_BOOL_ARRAY then lit "[Boolean!]"
  else if f = FieldKind_NILLABLE_INT then lit "Int"
  else if f = FieldKind_NILLABLE_INT_ARRAY then lit "[Int]"
  else if f = FieldKind_INT_ARRAY then lit "[Int!]"
  else if f = FieldKind_NILLABLE_DATETIME then lit "DateTime"
  else if f = FieldKind_NILLABLE_FLOAT then lit "Float"
  else if f = FieldKind_NILLABLE_FLOAT_ARRAY then lit "[Float]"
  else if f = FieldKind_FLOAT_ARRAY then lit "[Float!]"
  else if f = FieldKind_NILLABLE_STRING then lit "String"
  else if f = FieldKind_NILLABLE_STRING_ARRAY then lit "[String]"
  else if f = FieldKind_STRING_ARRAY then lit "[String!]"
  else if f = FieldKind_NILLABLE_BLOB then lit "Blob"
  else if f = FieldKind_NILLABLE_JSON then lit "JSON"
  else Itoa ((f % 2 ^ 8 : Nat) : Int)

/-- The entries of the map literal `FieldKindStringToEnumMapping`, in the order of the
source; the keys are distinct. -/
def FieldKindStringToEnumMapping : List (Str × FieldKind) :=
  [ (lit "ID", FieldKind_DocID),
    (lit "Boolean", FieldKind_NILLABLE_BOOL),
    (lit "[Boolean]", FieldKind_NILLABLE_BOOL_ARRAY),
    (lit "[Boolean!]", FieldKind_BOOL_ARRAY),
    (lit "Int", FieldKind_NILLABLE_INT),
    (lit "[Int]", FieldKind_NILLABLE_INT_ARRAY),
    (lit "[Int!]", FieldKind_INT_ARRAY),
    (lit "DateTime", FieldKind_NILLABLE_DATETIME),
    (lit "Float", FieldKind_NILLABLE_FLOAT),
    (lit "[Float]", FieldKind_NILLABLE_FLOAT_ARRAY),
    (lit "[Float!]", FieldKind_FLOAT_ARRAY),
    (lit "String", FieldKind_NILLABLE_STRING),
    (lit "[String]", FieldKind_NILLABLE_STRING_ARRAY),
    (lit "[String!]", FieldKind_STRING_ARRAY),
    (lit "Blob", FieldKind_NILLABLE_BLOB),
    (lit "JSON", FieldKind_NILLABLE_JSON) ]

/-- The map access `m[s]` with its `ok` flag. -/
def mapGet (m : List (Str × FieldKind)) (s : Str) : Option FieldKind :=
  match m with
  | [] => none
  | (key, v) :: rest => if key = s then some v else mapGet rest s

/-! ## `CollectionPolicyKey` -/

def COLLECTION_POLICY : Str := lit "/collection/policy"

structure CollectionPolicyKey where
  CollectionID : Nat
  deriving DecidableEq, Repr

def NewCollectionPolicyKeyFromString (key : Str) : Except Error CollectionPolicyKey :=
  let keyElements := Split slash key
  if keyElements.length ≠ 4 ∨ keyElements.getD 1 [] ≠ COLLECTION
      ∨ keyElements.getD 2 [] ≠ lit "policy" then
    .error .ErrInvalidKey
  else
    match Atoi (keyElements.getD 3 []) with
    | .error err => .error err
    | .ok colID => .ok ⟨toUint32 colID⟩

def CollectionPolicyKey.ToString (k : CollectionPolicyKey) : Str :=
  COLLECTION_POLICY ++ slash :: Itoa (k.CollectionID : Int)

/-! ## `db/fetcher/indexer.go`: `IndexFetcher.Init` -/

/-- A `client.IndexedFieldDescription`; `Init` reads the name only. -/
structure IndexedFieldDescription where
  Name : Str
  deriving DecidableEq, Repr

/-- The fields of an `IndexFetcher` that `Init` reads or writes after the plain
assignments of its arguments: `hasDocFetcher` is `f.docFetcher != nil`, `indexDescFields`
is `f.indexDesc.Fields`, `hasIndexIter` tells whether `f.indexIter` was assigned. -/
structure IndexFetcher where
  hasDocFetcher : Bool
  indexDescFields : List IndexedFieldDescription
  indexedFields : List FieldDescription
  docFields : List FieldDescription
  hasIndexIter : Bool
  deriving DecidableEq, Repr

/-- `NewIndexFetcher`: the fields not named in the struct literal are `nil`. -/
def NewIndexFetcher (hasDocFetcher : Bool) (indexDescFields : List IndexedFieldDescription) :
    IndexFetcher :=
  ⟨hasDocFetcher, indexDescFields, [], [], false⟩

/-- What `Init` calls outside the function: `f.createIndexIterator()`, of which the
error is kept, and `f.docFetcher.Init` with the fields it is given. -/
structure InitEnv where
  createIndexIterator : IndexFetcher → Option Error
  docFetcherInit : List FieldDescription → Option Error

/-- The inner loop `for _, field := range f.col.Schema().Fields` of `Init` for the name
of one indexed field: the field appended before the `break`, if any. -/
def schemaFieldNamed (name : Str) : List FieldDescription → Option FieldDescription
  | [] => none
  | field :: rest => if field.Name = name then some field else schemaFieldNamed name rest

/-- The loop `for _, indexedField := range f.indexDesc.Fields` of `Init`, on the value
of `f.indexedFields`. -/
def appendIndexedFields (schemaFields : List FieldDescription) :
    List IndexedFieldDescription → List FieldDescription → List FieldDescription
  | [], indexedFields => indexedFields
  | indexedField :: rest, indexedFields =>
    match schemaFieldNamed indexedField.Name schemaFields with
    | some field => appendIndexedFields schemaFields rest (indexedFields ++ [field])
    | none => appendIndexedFields schemaFields rest indexedFields

/-- The inner loop `for j := range f.indexedFields` of `Init`: whether it ends in
`continue outer`. -/
def continuesOuter (name : Str) : List FieldDescription → Bool
  | [] => false
  | indexedField :: rest => if name = indexedField.Name then true else continuesOuter name rest

/-- The loop `for i := range fields` of `Init`, on the value of `f.docFields`. -/
def appendDocFields (indexedFields : List FieldDescription) :
    List FieldDescription → List FieldDescription → List FieldDescription
  | [], docFields => docFields
  | field :: rest, docFields =>
    if continuesOuter field.Name indexedFields then appendDocFields indexedFields rest docFields
    else appendDocFields indexedFields rest (docFields ++ [field])

/-- The calls `Init` makes, in order. -/
inductive InitEvent
  | createIndexIterator
  | docFetcherInit (fields : List FieldDescription)
  deriving DecidableEq, Repr

/-- `IndexFetcher.Init` for the fields `schemaFields` of `col.Schema()` and the requested
`fields`: the fetcher after the call, the error returned and the calls made. -/
def IndexFetcher.Init (E : InitEnv) (f : IndexFetcher)
    (schemaFields fields : List FieldDescription) :
    IndexFetcher × Option Error × List InitEvent :=
  let f := { f with
    indexedFields := appendIndexedFields schemaFields f.indexDescFields f.indexedFields }
  let f := { f with docFields := appendDocFields f.indexedFields fields [] }
  match E.createIndexIterator f with
  | some err => (f, some err, [.createIndexIterator])
  | none =>
    let f := { f with hasIndexIter := true }
    if f.hasDocFetcher ∧ f.docFields.length > 0 then
      (f, E.docFetcherInit f.docFields, [.createIndexIterator, .docFetcherInit f.docFields])
    else (f, none, [.createIndexIterator])

/-- An environment for examples: both calls succeed. -/
def exampleInitEnv : InitEnv where
  createIndexIterator := fun _ => none
  docFetcherInit := fun _ => none

/-! ## `net/peer.go`: `Peer.AddReplicator` -/

/-- The errors `AddReplicator` returns: the errors of the calls it makes, wrapped by
`fmt.Errorf` or returned as they are, and its own two. -/
inductive AddReplicatorError
  | FailedToGetCollection (err : Error)
  | multiaddr (err : Error)
  | CantTargetOurselves
  | ReplicatorAlreadyExists (collection pid : Str)
  | FailedToAddressInfo (err : Error)
  | FailedToGetTxn (err : Error)
  | FailedToGetDockey (err : Error)
  deriving DecidableEq, Repr

/-- The map `p.replicators`, a `map[string]map[peer.ID]struct{}`: the entries with
distinct schema IDs, each with the peer IDs of its inner map. -/
abbrev Replicators := List (Str × List Str)

/-- The access `reps, exists := m[schemaID]`. -/
def Replicators.get : Replicators → Str → Option (List Str)
  | [], _ => none
  | (key, reps) :: rest, schemaID =>
    if key = schemaID then some reps else Replicators.get rest schemaID

/-- The assignment `m[schemaID] = reps`. -/
def Replicators.set : Replicators → Str → List Str → Replicators
  | [], schemaID, reps => [(schemaID, reps)]
  | (key, old) :: rest, schemaID, reps =>
    if key = schemaID then (key, reps) :: rest
    else (key, old) :: Replicators.set rest schemaID reps

/-- The assignment `m[schemaID][pid] = struct{}{}`, for an existing inner map. -/
def Replicators.add (m : Replicators) (schemaID pid : Str) : Replicators :=
  match m.get schemaID with
  | some reps => if pid ∈ reps then m else m.set schemaID (reps ++ [pid])
  | none => m

/-- Whether the pair `(schemaID, pid)` is registered: `_, exists := m[schemaID][pid]`. -/
def Replicators.registered (m : Replicators) (schemaID pid : Str) : Bool :=
  match m.get schemaID with
  | some reps => decide (pid ∈ reps)
  | none => false

/-- The fields of `Peer` that `AddReplicator` uses. -/
structure Peer where
  hostID : Str
  replicators : Replicators
  deriving DecidableEq, Repr

/-- What `AddReplicator` calls outside the file: `db.GetCollection` (the result is the
schema ID of the collection), the multiaddr functions `ValueForProtocol(ma.P_P2P)`,
`peer.Decode` and `peer.AddrInfoFromP2pAddr` (the result is `info.ID`), `db.NewTxn`
with `readonly` true, and `col.GetAllDocKeys` on the transaction. -/
structure ReplicatorEnv where
  GetCollection : Str → Except Error Str
  ValueForProtocol : Str → Except Error Str
  Decode : Str → Except Error Str
  AddrInfoFromP2pAddr : Str → Except Error Str
  NewTxn : Bool → Except Error Txn
  GetAllDocKeys : Txn → Option Error

/-- What `AddReplicator` does besides changing `p.replicators`, in order: the call of
`Peerstore().AddAddrs`, `txn.Discard`, and the start of the goroutine that pushes the
heads of all documents to the peer and discards the transaction in the end. -/
inductive ReplicatorEvent
  | addAddrs (id : Str)
  | discard (txn : Nat)
  | pushAll (txn : Nat) (pid : Str)
  deriving DecidableEq, Repr

/-- `Peer.AddReplicator`: the peer after the call, the peer ID and the error returned,
and the events. -/
def Peer.AddReplicator (R : ReplicatorEnv) (p : Peer) (collection paddr : Str) :
    Peer × Str × Option AddReplicatorError × List ReplicatorEvent :=
  let pid : Str := []
  match R.GetCollection collection with
  | .error err => (p, pid, some (.FailedToGetCollection err), [])
  | .ok schemaID =>
    match R.ValueForProtocol paddr with
    | .error err => (p, pid, some (.multiaddr err), [])
    | .ok p2p =>
      match R.Decode p2p with
      | .error err => (p, [], some (.multiaddr err), [])
      | .ok pid =>
        if pid = p.hostID then (p, pid, some .CantTargetOurselves, [])
        else
          let checked : Option Peer :=
            match p.replicators.get schemaID with
            | some reps => if pid ∈ reps then none else some p
            | none => some { p with replicators := p.replicators.set schemaID [] }
          match checked with
          | none => (p, pid, some (.ReplicatorAlreadyExists collection pid), [])
          | some p =>
            match R.AddrInfoFromP2pAddr paddr with
            | .error err => (p, pid, some (.FailedToAddressInfo err), [])
            | .ok id =>
              let p := { p with replicators := p.replicators.add schemaID pid }
              match R.NewTxn true with
              | .error err => (p, pid, some (.FailedToGetTxn err), [.addAddrs id])
              | .ok txn =>
                match R.GetAllDocKeys txn with
                | some err => (p, pid, some (.FailedToGetDockey err), [.addAddrs id, .discard txn.id])
                | none => (p, pid, none, [.addAddrs id, .pushAll txn.id pid])

/-- An environment for examples: the collection `users` has the schema ID `bafySchema`,
a multiaddr is the text `/p2p/` followed by the peer ID, and `NewTxn` and
`GetAllDocKeys` fail as the two flags say. -/
def exampleReplicatorEnv (txnFails docKeysFail : Bool) : ReplicatorEnv where
  GetCollection := fun name =>
    if name = lit "users" then .ok (lit "bafySchema") else .error (.StoreError 1)
  ValueForProtocol := fun paddr =>
    if (lit "/p2p/").isPrefixOf paddr then .ok (paddr.drop 5) else .error (.StoreError 2)
  Decode := fun p2p => if p2p = [] then .error (.StoreError 3) else .ok p2p
  AddrInfoFromP2pAddr := fun paddr =>
    if (lit "/p2p/").isPrefixOf paddr then .ok (paddr.drop 5) else .error (.StoreError 4)
  NewTxn := fun readonly => if txnFails then .error (.StoreError 5) else .ok ⟨1, readonly, false⟩
  GetAllDocKeys := fun _ => if docKeysFail then some (.StoreError 6) else none

/-! ## `db/txn_db.go`: the other operations of `explicitTxnDB` -/

/-- The operations of `db` behind `SetActiveSchemaVersion`, `SetMigration`, `AddView`,
`BasicImport` and `BasicExport`, next to those of `TxnEnv`. `Defs` stands for
`[]client.CollectionDefinition`, `LensConfig` for `client.LensConfig`, `BackupConfig` for
`*client.BackupConfig`; `addView` is taken for a fixed `transform`. -/
structure StoreEnv extends TxnEnv where
  Defs : Type
  LensConfig : Type
  BackupConfig : Type
  setActiveSchemaVersion : Txn → Str → Option Error
  setMigration : Txn → LensConfig → Option Error
  addView : Txn → Str → Str → Except Error Defs
  basicImport : Txn → Str → Option Error
  basicExport : Txn → BackupConfig → Option Error

def explicitTxnDB.SetActiveSchemaVersion (E : StoreEnv) (txn : Txn) (schemaVersionID : Str) :
    Option Error × List TxnEvent :=
  (E.setActiveSchemaVersion txn schemaVersionID, [.run txn.id])

def explicitTxnDB.SetMigration (E : StoreEnv) (txn : Txn) (cfg : E.LensConfig) :
    Option Error × List TxnEvent :=
  (E.setMigration txn cfg, [.run txn.id])

def explicitTxnDB.AddView (E : StoreEnv) (txn : Txn) (query sdl : Str) :
    Except Error E.Defs × List TxnEvent :=
  (E.addView txn query sdl, [.run txn.id])

def explicitTxnDB.BasicImport (E : StoreEnv) (txn : Txn) (filepath : Str) :
    Option Error × List TxnEvent :=
  (E.basicImport txn filepath, [.run txn.id])

def explicitTxnDB.BasicExport (E : StoreEnv) (txn : Txn) (config : E.BackupConfig) :
    Option Error × List TxnEvent :=
  (E.basicExport txn config, [.run txn.id])

/-! # Theorems -/

/-! ## The order on strings -/

theorem strLt_iff_lex (a b : Str) : strLt a b = true ↔ List.Lex (· < ·) a b := by
  induction a generalizing b with
  | nil =>
    cases b with
    | nil => simp [strLt]
    | cons y ys => simp [strLt, List.Lex.nil]
  | cons x xs ih =>
    cases b with
    | nil => simp [strLt]
    | cons y ys =>
      simp only [strLt, Bool.or_eq_true, Bool.and_eq_true, decide_eq_true_eq, ih]
      constructor
      · rintro (h | ⟨rfl, h⟩)
        · exact List.Lex.rel h
        · exact List.Lex.cons h
      · intro h
        cases h with
        | rel h => exact Or.inl h
        | cons h => exact Or.inr ⟨rfl, h⟩

theorem strLt_cons_self (x : Byte) (a b : Str) : strLt (x :: a) (x :: b) = strLt a b := by
  simp [strLt]

theorem strLt_append_left (p a b : Str) : strLt (p ++ a) (p ++ b) = strLt a b := by
  induction p with
  | nil => rfl
  | cons x p ih => simp [strLt_cons_self, ih]

theorem strLt_replicate_ff (t : Str) (n : Nat) (h : t.length ≤ n) :
    strLt (List.replicate n 255) t = false := by
  induction t generalizing n with
  | nil => cases n <;> simp [strLt, List.replicate]
  | cons y t ih =>
    cases n with
    | zero => simp at h
    | succ n =>
      have hy : ¬ (255 : Byte) < y := by
        have := y.isLt
        simp only [Fin.lt_def]
        show ¬ 255 < y.val
        omega
      simp only [List.replicate, strLt, hy, decide_False, Bool.false_or, Bool.and_eq_false_imp,
        decide_eq_true_eq]
      intro _
      exact ih n (by simpa using h)

/-! ## `bytesPrefixEnd` -/

theorem incByte_eq_zero_iff (c : Byte) : incByte c = 0 ↔ c = 255 := by
  rcases c with ⟨v, hv⟩
  simp only [incByte, Fin.ext_iff]
  show (v + 1) % 256 = 0 ↔ v = 255
  omega

theorem incByte_val (c : Byte) (h : c ≠ 255) : (incByte c).val = c.val + 1 := by
  rcases c with ⟨v, hv⟩
  have : v ≠ 255 := fun e => h (Fin.ext e)
  show (v + 1) % 256 = v + 1
  omega

theorem bytesPrefixEndLoop_step (b q : List Byte) (c : Byte) (r : List Byte) :
    bytesPrefixEndLoop b (q.length + 1) (q ++ c :: r) =
      if incByte c ≠ 0 then q ++ [incByte c] else bytesPrefixEndLoop b q.length (q ++ 0 :: r) := by
  have h1 : (q ++ c :: r).getD q.length 0 = c := by
    rw [List.getD_eq_getElem?_getD, List.getElem?_append_right (le_refl _)]; simp
  have h2 : (q ++ c :: r).set q.length (incByte c) = q ++ incByte c :: r := by
    simp
  have h3 : (q ++ incByte c :: r).getD q.length 0 = incByte c := by
    rw [List.getD_eq_getElem?_getD, List.getElem?_append_right (le_refl _)]; simp
  have h4 : (q ++ incByte c :: r).take (q.length + 1) = q ++ [incByte c] := by
    simp [List.take_append_eq_append_take]
  simp only [bytesPrefixEndLoop, h1, h2, h3, h4]
  by_cases h : incByte c = 0
  · simp [h]
  · simp [h]

theorem bytesPrefixEndLoop_ff (b q : List Byte) (k : Nat) (r : List Byte) :
    bytesPrefixEndLoop b (q.length + k) (q ++ (List.replicate k 255 ++ r)) =
      bytesPrefixEndLoop b q.length (q ++ (List.replicate k 0 ++ r)) := by
  induction k generalizing r with
  | zero => simp
  | succ k ih =>
    have e1 : q ++ (List.replicate (k + 1) (255 : Byte) ++ r)
        = (q ++ List.replicate k 255) ++ 255 :: r := by
      simp [List.replicate_succ', List.append_assoc]
    have e2 : q.length + (k + 1) = (q ++ List.replicate k (255 : Byte)).length + 1 := by
      simp; omega
    rw [e1, e2, bytesPrefixEndLoop_step]
    have : incByte 255 = 0 := by decide
    simp only [this, ne_eq, not_true_eq_false, if_false]
    have e3 : (q ++ List.replicate k (255 : Byte)).length = q.length + k := by simp
    rw [e3, List.append_assoc, ih]
    simp [List.replicate_succ', List.append_assoc]

theorem bytesPrefixEnd_cut (p : List Byte) (c : Byte) (k : Nat) (hc : c ≠ 255) :
    bytesPrefixEnd (p ++ c :: List.replicate k 255) = p ++ [incByte c] := by
  unfold bytesPrefixEnd
  have e1 : p ++ c :: List.replicate k (255 : Byte)
      = (p ++ [c]) ++ (List.replicate k 255 ++ []) := by simp
  have e2 : (p ++ c :: List.replicate k (255 : Byte)).length = (p ++ [c]).length + k := by
    simp; omega
  rw [e2]
  conv => lhs; arg 3; rw [e1]
  rw [bytesPrefixEndLoop_ff]
  have e3 : (p ++ [c]).length = p.length + 1 := by simp
  rw [e3, List.append_assoc, List.singleton_append, bytesPrefixEndLoop_step]
  have : incByte c ≠ 0 := fun h => hc ((incByte_eq_zero_iff c).1 h)
  simp [this]

theorem bytesPrefixEnd_replicate_ff (k : Nat) :
    bytesPrefixEnd (List.replicate k 255) = List.replicate k 255 := by
  unfold bytesPrefixEnd
  have := bytesPrefixEndLoop_ff (List.replicate k 255) [] k []
  simp at this
  simp [this, bytesPrefixEndLoop]

/-- A byte string with a byte other than `0xff` ends in a byte other than `0xff`
followed by `0xff` bytes only. -/
theorem exists_last_non_ff (b : Str) (h : ∃ x ∈ b, x ≠ 255) :
    ∃ (p : Str) (c : Byte) (k : Nat), b = p ++ c :: List.replicate k 255 ∧ c ≠ 255 := by
  induction b with
  | nil => simp at h
  | cons x b ih =>
    by_cases hb : ∃ y ∈ b, y ≠ 255
    · obtain ⟨p, c, k, e, hc⟩ := ih hb
      exact ⟨x :: p, c, k, by simp [e], hc⟩
    · have hall : ∀ y ∈ b, y = 255 := by
        intro y hy
        by_contra hne
        exact hb ⟨y, hy, hne⟩
      have hx : x ≠ 255 := by
        obtain ⟨y, hy, hne⟩ := h
        rcases List.mem_cons.1 hy with rfl | hy
        · exact hne
        · exact absurd (hall y hy) hne
      have hb2 : b = List.replicate b.length 255 := List.eq_replicate_iff.2 ⟨rfl, hall⟩
      exact ⟨[], x, b.length, congrArg (List.cons x) hb2, hx⟩

theorem strLt_of_prefix_cut (p : Str) (c : Byte) (k : Nat) (hc : c ≠ 255) (s : Str)
    (hs : (p ++ c :: List.replicate k 255) <+: s) : strLt s (p ++ [incByte c]) = true := by
  obtain ⟨r, rfl⟩ := hs
  have hlt : c < incByte c := by
    simp only [Fin.lt_def, incByte_val c hc]; omega
  simp [List.append_assoc, strLt_append_left, strLt, hlt]

theorem strLe_cut_of_bound (p : Str) (c : Byte) (k : Nat) (hc : c ≠ 255) (t : Str)
    (ht : ∀ s, (p ++ c :: List.replicate k 255) <+: s → strLt s t = true) :
    strLt t (p ++ [incByte c]) = false := by
  induction p generalizing t with
  | nil =>
    cases t with
    | nil =>
      have := ht _ (List.prefix_refl _)
      simp [strLt] at this
    | cons y t =>
      have h0 := ht _ (List.prefix_refl _)
      have h1 := ht (c :: List.replicate (k + (t.length + 1)) 255)
        ⟨List.replicate (t.length + 1) 255, by simp [List.replicate_add]⟩
      simp only [List.nil_append, List.cons_append, strLt, Bool.or_eq_true, Bool.and_eq_true,
        decide_eq_true_eq] at h0 h1 ⊢
      have hv := incByte_val c hc
      by_cases hy : y < incByte c
      · exfalso
        rcases h1 with h1 | ⟨rfl, h1⟩
        · simp only [Fin.lt_def] at hy h1; omega
        · rw [strLt_replicate_ff t _ (by omega)] at h1
          exact Bool.false_ne_true h1
      · cases t <;> simp [strLt, hy]
  | cons x p ih =>
    cases t with
    | nil =>
      have := ht _ (List.prefix_refl _)
      simp [strLt] at this
    | cons y t =>
      have h0 := ht _ (List.prefix_refl _)
      simp only [List.cons_append, strLt, Bool.or_eq_true, Bool.and_eq_true,
        decide_eq_true_eq] at h0 ⊢
      by_cases hyx : y < x
      · exfalso
        rcases h0 with h0 | ⟨rfl, _⟩
        · exact lt_asymm hyx h0
        · exact lt_irrefl _ hyx
      · by_cases hxy : y = x
        · subst hxy
          have := ih t (fun s hs => by
            have := ht (y :: s) (by simpa using hs)
            simpa [strLt] using this)
          simp [this]
        · simp [hyx, hxy]

/-- Claim C2. For a byte string `b` with a byte other than `0xff`, `bytesPrefixEnd b` is
`b` cut after its last byte other than `0xff`, that byte incremented by one; it is
strictly greater than every byte string with prefix `b`, and it is below every byte
string `t` that is strictly greater than all of them. -/
theorem bytesPrefixEnd_least_upper_bound (b : Str) (h : ∃ x ∈ b, x ≠ 255) :
    (∃ (p : Str) (c : Byte) (k : Nat), b = p ++ c :: List.replicate k 255 ∧ c ≠ 255 ∧
        bytesPrefixEnd b = p ++ [incByte c] ∧ (incByte c).val = c.val + 1) ∧
      (∀ s : Str, b <+: s → strLt s (bytesPrefixEnd b) = true) ∧
      (∀ t : Str, (∀ s : Str, b <+: s → strLt s t = true) → strLe (bytesPrefixEnd b) t = true) := by
  obtain ⟨p, c, k, rfl, hc⟩ := exists_last_non_ff b h
  have hcut := bytesPrefixEnd_cut p c k hc
  refine ⟨⟨p, c, k, rfl, hc, hcut, incByte_val c hc⟩, ?_, ?_⟩
  · intro s hs
    rw [hcut]
    exact strLt_of_prefix_cut p c k hc s hs
  · intro t ht
    rw [hcut]
    simp [strLe, strLe_cut_of_bound p c k hc t ht]

theorem bytesPrefixEnd_least_upper_bound_witness :
    (∃ x ∈ ([97, 98, 255] : Str), x ≠ 255) ∧ bytesPrefixEnd [97, 98, 255] = [97, 99] ∧
      strLt [97, 98, 255, 255, 7] (bytesPrefixEnd [97, 98, 255]) = true ∧
      strLe (bytesPrefixEnd [97, 98, 255]) [97, 99] = true :=
  ⟨by decide, by decide,
    (bytesPrefixEnd_least_upper_bound [97, 98, 255] (by decide)).2.1 _ (by decide),
    by decide⟩

/-! ## `strings.Split` -/

theorem Split_ne_nil (sep : Byte) (s : Str) : Split sep s ≠ [] := by
  induction s with
  | nil => simp [Split]
  | cons c cs ih =>
    simp only [Split]
    split
    · simp
    · split <;> simp

theorem Split_of_not_mem (sep : Byte) (a : Str) (h : sep ∉ a) : Split sep a = [a] := by
  induction a with
  | nil => rfl
  | cons c cs ih =>
    have hc : c ≠ sep := fun e => h (e ▸ List.mem_cons_self _ _)
    have hcs : sep ∉ cs := fun e => h (List.mem_cons_of_mem _ e)
    simp [Split, hc, ih hcs]

theorem Split_append_sep (sep : Byte) (a r : Str) (h : sep ∉ a) :
    Split sep (a ++ sep :: r) = a :: Split sep r := by
  induction a with
  | nil => simp [Split]
  | cons c cs ih =>
    have hc : c ≠ sep := fun e => h (e ▸ List.mem_cons_self _ _)
    have hcs : sep ∉ cs := fun e => h (List.mem_cons_of_mem _ e)
    simp [Split, hc, ih hcs]

theorem Split_sep_cons (sep : Byte) (r : Str) : Split sep (sep :: r) = [] :: Split sep r := by
  simp [Split]

/-! ## `strconv` -/

theorem isDigit_digitByte (d : Nat) : isDigit (digitByte d) = true := by
  have h : d % 10 < 10 := Nat.mod_lt _ (by decide)
  have hv : (digitByte d).val = 48 + d % 10 := by
    simp only [digitByte, Fin.ofNat, Fin.val_mk]
    omega
  simp only [isDigit, hv, Bool.and_eq_true, decide_eq_true_eq]
  omega

theorem digitByte_val (d : Nat) : (digitByte d).val - 48 = d % 10 := by
  have h : d % 10 < 10 := Nat.mod_lt _ (by decide)
  have hv : (digitByte d).val = 48 + d % 10 := by
    simp only [digitByte, Fin.ofNat, Fin.val_mk]
    omega
  omega

theorem natDigits_ne_nil (f n : Nat) (h : n < f) : natDigits f n ≠ [] := by
  cases f with
  | zero => omega
  | succ f =>
    simp only [natDigits]
    split <;> simp

theorem natDigits_isDigit (f n : Nat) : ∀ c ∈ natDigits f n, isDigit c = true := by
  induction f generalizing n with
  | zero => simp [natDigits]
  | succ f ih =>
    intro c hc
    simp only [natDigits] at hc
    split at hc
    · simp only [List.mem_singleton] at hc
      subst hc; exact isDigit_digitByte _
    · rcases List.mem_append.1 hc with hc | hc
      · exact ih _ c hc
      · simp only [List.mem_singleton] at hc
        subst hc; exact isDigit_digitByte _

theorem parseUint_append_single (a : Str) (d : Byte) (acc : Nat) :
    parseUint (a ++ [d]) acc =
      match parseUint a acc with
      | .error kind => .error kind
      | .ok m => parseUint [d] m := by
  induction a generalizing acc with
  | nil =>
    simp only [List.nil_append]
    rfl
  | cons c cs ih =>
    simp only [List.cons_append, parseUint]
    split
    · split
      · exact ih _
      · rfl
    · rfl

theorem parseUint_natDigits (f n : Nat) (h : n < f) (h64 : n < 2 ^ 64) :
    parseUint (natDigits f n) 0 = .ok n := by
  induction f generalizing n with
  | zero => omega
  | succ f ih =>
    simp only [natDigits]
    split
    · rename_i h10
      have hlt : n < 18446744073709551616 := h64
      simp [parseUint, isDigit_digitByte, digitByte_val, Nat.mod_eq_of_lt h10, hlt]
    · rename_i h10
      rw [parseUint_append_single, ih (n / 10) (by omega) (by omega)]
      have e : n / 10 * 10 + n % 10 = n := by omega
      have hlt : n < 18446744073709551616 := h64
      simp [parseUint, isDigit_digitByte, digitByte_val, e, hlt]

theorem not_isDigit_of_mem {c : Byte} (hc : c = 45 ∨ c = 43 ∨ c = slash) : isDigit c = false := by
  rcases hc with rfl | rfl | rfl <;> decide

theorem Itoa_natCast (n : Nat) : Itoa (n : Int) = natDigits (n + 1) n := by
  simp [Itoa]

theorem slash_not_mem_Itoa (n : Nat) : slash ∉ Itoa (n : Int) := by
  rw [Itoa_natCast]
  intro h
  have := natDigits_isDigit _ _ _ h
  rw [not_isDigit_of_mem (Or.inr (Or.inr rfl))] at this
  exact Bool.false_ne_true this

theorem Atoi_Itoa (n : Nat) (h : n < 2 ^ 63) : Atoi (Itoa (n : Int)) = .ok (n : Int) := by
  rw [Itoa_natCast]
  have hne := natDigits_ne_nil (n + 1) n (by omega)
  have hp := parseUint_natDigits (n + 1) n (by omega) (by omega)
  have hd := natDigits_isDigit (n + 1) n
  generalize natDigits (n + 1) n = s at hne hp hd
  cases s with
  | nil => exact absurd rfl hne
  | cons c rest =>
    have hc := hd c (List.mem_cons_self _ _)
    have h45 : c ≠ 45 := fun e => by
      rw [not_isDigit_of_mem (Or.inl e)] at hc; exact Bool.false_ne_true hc
    have h43 : c ≠ 43 := fun e => by
      rw [not_isDigit_of_mem (Or.inr (Or.inl e))] at hc; exact Bool.false_ne_true hc
    have h2 : n < 9223372036854775808 := h
    simp [Atoi, h45, h43, hp, h2]

theorem Atoi_error (s : Str) (e : Error) (h : Atoi s = .error e) :
    ∃ kind, e = .NumError s kind := by
  unfold Atoi at h
  split at h
  · exact ⟨.ErrSyntax, by simpa using h.symm⟩
  · simp only at h
    repeat' split at h
    all_goals first
      | exact ⟨.ErrSyntax, by simpa using h.symm⟩
      | exact ⟨.ErrRange, by simpa using h.symm⟩
      | exact ⟨_, by simpa using h.symm⟩

theorem toUint32_natCast (n : Nat) (h : n < 2 ^ 32) : toUint32 (n : Int) = n := by
  unfold toUint32
  have : ((n : Int) % 2 ^ 32) = (n : Int) := Int.emod_eq_of_lt (by omega) (by omega)
  rw [this]; simp

/-! ## `DataStoreKey` -/

theorem bytesPrefixEnd_bound_component (pre comp : Str) (h : ∃ x ∈ comp, x ≠ 255) :
    bytesPrefixEnd comp ≠ [] ∧
      ∀ s : Str, (pre ++ slash :: comp) <+: s →
        strLt s (pre ++ slash :: bytesPrefixEnd comp) = true := by
  obtain ⟨p, c, k, rfl, hc⟩ := exists_last_non_ff comp h
  rw [bytesPrefixEnd_cut p c k hc]
  refine ⟨by simp, ?_⟩
  intro s hs
  have := strLt_of_prefix_cut (pre ++ slash :: p) c k hc s (by simpa using hs)
  simpa using this

/-- The part of claim C1 that the code meets: when the last non-empty component of a
`DataStoreKey` is one of its string components and has a byte other than `0xff`, every
key string with prefix `k.ToString()` is strictly smaller than `k.PrefixEnd().ToString()`. -/
theorem DataStoreKey_PrefixEnd_string_component (k : DataStoreKey)
    (h : (k.FieldId ≠ [] ∧ ∃ x ∈ k.FieldId, x ≠ 255) ∨
      (k.FieldId = [] ∧ k.DocID ≠ [] ∧ ∃ x ∈ k.DocID, x ≠ 255) ∨
      (k.FieldId = [] ∧ k.DocID = [] ∧ k.InstanceType ≠ [] ∧ ∃ x ∈ k.InstanceType, x ≠ 255))
    (s : Str) (hs : k.ToString <+: s) : strLt s k.PrefixEnd.ToString = true := by
  rcases k with ⟨root, inst, doc, fld⟩
  rcases h with ⟨hf, hx⟩ | ⟨hf, hd, hx⟩ | ⟨hf, hd, hi, hx⟩
  · simp only at hf hx
    obtain ⟨hne, hb⟩ := bytesPrefixEnd_bound_component
      (DataStoreKey.ToString ⟨root, inst, doc, []⟩) fld hx
    have e1 : DataStoreKey.ToString ⟨root, inst, doc, fld⟩
        = DataStoreKey.ToString ⟨root, inst, doc, []⟩ ++ slash :: fld := by
      simp [DataStoreKey.ToString, hf]
    have e2 : (DataStoreKey.PrefixEnd ⟨root, inst, doc, fld⟩).ToString
        = DataStoreKey.ToString ⟨root, inst, doc, []⟩ ++ slash :: bytesPrefixEnd fld := by
      simp [DataStoreKey.ToString, DataStoreKey.PrefixEnd, hf, hne]
    rw [e2]; rw [e1] at hs; exact hb s hs
  · simp only at hf hd hx
    subst hf
    obtain ⟨hne, hb⟩ := bytesPrefixEnd_bound_component
      (DataStoreKey.ToString ⟨root, inst, [], []⟩) doc hx
    have e1 : DataStoreKey.ToString ⟨root, inst, doc, []⟩
        = DataStoreKey.ToString ⟨root, inst, [], []⟩ ++ slash :: doc := by
      simp [DataStoreKey.ToString, hd]
    have e2 : (DataStoreKey.PrefixEnd ⟨root, inst, doc, []⟩).ToString
        = DataStoreKey.ToString ⟨root, inst, [], []⟩ ++ slash :: bytesPrefixEnd doc := by
      simp [DataStoreKey.ToString, DataStoreKey.PrefixEnd, hd, hne]
    rw [e2]; rw [e1] at hs; exact hb s hs
  · simp only at hf hd hi hx
    subst hf; subst hd
    obtain ⟨hne, hb⟩ := bytesPrefixEnd_bound_component
      (DataStoreKey.ToString ⟨root, [], [], []⟩) inst hx
    have e1 : DataStoreKey.ToString ⟨root, inst, [], []⟩
        = DataStoreKey.ToString ⟨root, [], [], []⟩ ++ slash :: inst := by
      simp [DataStoreKey.ToString, hi]
    have e2 : (DataStoreKey.PrefixEnd ⟨root, inst, [], []⟩).ToString
        = DataStoreKey.ToString ⟨root, [], [], []⟩ ++ slash :: bytesPrefixEnd inst := by
      simp [DataStoreKey.ToString, DataStoreKey.PrefixEnd, hi, hne]
    rw [e2]; rw [e1] at hs; exact hb s hs

/-- Claim C1, at the key that has only the `CollectionRootID` 9: `PrefixEnd` gives the
key with `CollectionRootID` 10, whose string `/10` is not above the key string `/9`
(nor above `/9/v/doc`), so the bound fails for a key with only a `CollectionRootID`. -/
theorem DataStoreKey_PrefixEnd_collection_root_not_bound :
    (DataStoreKey.mk 9 [] [] []).ToString = lit "/9" ∧
      (DataStoreKey.mk 9 [] [] []).PrefixEnd = DataStoreKey.mk 10 [] [] [] ∧
      (DataStoreKey.mk 9 [] [] []).PrefixEnd.ToString = lit "/10" ∧
      strLt (DataStoreKey.mk 9 [] [] []).ToString (DataStoreKey.mk 9 [] [] []).PrefixEnd.ToString
        = false ∧
      (DataStoreKey.mk 9 [] [] []).ToString <+: (DataStoreKey.mk 9 (lit "v") (lit "doc") []).ToString ∧
      strLt (DataStoreKey.mk 9 (lit "v") (lit "doc") []).ToString
        (DataStoreKey.mk 9 [] [] []).PrefixEnd.ToString = false := by
  decide

theorem DataStoreKey_Equal_self (k : DataStoreKey) : k.Equal k = true := by
  simp [DataStoreKey.Equal]

/-- Claim C3. A `DataStoreKey` with a non-zero `CollectionRootID`, a non-empty
`InstanceType`, a non-empty `DocID` and an optional `FieldId`, no component containing
`'/'`, is parsed back from its string by `NewDataStoreKey`. -/
theorem NewDataStoreKey_ToString (k : DataStoreKey)
    (hroot : k.CollectionRootID ≠ 0) (h32 : k.CollectionRootID < 2 ^ 32)
    (hinst : k.InstanceType ≠ []) (hdoc : k.DocID ≠ [])
    (hsi : slash ∉ k.InstanceType) (hsd : slash ∉ k.DocID) (hsf : slash ∉ k.FieldId) :
    ∃ k2 : DataStoreKey, NewDataStoreKey k.ToString = .ok k2 ∧ k.Equal k2 = true ∧ k2 = k := by
  rcases k with ⟨root, inst, doc, fld⟩
  simp only at hroot h32 hinst hdoc hsi hsd hsf
  refine ⟨⟨root, inst, doc, fld⟩, ?_, DataStoreKey_Equal_self _, rfl⟩
  have hA := Atoi_Itoa root (by omega)
  have hU := toUint32_natCast root h32
  have hI := slash_not_mem_Itoa root
  by_cases hf : fld = []
  · subst hf
    have e : DataStoreKey.ToString ⟨root, inst, doc, []⟩
        = slash :: (Itoa (root : Int) ++ slash :: (inst ++ slash :: doc)) := by
      simp [DataStoreKey.ToString, hroot, hinst, hdoc]
    have hsp : Split slash (Itoa (root : Int) ++ slash :: (inst ++ slash :: doc))
        = [Itoa (root : Int), inst, doc] := by
      rw [Split_append_sep _ _ _ hI, Split_append_sep _ _ _ hsi, Split_of_not_mem _ _ hsd]
    rw [e]
    simp [NewDataStoreKey, TrimPrefixSlash, hsp, hA, hU]
  · have e : DataStoreKey.ToString ⟨root, inst, doc, fld⟩
        = slash :: (Itoa (root : Int) ++ slash :: (inst ++ slash :: (doc ++ slash :: fld))) := by
      simp [DataStoreKey.ToString, hroot, hinst, hdoc, hf]
    have hsp : Split slash (Itoa (root : Int) ++ slash :: (inst ++ slash :: (doc ++ slash :: fld)))
        = [Itoa (root : Int), inst, doc, fld] := by
      rw [Split_append_sep _ _ _ hI, Split_append_sep _ _ _ hsi, Split_append_sep _ _ _ hsd,
        Split_of_not_mem _ _ hsf]
    rw [e]
    simp [NewDataStoreKey, TrimPrefixSlash, hsp, hA, hU]

theorem NewDataStoreKey_ToString_witness :
    ∃ k2 : DataStoreKey,
      NewDataStoreKey (DataStoreKey.mk 7 (lit "v") (lit "bae-1") (lit "2")).ToString = .ok k2 ∧
        (DataStoreKey.mk 7 (lit "v") (lit "bae-1") (lit "2")).Equal k2 = true ∧
        k2 = DataStoreKey.mk 7 (lit "v") (lit "bae-1") (lit "2") :=
  NewDataStoreKey_ToString (DataStoreKey.mk 7 (lit "v") (lit "bae-1") (lit "2"))
    (by decide) (by decide) (by decide) (by decide) (by decide) (by decide) (by decide)

/-- Claim C8. `NewDataStoreKey` returns `ErrEmptyKey` exactly on the empty string, and
`ErrInvalidKey` on every non-empty input that, one leading `'/'` removed, splits on
`'/'` into fewer than 3 or more than 4 elements. -/
theorem NewDataStoreKey_errors (key : Str) :
    (NewDataStoreKey key = .error .ErrEmptyKey ↔ key = []) ∧
      (key ≠ [] →
        ((Split slash (TrimPrefixSlash key)).length < 3 ∨
          (Split slash (TrimPrefixSlash key)).length > 4) →
        NewDataStoreKey key = .error .ErrInvalidKey) := by
  constructor
  · constructor
    · intro h
      by_contra hne
      simp only [NewDataStoreKey, hne, if_false] at h
      split at h
      · simp at h
      · split at h
        · rename_i err he
          simp only [Except.error.injEq] at h
          subst h
          obtain ⟨kind, hk⟩ := Atoi_error _ _ he
          simp at hk
        · simp at h
    · rintro rfl
      simp [NewDataStoreKey]
  · intro hne hlen
    simp [NewDataStoreKey, hne, hlen]

theorem NewDataStoreKey_errors_witness :
    NewDataStoreKey [] = .error .ErrEmptyKey ∧
      NewDataStoreKey (lit "/1/v") = .error .ErrInvalidKey ∧
      NewDataStoreKey (lit "/1/v/doc/f/g") = .error .ErrInvalidKey :=
  ⟨(NewDataStoreKey_errors []).1.2 rfl,
    (NewDataStoreKey_errors (lit "/1/v")).2 (by decide) (by decide),
    (NewDataStoreKey_errors (lit "/1/v/doc/f/g")).2 (by decide) (by decide)⟩

/-! ## `IndexDataStoreKey` -/

theorem fieldValuesEqual_self (vs : List Str) : fieldValuesEqual vs vs = true := by
  induction vs with
  | nil => rfl
  | cons v vs ih => simp [fieldValuesEqual, ih]

theorem IndexDataStoreKey_Equal_self (k : IndexDataStoreKey) : k.Equal k = true := by
  simp [IndexDataStoreKey.Equal, fieldValuesEqual_self]

theorem writeFieldValues_Split (vs : List Str) (pre a : Str) (ha : slash ∉ a)
    (hvs : ∀ v ∈ vs, v ≠ [] ∧ slash ∉ v) :
    ∃ tail : Str, writeFieldValues vs (pre ++ a) = pre ++ tail ∧ Split slash tail = a :: vs := by
  induction vs generalizing pre a with
  | nil => exact ⟨a, rfl, Split_of_not_mem _ _ ha⟩
  | cons v vs ih =>
    obtain ⟨hv, hsv⟩ := hvs v (List.mem_cons_self _ _)
    obtain ⟨tail, h1, h2⟩ := ih (pre ++ a ++ [slash]) v hsv
      (fun w hw => hvs w (List.mem_cons_of_mem _ hw))
    refine ⟨a ++ slash :: tail, ?_, ?_⟩
    · have hl : v.length ≠ 0 := fun e => hv (List.length_eq_zero.1 e)
      simp only [writeFieldValues, hl, if_false]
      have e : pre ++ a ++ slash :: v = pre ++ a ++ [slash] ++ v := by simp
      rw [e, h1]; simp
    · rw [Split_append_sep _ _ _ ha, h2]

/-- Claim C4 as stated fails: the key with the single field value `"/"` (one byte, not
empty) is encoded as `/1/1//`, which is parsed into two empty field values. -/
theorem IndexDataStoreKey_slash_value_not_parsed_back :
    (IndexDataStoreKey.mk 1 1 [[slash]]).CollectionID ≠ 0 ∧
      (IndexDataStoreKey.mk 1 1 [[slash]]).IndexID ≠ 0 ∧
      (IndexDataStoreKey.mk 1 1 [[slash]]).FieldValues ≠ [] ∧
      (∀ v ∈ (IndexDataStoreKey.mk 1 1 [[slash]]).FieldValues, v ≠ []) ∧
      (IndexDataStoreKey.mk 1 1 [[slash]]).ToString = lit "/1/1//" ∧
      NewIndexDataStoreKey (IndexDataStoreKey.mk 1 1 [[slash]]).ToString
        = .ok (IndexDataStoreKey.mk 1 1 [[], []]) ∧
      (IndexDataStoreKey.mk 1 1 [[], []]).Equal (IndexDataStoreKey.mk 1 1 [[slash]]) = false ∧
      ¬ ∃ k2 : IndexDataStoreKey,
        NewIndexDataStoreKey (IndexDataStoreKey.mk 1 1 [[slash]]).ToString = .ok k2 ∧
          k2.Equal (IndexDataStoreKey.mk 1 1 [[slash]]) = true := by
  refine ⟨by decide, by decide, by decide, by decide, by decide, by decide, by decide, ?_⟩
  rintro ⟨k2, h1, h2⟩
  have e : NewIndexDataStoreKey (IndexDataStoreKey.mk 1 1 [[slash]]).ToString
      = .ok (IndexDataStoreKey.mk 1 1 [[], []]) := by decide
  rw [e] at h1
  cases h1
  revert h2
  decide

/-- Claim C4, amended. An `IndexDataStoreKey` with a non-zero `CollectionID`, a non-zero
`IndexID` and a non-empty list of non-empty field values none of which contains the
byte `'/'` is parsed back from its string by `NewIndexDataStoreKey`, to a key that is
`Equal` to it. -/
theorem NewIndexDataStoreKey_ToString (k : IndexDataStoreKey)
    (hcol : k.CollectionID ≠ 0) (hcol32 : k.CollectionID < 2 ^ 32)
    (hind : k.IndexID ≠ 0) (hind32 : k.IndexID < 2 ^ 32)
    (hne : k.FieldValues ≠ [])
    (hvs : ∀ v ∈ k.FieldValues, v ≠ [] ∧ slash ∉ v) :
    ∃ k2 : IndexDataStoreKey,
      NewIndexDataStoreKey k.ToString = .ok k2 ∧ k2.Equal k = true ∧ k2 = k := by
  rcases k with ⟨col, ind, vs⟩
  simp only at hcol hcol32 hind hind32 hne hvs
  refine ⟨⟨col, ind, vs⟩, ?_, IndexDataStoreKey_Equal_self _, rfl⟩
  obtain ⟨tail, h1, h2⟩ := writeFieldValues_Split vs ([slash] ++ Itoa (col : Int) ++ [slash])
    (Itoa (ind : Int)) (slash_not_mem_Itoa ind) hvs
  have e : IndexDataStoreKey.ToString ⟨col, ind, vs⟩
      = slash :: (Itoa (col : Int) ++ slash :: tail) := by
    simp only [IndexDataStoreKey.ToString, hcol, hind, if_false, List.nil_append]
    rw [h1]; simp
  have hsp : Split slash (Itoa (col : Int) ++ slash :: tail)
      = Itoa (col : Int) :: Itoa (ind : Int) :: vs := by
    rw [Split_append_sep _ _ _ (slash_not_mem_Itoa col), h2]
  have hlen : ¬ vs.length + 1 + 1 < 3 := by
    cases vs with
    | nil => exact absurd rfl hne
    | cons v vs => simp
  rw [e]
  simp [NewIndexDataStoreKey, HasPrefixSlash, hsp, hlen, Atoi_Itoa col (by omega),
    Atoi_Itoa ind (by omega), toUint32_natCast col hcol32, toUint32_natCast ind hind32]

theorem NewIndexDataStoreKey_ToString_witness :
    ∃ k2 : IndexDataStoreKey,
      NewIndexDataStoreKey (IndexDataStoreKey.mk 3 2 [[0, 255], lit "abc"]).ToString = .ok k2 ∧
        k2.Equal (IndexDataStoreKey.mk 3 2 [[0, 255], lit "abc"]) = true ∧
        k2 = IndexDataStoreKey.mk 3 2 [[0, 255], lit "abc"] :=
  NewIndexDataStoreKey_ToString (IndexDataStoreKey.mk 3 2 [[0, 255], lit "abc"])
    (by decide) (by decide) (by decide) (by decide) (by decide) (by decide)

/-! ## `HeadStoreKey` -/

/-- Claim C5. A `HeadStoreKey` with a non-empty `DocID` and a non-empty `FieldId` without
`'/'` and a defined `Cid`, whose string has no `'/'` and decodes to the same `Cid`, is
parsed back from its string by `NewHeadStoreKey`. -/
theorem NewHeadStoreKey_ToString {Cid : Type} (L : CidLib Cid) (k : HeadStoreKey Cid)
    (hdoc : k.DocID ≠ []) (hfld : k.FieldId ≠ [])
    (hsd : slash ∉ k.DocID) (hsf : slash ∉ k.FieldId)
    (hdef : L.Defined k.Cid = true) (hsc : slash ∉ L.String k.Cid)
    (hdec : L.Decode (L.String k.Cid) = .ok k.Cid) :
    NewHeadStoreKey L (k.ToString L) = .ok k := by
  rcases k with ⟨doc, fld, cid⟩
  simp only at hdoc hfld hsd hsf hdef hsc hdec
  have e : HeadStoreKey.ToString L ⟨doc, fld, cid⟩
      = slash :: (doc ++ slash :: (fld ++ slash :: L.String cid)) := by
    simp [HeadStoreKey.ToString, hdoc, hfld, hdef]
  have hsp : Split slash (slash :: (doc ++ slash :: (fld ++ slash :: L.String cid)))
      = [[], doc, fld, L.String cid] := by
    rw [Split_sep_cons, Split_append_sep _ _ _ hsd,
      Split_append_sep _ _ _ hsf, Split_of_not_mem _ _ hsc]
  rw [e]
  simp [NewHeadStoreKey, hsp, hdec]

theorem NewHeadStoreKey_ToString_witness :
    NewHeadStoreKey exampleCidLib
        ((HeadStoreKey.mk (lit "bae-1") (lit "C") (lit "bafy")).ToString exampleCidLib)
      = .ok (HeadStoreKey.mk (lit "bae-1") (lit "C") (lit "bafy")) :=
  NewHeadStoreKey_ToString exampleCidLib (HeadStoreKey.mk (lit "bae-1") (lit "C") (lit "bafy"))
    (by decide) (by decide) (by decide) (by decide) (by decide) (by decide) (by decide)

/-! ## `CollectionIndexKey` -/

/-- Claim C6. A `CollectionIndexKey` that has a `CollectionID` and an `IndexName` without
`'/'` (possibly empty) is parsed back from its string by
`NewCollectionIndexKeyFromString`. -/
theorem NewCollectionIndexKeyFromString_ToString (k : CollectionIndexKey) (id : Nat)
    (hid : k.CollectionID = some id) (h32 : id < 2 ^ 32) (hname : slash ∉ k.IndexName) :
    NewCollectionIndexKeyFromString k.ToString = .ok k := by
  rcases k with ⟨col, name⟩
  simp only at hid hname
  subst hid
  have hpre : COLLECTION_INDEX = slash :: (COLLECTION ++ slash :: lit "index") := by decide
  have hc : slash ∉ COLLECTION := by decide
  have hi : slash ∉ lit "index" := by decide
  have hn : ([] : Str) ≠ COLLECTION := by decide
  by_cases hne : name = []
  · subst hne
    have e : CollectionIndexKey.ToString ⟨some id, []⟩
        = slash :: (COLLECTION ++ slash :: (lit "index" ++ slash :: Itoa (id : Int))) := by
      simp [CollectionIndexKey.ToString, hpre]
    have hsp : Split slash
        (slash :: (COLLECTION ++ slash :: (lit "index" ++ slash :: Itoa (id : Int))))
        = [[], COLLECTION, lit "index", Itoa (id : Int)] := by
      rw [Split_sep_cons, Split_append_sep _ _ _ hc,
        Split_append_sep _ _ _ hi, Split_of_not_mem _ _ (slash_not_mem_Itoa id)]
    rw [e]
    simp [NewCollectionIndexKeyFromString, hsp, Atoi_Itoa id (by omega), toUint32_natCast id h32]
  · have e : CollectionIndexKey.ToString ⟨some id, name⟩
        = slash :: (COLLECTION ++ slash :: (lit "index" ++ slash ::
            (Itoa (id : Int) ++ slash :: name))) := by
      simp [CollectionIndexKey.ToString, hpre, hne]
    have hsp : Split slash
        (slash :: (COLLECTION ++ slash :: (lit "index" ++ slash ::
            (Itoa (id : Int) ++ slash :: name))))
        = [[], COLLECTION, lit "index", Itoa (id : Int), name] := by
      rw [Split_sep_cons, Split_append_sep _ _ _ hc,
        Split_append_sep _ _ _ hi, Split_append_sep _ _ _ (slash_not_mem_Itoa id),
        Split_of_not_mem _ _ hname]
    rw [e]
    simp [NewCollectionIndexKeyFromString, hsp, Atoi_Itoa id (by omega), toUint32_natCast id h32]

theorem NewCollectionIndexKeyFromString_ToString_witness :
    NewCollectionIndexKeyFromString (CollectionIndexKey.mk (some 0) (lit "idx")).ToString
        = .ok (CollectionIndexKey.mk (some 0) (lit "idx")) ∧
      NewCollectionIndexKeyFromString (CollectionIndexKey.mk (some 12) []).ToString
        = .ok (CollectionIndexKey.mk (some 12) []) :=
  ⟨NewCollectionIndexKeyFromString_ToString (CollectionIndexKey.mk (some 0) (lit "idx")) 0 rfl
      (by decide) (by decide),
    NewCollectionIndexKeyFromString_ToString (CollectionIndexKey.mk (some 12) []) 12 rfl
      (by decide) (by decide)⟩

/-! ## `CollectionSchemaVersionKey` -/

/-- Claim C7, at the input `"5"`, which has no `'/'`: the split has the one element
`"5"`, `Atoi` accepts it, and `elements[len(elements)-2]` indexes the slice at -1, so the
call ends in an index out of range panic, not in a key or an error. -/
theorem NewCollectionSchemaVersionKeyFromString_panics :
    Split slash (lit "5") = [lit "5"] ∧ Atoi (lit "5") = .ok 5 ∧
      NewCollectionSchemaVersionKeyFromString (lit "5") = .panicIndexOutOfRange (-1) 1 := by
  decide

/-! ## `CollectionDescription.UnmarshalJSON` -/

theorem unmarshalOption_of_ne_null {α : Type} (zero : α) (um : α → Json → Except Error α)
    (j : Json) (v : α) (hj : j ≠ .null) (h : um zero j = .ok v) :
    unmarshalOption zero um j = .ok (some v) := by
  cases j <;> first | exact absurd rfl hj | simp [unmarshalOption, h]

theorem unmarshalOption_marshalOption {α : Type} (C : JsonCodec α)
    (hC : ∀ a, C.Marshal a ≠ .null ∧ C.Unmarshal C.zero (C.Marshal a) = .ok a) (o : Option α) :
    unmarshalOption C.zero C.Unmarshal (marshalOption C.Marshal o) = .ok o := by
  cases o with
  | none => rfl
  | some a => exact unmarshalOption_of_ne_null _ _ _ _ (hC a).1 (hC a).2

theorem unmarshalOption_string (o : Option Str) :
    unmarshalOption [] unmarshalString (marshalOption Json.str o) = .ok o := by
  cases o <;> rfl

theorem unmarshalUint32_num (cur n : Nat) (h : n < 2 ^ 32) :
    unmarshalUint32 cur (.num (n : Int)) = .ok n := by
  have h1 : (0 : Int) ≤ (n : Int) ∧ (n : Int).toNat < 2 ^ 32 := ⟨by omega, by simpa using h⟩
  simp only [unmarshalUint32]
  rw [if_pos h1]
  simp

theorem unmarshalElems_map {α : Type} (C : JsonCodec α)
    (hC : ∀ a, C.Unmarshal C.zero (C.Marshal a) = .ok a) (l : List α) :
    unmarshalElems C.zero C.Unmarshal (l.map C.Marshal) = .ok l := by
  induction l with
  | nil => rfl
  | cons a l ih => simp [unmarshalElems, hC a, ih]

theorem unmarshalSources_ok {X : Externals} (ms : List RawMap) (l : List (Source X))
    (h : List.Forall₂ (fun m s => unmarshalSource X m = .ok s) ms l) (done : List (Source X)) :
    unmarshalSources X ms done = .ok (done ++ l) := by
  induction h generalizing done with
  | nil => simp [unmarshalSources]
  | cons hd _ ih => simp [unmarshalSources, hd, ih]

theorem unmarshalQuerySourceFields_Query (X : Externals) (v : Json) (rest : List (Str × Json))
    (acc : QuerySource X) :
    unmarshalQuerySourceFields X ((lit "Query", v) :: rest) acc =
      match X.select.Unmarshal acc.Query v with
      | .error err => .error err
      | .ok x => unmarshalQuerySourceFields X rest { acc with Query := x } := rfl

theorem unmarshalQuerySourceFields_Transform (X : Externals) (v : Json)
    (rest : List (Str × Json)) (acc : QuerySource X) :
    unmarshalQuerySourceFields X ((lit "Transform", v) :: rest) acc =
      match unmarshalOption X.lens.zero X.lens.Unmarshal v with
      | .error err => .error err
      | .ok x => unmarshalQuerySourceFields X rest { acc with Transform := x } := rfl

theorem unmarshalCollectionSourceFields_SourceCollectionID (X : Externals) (v : Json)
    (rest : List (Str × Json)) (acc : CollectionSource X) :
    unmarshalCollectionSourceFields X ((lit "SourceCollectionID", v) :: rest) acc =
      match unmarshalUint32 acc.SourceCollectionID v with
      | .error err => .error err
      | .ok x => unmarshalCollectionSourceFields X rest { acc with SourceCollectionID := x } := rfl

theorem unmarshalCollectionSourceFields_Transform (X : Externals) (v : Json)
    (rest : List (Str × Json)) (acc : CollectionSource X) :
    unmarshalCollectionSourceFields X ((lit "Transform", v) :: rest) acc =
      match unmarshalOption X.lens.zero X.lens.Unmarshal v with
      | .error err => .error err
      | .ok x => unmarshalCollectionSourceFields X rest { acc with Transform := x } := rfl

/-- An encoded source is read as a map with the same entries, and the loop body of
`UnmarshalJSON` decodes that map to the source. -/
theorem unmarshalSource_Marshal {X : Externals}
    (hSel : ∀ s, X.select.Unmarshal X.select.zero (X.select.Marshal s) = .ok s)
    (hLens : ∀ l, X.lens.Marshal l ≠ .null ∧ X.lens.Unmarshal X.lens.zero (X.lens.Marshal l) = .ok l)
    (s : Source X)
    (h32 : ∀ c, s = .collection c → c.SourceCollectionID < 2 ^ 32) :
    ∃ m : RawMap, unmarshalRawMap [] s.Marshal = .ok m ∧ unmarshalSource X m = .ok s := by
  cases s with
  | query q =>
    refine ⟨[(lit "Query", X.select.Marshal q.Query),
      (lit "Transform", marshalOption X.lens.Marshal q.Transform)], rfl, ?_⟩
    have hq : unmarshalQuerySource X (.obj [(lit "Query", X.select.Marshal q.Query),
        (lit "Transform", marshalOption X.lens.Marshal q.Transform)]) = .ok q := by
      show unmarshalQuerySourceFields X _ ⟨X.select.zero, none⟩ = _
      rw [unmarshalQuerySourceFields_Query, hSel]
      simp only
      rw [unmarshalQuerySourceFields_Transform, unmarshalOption_marshalOption X.lens hLens]
      rfl
    have hk : mapHas (lit "Query") [(lit "Query", X.select.Marshal q.Query),
        (lit "Transform", marshalOption X.lens.Marshal q.Transform)] = true := rfl
    simp only [unmarshalSource, hk, if_true, hq]
  | collection c =>
    refine ⟨[(lit "SourceCollectionID", .num (c.SourceCollectionID : Int)),
      (lit "Transform", marshalOption X.lens.Marshal c.Transform)], rfl, ?_⟩
    have hq : unmarshalCollectionSource X
        (.obj [(lit "SourceCollectionID", .num (c.SourceCollectionID : Int)),
          (lit "Transform", marshalOption X.lens.Marshal c.Transform)]) = .ok c := by
      show unmarshalCollectionSourceFields X _ ⟨0, none⟩ = _
      rw [unmarshalCollectionSourceFields_SourceCollectionID,
        unmarshalUint32_num _ _ (h32 c rfl)]
      simp only
      rw [unmarshalCollectionSourceFields_Transform, unmarshalOption_marshalOption X.lens hLens]
      rfl
    have hk1 : mapHas (lit "Query") [(lit "SourceCollectionID", Json.num (c.SourceCollectionID : Int)),
        (lit "Transform", marshalOption X.lens.Marshal c.Transform)] = false := rfl
    have hk2 : mapHas (lit "SourceCollectionID")
        [(lit "SourceCollectionID", Json.num (c.SourceCollectionID : Int)),
        (lit "Transform", marshalOption X.lens.Marshal c.Transform)] = true := rfl
    simp only [unmarshalSource, hk1, hk2, if_true, hq]
    rfl

theorem unmarshalSources_Marshal {X : Externals}
    (hSel : ∀ s, X.select.Unmarshal X.select.zero (X.select.Marshal s) = .ok s)
    (hLens : ∀ l, X.lens.Marshal l ≠ .null ∧ X.lens.Unmarshal X.lens.zero (X.lens.Marshal l) = .ok l)
    (l : List (Source X))
    (h32 : ∀ c, Source.collection c ∈ l → c.SourceCollectionID < 2 ^ 32) :
    ∃ ms : List RawMap,
      unmarshalElems [] unmarshalRawMap (l.map Source.Marshal) = .ok ms ∧
        List.Forall₂ (fun m s => unmarshalSource X m = .ok s) ms l := by
  induction l with
  | nil => exact ⟨[], rfl, List.Forall₂.nil⟩
  | cons s l ih =>
    obtain ⟨m, h1, h2⟩ := unmarshalSource_Marshal hSel hLens s
      (fun c hc => h32 c (hc ▸ List.mem_cons_self _ _))
    obtain ⟨ms, h3, h4⟩ := ih (fun c hc => h32 c (List.mem_cons_of_mem _ hc))
    exact ⟨m :: ms, by simp [unmarshalElems, h1, h3], List.Forall₂.cons h2 h4⟩

theorem unmarshalCollectionDescriptionFields_Name (X : Externals) (v : Json)
    (rest : List (Str × Json)) (acc : collectionDescription X) :
    unmarshalCollectionDescriptionFields X ((lit "Name", v) :: rest) acc =
      match unmarshalOption [] unmarshalString v with
      | .error err => .error err
      | .ok x => unmarshalCollectionDescriptionFields X rest { acc with Name := x } := rfl

theorem unmarshalCollectionDescriptionFields_ID (X : Externals) (v : Json)
    (rest : List (Str × Json)) (acc : collectionDescription X) :
    unmarshalCollectionDescriptionFields X ((lit "ID", v) :: rest) acc =
      match unmarshalUint32 acc.ID v with
      | .error err => .error err
      | .ok x => unmarshalCollectionDescriptionFields X rest { acc with ID := x } := rfl

theorem unmarshalCollectionDescriptionFields_RootID (X : Externals) (v : Json)
    (rest : List (Str × Json)) (acc : collectionDescription X) :
    unmarshalCollectionDescriptionFields X ((lit "RootID", v) :: rest) acc =
      match unmarshalUint32 acc.RootID v with
      | .error err => .error err
      | .ok x => unmarshalCollectionDescriptionFields X rest { acc with RootID := x } := rfl

theorem unmarshalCollectionDescriptionFields_SchemaVersionID (X : Externals) (v : Json)
    (rest : List (Str × Json)) (acc : collectionDescription X) :
    unmarshalCollectionDescriptionFields X ((lit "SchemaVersionID", v) :: rest) acc =
      match unmarshalString acc.SchemaVersionID v with
      | .error err => .error err
      | .ok x =>
        unmarshalCollectionDescriptionFields X rest { acc with SchemaVersionID := x } := rfl

theorem unmarshalCollectionDescriptionFields_Indexes (X : Externals) (v : Json)
    (rest : List (Str × Json)) (acc : collectionDescription X) :
    unmarshalCollectionDescriptionFields X ((lit "Indexes", v) :: rest) acc =
      match unmarshalSlice X.index.zero X.index.Unmarshal v with
      | .error err => .error err
      | .ok x => unmarshalCollectionDescriptionFields X rest { acc with Indexes := x } := rfl

theorem unmarshalCollectionDescriptionFields_Sources (X : Externals) (v : Json)
    (rest : List (Str × Json)) (acc : collectionDescription X) :
    unmarshalCollectionDescriptionFields X ((lit "Sources", v) :: rest) acc =
      match unmarshalSlice [] unmarshalRawMap v with
      | .error err => .error err
      | .ok x => unmarshalCollectionDescriptionFields X rest { acc with Sources := x } := rfl

/-- The key `Policy` matches no field of `collectionDescription`: its value is skipped. -/
theorem unmarshalCollectionDescriptionFields_Policy (X : Externals) (v : Json)
    (rest : List (Str × Json)) (acc : collectionDescription X) :
    unmarshalCollectionDescriptionFields X ((lit "Policy", v) :: rest) acc =
      unmarshalCollectionDescriptionFields X rest acc := rfl

/-- Claim C9 as stated fails: a description with a `Policy` is encoded with it, and
`UnmarshalJSON` on a zero description returns the description without `Policy`. -/
theorem CollectionDescription_Policy_not_decoded :
    (CollectionDescription.zero exampleExternals).UnmarshalJSON
        (CollectionDescription.Marshal
          (CollectionDescription.mk (some (lit "Users")) 1 1 (lit "bafk") [] [] (some 9) :
            CollectionDescription exampleExternals))
      = .ok (CollectionDescription.mk (some (lit "Users")) 1 1 (lit "bafk") [] [] none) ∧
    (CollectionDescription.zero exampleExternals).UnmarshalJSON
        (CollectionDescription.Marshal
          (CollectionDescription.mk (some (lit "Users")) 1 1 (lit "bafk") [] [] (some 9) :
            CollectionDescription exampleExternals))
      ≠ .ok (CollectionDescription.mk (some (lit "Users")) 1 1 (lit "bafk") [] [] (some 9)) := by
  have e : (CollectionDescription.zero exampleExternals).UnmarshalJSON
        (CollectionDescription.Marshal
          (CollectionDescription.mk (some (lit "Users")) 1 1 (lit "bafk") [] [] (some 9) :
            CollectionDescription exampleExternals))
      = .ok (CollectionDescription.mk (some (lit "Users")) 1 1 (lit "bafk") [] [] none) := rfl
  refine ⟨e, ?_⟩
  rw [e]
  intro h
  injection h with h
  injection h with _ _ _ _ _ _ h
  exact Option.noConfusion h

/-- Claim C9, amended. When the strings are valid UTF-8, the integers are `uint32`
values, and the values of the types declared in other files are decoded from their own
encoding, decoding the JSON encoding of a description `d` into a description `c` gives
`d` in the fields `Name`, `ID`, `RootID`, `SchemaVersionID`, `Sources` and `Indexes`, the
elements of the slices in the same order; `Policy` is not decoded and stays as it is in
`c`. -/
theorem UnmarshalJSON_Marshal {X : Externals} (d c : CollectionDescription X)
    (hID : d.ID < 2 ^ 32) (hRoot : d.RootID < 2 ^ 32)
    (hSrc : ∀ s, Source.collection s ∈ d.Sources → s.SourceCollectionID < 2 ^ 32)
    (hSel : ∀ s, X.select.Unmarshal X.select.zero (X.select.Marshal s) = .ok s)
    (hLens : ∀ l, X.lens.Marshal l ≠ .null ∧ X.lens.Unmarshal X.lens.zero (X.lens.Marshal l) = .ok l)
    (hIdx : ∀ i, X.index.Unmarshal X.index.zero (X.index.Marshal i) = .ok i) :
    c.UnmarshalJSON d.Marshal = .ok { d with Policy := c.Policy } := by
  obtain ⟨ms, h1, h2⟩ := unmarshalSources_Marshal hSel hLens d.Sources hSrc
  have h3 := unmarshalSources_ok ms d.Sources h2 []
  have hsl : unmarshalSlice [] unmarshalRawMap (.arr (d.Sources.map Source.Marshal)) = .ok ms := h1
  have hix : unmarshalSlice X.index.zero X.index.Unmarshal (.arr (d.Indexes.map X.index.Marshal))
      = .ok d.Indexes := unmarshalElems_map X.index hIdx d.Indexes
  have hstr : ∀ cur : Str, unmarshalString cur (.str d.SchemaVersionID) = .ok d.SchemaVersionID :=
    fun _ => rfl
  have hdm : unmarshalCollectionDescription X d.Marshal
      = .ok ⟨d.Name, d.ID, d.RootID, d.SchemaVersionID, d.Indexes, ms⟩ := by
    show unmarshalCollectionDescriptionFields X _ ⟨none, 0, 0, [], [], []⟩ = _
    rw [unmarshalCollectionDescriptionFields_Name, unmarshalOption_string]
    simp only
    rw [unmarshalCollectionDescriptionFields_ID, unmarshalUint32_num _ _ hID]
    simp only
    rw [unmarshalCollectionDescriptionFields_RootID, unmarshalUint32_num _ _ hRoot]
    simp only
    rw [unmarshalCollectionDescriptionFields_SchemaVersionID, hstr]
    simp only
    rw [unmarshalCollectionDescriptionFields_Sources, hsl]
    simp only
    rw [unmarshalCollectionDescriptionFields_Indexes, hix]
    simp only
    rw [unmarshalCollectionDescriptionFields_Policy]
    rfl
  simp only [CollectionDescription.UnmarshalJSON, hdm, h3, List.nil_append]

theorem exampleCodec_roundtrip (n : Nat) :
    exampleCodec.Marshal n ≠ .null ∧
      exampleCodec.Unmarshal exampleCodec.zero (exampleCodec.Marshal n) = .ok n := by
  constructor
  · simp [exampleCodec]
  · simp [exampleCodec]

theorem UnmarshalJSON_Marshal_witness :
    (CollectionDescription.zero exampleExternals).UnmarshalJSON
        (CollectionDescription.Marshal
          (CollectionDescription.mk (some (lit "Users")) 1 1 (lit "bafk")
            [.query ⟨3, some 4⟩, .collection ⟨5, none⟩] [7, 8] none :
            CollectionDescription exampleExternals))
      = .ok (CollectionDescription.mk (some (lit "Users")) 1 1 (lit "bafk")
            [.query ⟨3, some 4⟩, .collection ⟨5, none⟩] [7, 8] none) :=
  UnmarshalJSON_Marshal
    (CollectionDescription.mk (some (lit "Users")) 1 1 (lit "bafk")
      [.query ⟨3, some 4⟩, .collection ⟨5, none⟩] [7, 8] none :
      CollectionDescription exampleExternals)
    (CollectionDescription.zero exampleExternals)
    (by decide) (by decide)
    (by
      intro s hs
      simp only [List.mem_cons, List.mem_singleton, List.not_mem_nil, or_false] at hs
      rcases hs with hs | hs
      · exact Source.noConfusion hs
      · cases hs; decide)
    (fun s => (exampleCodec_roundtrip s).2)
    exampleCodec_roundtrip
    (fun s => (exampleCodec_roundtrip s).2)

theorem unmarshalSources_forall₂ {X : Externals} (sources : List RawMap)
    (done out : List (Source X)) (h : unmarshalSources X sources done = .ok out) :
    ∃ vs : List (Source X), out = done ++ vs ∧
      List.Forall₂ (fun s v => unmarshalSource X s = .ok v) sources vs := by
  induction sources generalizing done with
  | nil =>
    simp only [unmarshalSources, Except.ok.injEq] at h
    exact ⟨[], by simp [h], List.Forall₂.nil⟩
  | cons s rest ih =>
    simp only [unmarshalSources] at h
    cases hs : unmarshalSource X s with
    | error err => rw [hs] at h; exact absurd h (by simp)
    | ok v =>
      rw [hs] at h
      obtain ⟨vs, e, hf⟩ := ih _ h
      exact ⟨v :: vs, by simp [e], List.Forall₂.cons hs hf⟩

theorem unmarshalSources_first_error {X : Externals} (pre : List RawMap) (source : RawMap)
    (post : List RawMap) (err : Error) (done : List (Source X))
    (hpre : ∀ s ∈ pre, ∃ v, unmarshalSource X s = .ok v)
    (hsrc : unmarshalSource X source = .error err) :
    unmarshalSources X (pre ++ source :: post) done = .error err := by
  induction pre generalizing done with
  | nil => simp [unmarshalSources, hsrc]
  | cons s pre ih =>
    obtain ⟨v, hv⟩ := hpre s (List.mem_cons_self _ _)
    simp only [List.cons_append, unmarshalSources, hv]
    exact ih _ (fun t ht => hpre t (List.mem_cons_of_mem _ ht))

theorem unmarshalSources_error_of_mem {X : Externals} (sources : List RawMap) (source : RawMap)
    (hmem : source ∈ sources) (done : List (Source X))
    (hsrc : ∃ err, unmarshalSource X source = .error err) :
    ∃ err, unmarshalSources X sources done = .error err := by
  induction sources generalizing done with
  | nil => simp at hmem
  | cons s rest ih =>
    simp only [unmarshalSources]
    cases hs : unmarshalSource X s with
    | error err => exact ⟨err, rfl⟩
    | ok v =>
      rcases List.mem_cons.1 hmem with rfl | hm
      · obtain ⟨err, he⟩ := hsrc
        rw [hs] at he
        exact absurd he (by simp)
      · exact ih hm _

/-- Claim C10 as stated fails: in the array
`[{"SourceCollectionID": ""}, {}]` the second object has neither key, and the decode
fails with the error of `encoding/json` for the first element, not with
`ErrFailedToUnmarshalCollection`. -/
theorem UnmarshalJSON_neither_key_other_error :
    mapHas (lit "Query") [] = false ∧ mapHas (lit "SourceCollectionID") [] = false ∧
      (unmarshalCollectionDescription exampleExternals
          (.obj [(lit "Sources",
            .arr [.obj [(lit "SourceCollectionID", .str [])], .obj []])])).map
          (fun descMap => descMap.Sources)
        = .ok [[(lit "SourceCollectionID", .str [])], []] ∧
      (CollectionDescription.zero exampleExternals).UnmarshalJSON
          (.obj [(lit "Sources",
            .arr [.obj [(lit "SourceCollectionID", .str [])], .obj []])])
        = .error (.JsonError 1) ∧
      (CollectionDescription.zero exampleExternals).UnmarshalJSON
          (.obj [(lit "Sources",
            .arr [.obj [(lit "SourceCollectionID", .str [])], .obj []])])
        ≠ .error .ErrFailedToUnmarshalCollection := by
  have e : (CollectionDescription.zero exampleExternals).UnmarshalJSON
          (.obj [(lit "Sources",
            .arr [.obj [(lit "SourceCollectionID", .str [])], .obj []])])
        = .error (.JsonError 1) := rfl
  refine ⟨rfl, rfl, rfl, e, ?_⟩
  rw [e]
  intro h
  injection h with h
  exact Error.noConfusion h

/-- Claim C10, amended. `UnmarshalJSON` decodes the elements of `descMap.Sources` in
order. An element that has the key `Query` is decoded as a `*QuerySource`; otherwise an
element that has the key `SourceCollectionID` is decoded as a `*CollectionSource`; an
element with neither key makes the whole decode fail, with
`ErrFailedToUnmarshalCollection` when every element before it is decoded without
error. When the decode succeeds, the decoded `Sources` has the length of the input array
and its elements are the decoded elements of the array in the same order. When an
element fails to decode and every element before it is decoded without error, the
decode fails with the error of that element. -/
theorem UnmarshalJSON_discriminates_sources {X : Externals} (c : CollectionDescription X)
    (bytes : Json) (descMap : collectionDescription X)
    (hdesc : unmarshalCollectionDescription X bytes = .ok descMap) :
    (∀ source : RawMap, mapHas (lit "Query") source = true →
        unmarshalSource X source =
          match unmarshalQuerySource X (.obj source) with
          | .error err => .error err
          | .ok querySource => .ok (.query querySource)) ∧
      (∀ source : RawMap, mapHas (lit "Query") source = false →
        mapHas (lit "SourceCollectionID") source = true →
        unmarshalSource X source =
          match unmarshalCollectionSource X (.obj source) with
          | .error err => .error err
          | .ok collectionSource => .ok (.collection collectionSource)) ∧
      (∀ source ∈ descMap.Sources, mapHas (lit "Query") source = false →
        mapHas (lit "SourceCollectionID") source = false →
        ∃ err, c.UnmarshalJSON bytes = .error err) ∧
      (∀ (pre : List RawMap) (source : RawMap) (post : List RawMap),
        descMap.Sources = pre ++ source :: post →
        (∀ s ∈ pre, ∃ v, unmarshalSource X s = .ok v) →
        mapHas (lit "Query") source = false →
        mapHas (lit "SourceCollectionID") source = false →
        c.UnmarshalJSON bytes = .error .ErrFailedToUnmarshalCollection) ∧
      (∀ c2 : CollectionDescription X, c.UnmarshalJSON bytes = .ok c2 →
        c2.Sources.length = descMap.Sources.length ∧
          List.Forall₂ (fun s v => unmarshalSource X s = .ok v) descMap.Sources c2.Sources) ∧
      (∀ (pre : List RawMap) (source : RawMap) (post : List RawMap) (err : Error),
        descMap.Sources = pre ++ source :: post →
        (∀ s ∈ pre, ∃ v, unmarshalSource X s = .ok v) →
        unmarshalSource X source = .error err →
        c.UnmarshalJSON bytes = .error err) := by
  have hn : ∀ source : RawMap, mapHas (lit "Query") source = false →
      mapHas (lit "SourceCollectionID") source = false →
      unmarshalSource X source = .error .ErrFailedToUnmarshalCollection := by
    intro source h1 h2
    simp [unmarshalSource, h1, h2]
  refine ⟨?_, ?_, ?_, ?_, ?_, ?_⟩
  · intro source h1
    simp [unmarshalSource, h1]
  · intro source h1 h2
    simp [unmarshalSource, h1, h2]
  · intro source hmem h1 h2
    obtain ⟨err, he⟩ := unmarshalSources_error_of_mem descMap.Sources source hmem []
      ⟨_, hn source h1 h2⟩
    exact ⟨err, by simp [CollectionDescription.UnmarshalJSON, hdesc, he]⟩
  · intro pre source post hs hpre h1 h2
    have he := unmarshalSources_first_error pre source post _ ([] : List (Source X)) hpre
      (hn source h1 h2)
    simp [CollectionDescription.UnmarshalJSON, hdesc, hs, he]
  · intro c2 h
    simp only [CollectionDescription.UnmarshalJSON, hdesc] at h
    cases hs : unmarshalSources X descMap.Sources [] with
    | error err => rw [hs] at h; exact absurd h (by simp)
    | ok out =>
      rw [hs] at h
      obtain ⟨vs, e, hf⟩ := unmarshalSources_forall₂ _ _ _ hs
      simp only [Except.ok.injEq] at h
      subst h
      simp only [List.nil_append] at e
      subst e
      exact ⟨hf.length_eq.symm, hf⟩
  · intro pre source post err hs hpre hsrc
    have he := unmarshalSources_first_error pre source post err ([] : List (Source X)) hpre hsrc
    simp [CollectionDescription.UnmarshalJSON, hdesc, hs, he]

theorem UnmarshalJSON_discriminates_sources_witness :
    (CollectionDescription.zero exampleExternals).UnmarshalJSON
        (.obj [(lit "Sources",
          .arr [.obj [(lit "SourceCollectionID", .num 5)], .obj [(lit "Other", .num 1)]])])
      = .error .ErrFailedToUnmarshalCollection :=
  (UnmarshalJSON_discriminates_sources (CollectionDescription.zero exampleExternals)
    (.obj [(lit "Sources",
      .arr [.obj [(lit "SourceCollectionID", .num 5)], .obj [(lit "Other", .num 1)]])])
    ⟨none, 0, 0, [], [], [[(lit "SourceCollectionID", .num 5)], [(lit "Other", .num 1)]]⟩
    rfl).2.2.2.1
    [[(lit "SourceCollectionID", .num 5)]] [(lit "Other", .num 1)] [] rfl
    (by
      intro s hs
      simp only [List.mem_singleton] at hs
      subst hs
      exact ⟨.collection ⟨5, none⟩, rfl⟩)
    rfl rfl

/-! ## `db/db.go` -/

theorem applyOptions_append (pre post : List DBOption) (d : db) :
    applyOptions (pre ++ post) d = applyOptions post (applyOptions pre d) := by
  induction pre generalizing d with
  | nil => rfl
  | cons opt pre ih =>
    simp only [List.cons_append, applyOptions]
    split <;> exact ih _

theorem applyOptions_maxTxnRetries_of_not_mem (options : List DBOption) (d : db)
    (h : ∀ n, DBOption.WithMaxRetries n ∉ options) :
    (applyOptions options d).maxTxnRetries = d.maxTxnRetries := by
  induction options generalizing d with
  | nil => rfl
  | cons opt options ih =>
    have hrest : ∀ n, DBOption.WithMaxRetries n ∉ options :=
      fun n hn => h n (List.mem_cons_of_mem _ hn)
    simp only [applyOptions]
    split
    · exact ih d hrest
    · rw [ih _ hrest]
      cases opt with
      | WithMaxRetries num => exact absurd (List.mem_cons_self _ _) (h num)
      | _ => rfl

/-- Claim C13. `db.MaxTxnRetries()` returns `n` on a `db` to which `WithMaxRetries(n)` was
the last retry option applied, and the default 5 when no `WithMaxRetries` option was
applied. -/
theorem MaxTxnRetries_of_options (pre post : List DBOption) (n : Int)
    (hpost : ∀ m, DBOption.WithMaxRetries m ∉ post) :
    (applyOptions (pre ++ DBOption.WithMaxRetries n :: post) newDBStruct).MaxTxnRetries = n ∧
      (applyOptions post newDBStruct).MaxTxnRetries = 5 := by
  constructor
  · rw [applyOptions_append]
    have e : applyOptions (DBOption.WithMaxRetries n :: post) (applyOptions pre newDBStruct)
        = applyOptions post { applyOptions pre newDBStruct with maxTxnRetries := some n } := by
      simp [applyOptions, DBOption.apply]
    rw [e]
    simp [db.MaxTxnRetries, applyOptions_maxTxnRetries_of_not_mem _ _ hpost]
  · simp [db.MaxTxnRetries, applyOptions_maxTxnRetries_of_not_mem _ _ hpost, newDBStruct,
      defaultMaxTxnRetries]

theorem MaxTxnRetries_of_options_witness :
    (applyOptions ([DBOption.WithMaxRetries 2, DBOption.nil] ++
        DBOption.WithMaxRetries 7 :: [DBOption.WithLensPoolSize 3]) newDBStruct).MaxTxnRetries = 7 ∧
      (applyOptions [DBOption.WithLensPoolSize 3] newDBStruct).MaxTxnRetries = 5 :=
  MaxTxnRetries_of_options [DBOption.WithMaxRetries 2, DBOption.nil]
    [DBOption.WithLensPoolSize 3] 7 (by intro m hm; simp at hm)

theorem txnIDsOfCalls_eq_range (calls : List TxnCall) (d : db)
    (h : d.previousTxnID + calls.length < 2 ^ 64) :
    txnIDsOfCalls calls d = List.range' (d.previousTxnID + 1) calls.length := by
  induction calls generalizing d with
  | nil => rfl
  | cons c calls ih =>
    simp only [List.length_cons] at h
    have e : (d.previousTxnID + 1) % 2 ^ 64 = d.previousTxnID + 1 := Nat.mod_eq_of_lt (by omega)
    simp only [txnIDsOfCalls, db.addTxnID, e, List.length_cons, List.range'_succ]
    congr 1
    have := ih { d with previousTxnID := d.previousTxnID + 1 } (by simp only; omega)
    simpa using this

/-- Claim C14. On a new `db`, the call of `db.NewTxn` or `db.NewConcurrentTxn` that is the
k-th to reach the counter passes the ID k to the transaction constructor, in every
sequence of fewer than `2 ^ 64` calls; so the IDs increase strictly from call to call
and no two calls share an ID. -/
theorem txnIDs_monotonic (calls : List TxnCall) (h : calls.length < 2 ^ 64) :
    (∀ (E : TxnEnv) (d : db) (readonly : Bool),
        d.NewTxn E readonly = (d.addTxnID.1, E.NewTxnFrom d.addTxnID.2 readonly) ∧
        d.NewConcurrentTxn E readonly
          = (d.addTxnID.1, E.NewConcurrentTxnFrom d.addTxnID.2 readonly)) ∧
      txnIDsOfCalls calls newDBStruct = List.range' 1 calls.length ∧
      (∀ k, k < calls.length → (txnIDsOfCalls calls newDBStruct)[k]? = some (k + 1)) ∧
      List.Pairwise (· < ·) (txnIDsOfCalls calls newDBStruct) ∧
      (txnIDsOfCalls calls newDBStruct).Nodup := by
  have e : txnIDsOfCalls calls newDBStruct = List.range' 1 calls.length := by
    have := txnIDsOfCalls_eq_range calls newDBStruct (by simpa [newDBStruct] using h)
    simpa [newDBStruct] using this
  refine ⟨fun E d r => ⟨rfl, rfl⟩, e, ?_, ?_, ?_⟩
  · intro k hk
    rw [e, List.getElem?_range' _ _ hk]
    simp [Nat.add_comm]
  · rw [e]
    exact List.pairwise_lt_range' 1 calls.length
  · rw [e]
    exact List.nodup_range' 1 calls.length

theorem txnIDs_monotonic_witness :
    txnIDsOfCalls [TxnCall.NewTxn false, TxnCall.NewConcurrentTxn true, TxnCall.NewTxn true]
      newDBStruct = List.range' 1 3 :=
  (txnIDs_monotonic [TxnCall.NewTxn false, TxnCall.NewConcurrentTxn true, TxnCall.NewTxn true]
    (by decide)).2.1

/-! ## `db/txn_db.go` -/

theorem implicitTxnDB_AddSchema_cases (E : TxnEnv) (d : db) (schemaString : Str) :
    implicitTxnDB.AddSchema E d schemaString =
      match E.NewTxnFrom d.addTxnID.2 false with
      | .error err => (d.addTxnID.1, .error err, [])
      | .ok txn =>
        match E.addSchema txn schemaString with
        | .error err => (d.addTxnID.1, .error err, [.run txn.id, .discard txn.id])
        | .ok cols =>
          match E.Commit txn with
          | some err =>
            (d.addTxnID.1, .error err, [.run txn.id, .commit txn.id, .discard txn.id])
          | none => (d.addTxnID.1, .ok cols, [.run txn.id, .commit txn.id, .discard txn.id]) := by
  simp only [implicitTxnDB.AddSchema, db.NewTxn]
  cases E.NewTxnFrom d.addTxnID.2 false <;> rfl

theorem implicitTxnDB_ExecRequest_cases (E : TxnEnv) (d : db) (request : Str) :
    implicitTxnDB.ExecRequest E d request =
      match E.NewTxnFrom d.addTxnID.2 false with
      | .error err => (d.addTxnID.1, ⟨none, [err]⟩, [])
      | .ok txn =>
        if (E.execRequest txn request).2.length > 0 then
          (d.addTxnID.1, ⟨(E.execRequest txn request).1, (E.execRequest txn request).2⟩,
            [.run txn.id, .discard txn.id])
        else
          match E.Commit txn with
          | some err =>
            (d.addTxnID.1, ⟨(E.execRequest txn request).1, [err]⟩,
              [.run txn.id, .commit txn.id, .discard txn.id])
          | none =>
            (d.addTxnID.1, ⟨(E.execRequest txn request).1, (E.execRequest txn request).2⟩,
              [.run txn.id, .commit txn.id, .discard txn.id]) := by
  simp only [implicitTxnDB.ExecRequest, db.NewTxn]
  cases E.NewTxnFrom d.addTxnID.2 false <;> rfl

theorem implicitTxnDB_PatchSchema_cases (E : TxnEnv) (d : db) (patchString : Str) :
    implicitTxnDB.PatchSchema E d patchString =
      match E.NewTxnFrom d.addTxnID.2 false with
      | .error err => (d.addTxnID.1, some err, [])
      | .ok txn =>
        match E.patchSchema txn patchString with
        | some err => (d.addTxnID.1, some err, [.run txn.id, .discard txn.id])
        | none =>
          (d.addTxnID.1, E.Commit txn, [.run txn.id, .commit txn.id, .discard txn.id]) := by
  simp only [implicitTxnDB.PatchSchema, db.NewTxn]
  cases E.NewTxnFrom d.addTxnID.2 false <;> rfl

/-- Claim C12. `implicitTxnDB.AddSchema` calls `Commit` exactly when the transaction was
created and the inner `addSchema` returned no error; it returns collections only when
that commit succeeded; when the inner operation or the commit fails it returns an error
and no collections, the transaction is discarded last, and after a failed inner
operation no commit is attempted. `implicitTxnDB.ExecRequest` calls `Commit` exactly
when the result of the inner `execRequest` carries no GQL errors. -/
theorem implicitTxnDB_commit_all_or_nothing (E : TxnEnv) (d : db) (schemaString request : Str) :
    ((∃ id, TxnEvent.commit id ∈ (implicitTxnDB.AddSchema E d schemaString).2.2) ↔
        ∃ txn cols, (d.NewTxn E false).2 = .ok txn ∧ E.addSchema txn schemaString = .ok cols) ∧
      (∀ cols, (implicitTxnDB.AddSchema E d schemaString).2.1 = .ok cols →
        ∃ txn, (d.NewTxn E false).2 = .ok txn ∧ E.addSchema txn schemaString = .ok cols ∧
          E.Commit txn = none) ∧
      (∀ txn, (d.NewTxn E false).2 = .ok txn →
        ((∃ err, E.addSchema txn schemaString = .error err) ∨ (∃ err, E.Commit txn = some err)) →
        (∃ err, (implicitTxnDB.AddSchema E d schemaString).2.1 = .error err) ∧
          (implicitTxnDB.AddSchema E d schemaString).2.2.getLast? = some (.discard txn.id) ∧
          ((∃ err, E.addSchema txn schemaString = .error err) →
            ∀ id, TxnEvent.commit id ∉ (implicitTxnDB.AddSchema E d schemaString).2.2)) ∧
      ((∃ id, TxnEvent.commit id ∈ (implicitTxnDB.ExecRequest E d request).2.2) ↔
        ∃ txn, (d.NewTxn E false).2 = .ok txn ∧ (E.execRequest txn request).2 = []) := by
  have hN : (d.NewTxn E false).2 = E.NewTxnFrom d.addTxnID.2 false := rfl
  rw [implicitTxnDB_AddSchema_cases, implicitTxnDB_ExecRequest_cases, hN]
  cases hT : E.NewTxnFrom d.addTxnID.2 false with
  | error err => simp
  | ok txn =>
    simp only [Except.ok.injEq, exists_eq_left']
    refine ⟨?_, ?_, ?_, ?_⟩
    · cases hA : E.addSchema txn schemaString with
      | error err => simp [hA]
      | ok cols => cases hC : E.Commit txn <;> simp [hA, hC]
    · intro cols
      cases hA : E.addSchema txn schemaString with
      | error err => simp [hA]
      | ok cols2 => cases hC : E.Commit txn <;> simp [hA, hC]
    · intro txn2 h2
      subst h2
      cases hA : E.addSchema txn schemaString with
      | error err => simp [hA]
      | ok cols => cases hC : E.Commit txn <;> simp [hA, hC]
    · by_cases hE : (E.execRequest txn request).2.length > 0
      · have hne : (E.execRequest txn request).2 ≠ [] := by
          intro h; rw [h] at hE; simp at hE
        simp [hE, hne]
      · have hnil : (E.execRequest txn request).2 = [] := by
          cases h : (E.execRequest txn request).2 with
          | nil => rfl
          | cons a l => rw [h] at hE; simp at hE
        simp only [hE, if_false, hnil]
        cases hC : E.Commit txn <;> simp [hC]

theorem implicitTxnDB_commit_all_or_nothing_witness :
    (∃ err, (implicitTxnDB.AddSchema conflictOnFirstEnv newDBStruct (lit "type A")).2.1
        = .error err) ∧
      (implicitTxnDB.AddSchema conflictOnFirstEnv newDBStruct (lit "type A")).2.2.getLast?
        = some (.discard 1) :=
  ⟨((implicitTxnDB_commit_all_or_nothing conflictOnFirstEnv newDBStruct (lit "type A")
      (lit "query")).2.2.1 ⟨1, false, false⟩ rfl (Or.inr ⟨.ErrTxnConflict, rfl⟩)).1,
    ((implicitTxnDB_commit_all_or_nothing conflictOnFirstEnv newDBStruct (lit "type A")
      (lit "query")).2.2.1 ⟨1, false, false⟩ rfl (Or.inr ⟨.ErrTxnConflict, rfl⟩)).2.1⟩

/-- Claim C11 as stated fails: on a `db` with the default of 5 retries (or with
`WithMaxRetries(3)`), when the commit of the first transaction fails with a transaction
conflict, `AddSchema` and `ExecRequest` return the conflict after one run of the inner
operation and one commit, on the one transaction created; a second attempt, on the
transaction with ID 2, would have been committed. -/
theorem implicitTxnDB_conflict_not_retried :
    newDBStruct.MaxTxnRetries = 5 ∧
      implicitTxnDB.AddSchema conflictOnFirstEnv newDBStruct (lit "type A")
        = ({ newDBStruct with previousTxnID := 1 }, .error .ErrTxnConflict,
            [.run 1, .commit 1, .discard 1]) ∧
      implicitTxnDB.AddSchema conflictOnFirstEnv { newDBStruct with previousTxnID := 1 }
          (lit "type A")
        = ({ newDBStruct with previousTxnID := 2 }, .ok [2], [.run 2, .commit 2, .discard 2]) ∧
      (applyOptions [DBOption.WithMaxRetries 3] newDBStruct).MaxTxnRetries = 3 ∧
      (implicitTxnDB.AddSchema conflictOnFirstEnv
          (applyOptions [DBOption.WithMaxRetries 3] newDBStruct) (lit "type A")).2
        = (.error .ErrTxnConflict, [.run 1, .commit 1, .discard 1]) ∧
      (implicitTxnDB.ExecRequest conflictOnFirstEnv newDBStruct (lit "query")).2.1.Errors
        = [.ErrTxnConflict] ∧
      (implicitTxnDB.ExecRequest conflictOnFirstEnv newDBStruct (lit "query")).2.2
        = [.run 1, .commit 1, .discard 1] := by
  refine ⟨rfl, rfl, rfl, rfl, rfl, rfl, rfl⟩

/-- Claim C11, amended. An operation of `implicitTxnDB` (`ExecRequest`, `AddSchema`,
`PatchSchema`) is not retried: it creates one transaction, runs the inner operation at
most once and calls `Commit` at most once; when that commit fails, with a transaction
conflict or any other error, the operation returns this error to the caller; and the
result does not depend on the number of retries set in the `db`. -/
theorem implicitTxnDB_single_attempt (E : TxnEnv) (d : db) (s : Str) (m : Option Int) :
    ((implicitTxnDB.AddSchema E { d with maxTxnRetries := m } s).2
        = (implicitTxnDB.AddSchema E d s).2 ∧
      (implicitTxnDB.ExecRequest E { d with maxTxnRetries := m } s).2
        = (implicitTxnDB.ExecRequest E d s).2 ∧
      (implicitTxnDB.PatchSchema E { d with maxTxnRetries := m } s).2
        = (implicitTxnDB.PatchSchema E d s).2) ∧
      (∀ events, events = (implicitTxnDB.AddSchema E d s).2.2 ∨
          events = (implicitTxnDB.ExecRequest E d s).2.2 ∨
          events = (implicitTxnDB.PatchSchema E d s).2.2 →
        events = [] ∨ (∃ id, events = [.run id, .discard id]) ∨
          ∃ id, events = [.run id, .commit id, .discard id]) ∧
      (∀ txn err, (d.NewTxn E false).2 = .ok txn → E.Commit txn = some err →
        (∀ cols, E.addSchema txn s = .ok cols →
          implicitTxnDB.AddSchema E d s
            = (d.addTxnID.1, .error err, [.run txn.id, .commit txn.id, .discard txn.id])) ∧
        ((E.execRequest txn s).2 = [] →
          (implicitTxnDB.ExecRequest E d s).2.1.Errors = [err] ∧
            (implicitTxnDB.ExecRequest E d s).2.2
              = [.run txn.id, .commit txn.id, .discard txn.id]) ∧
        (E.patchSchema txn s = none →
          implicitTxnDB.PatchSchema E d s
            = (d.addTxnID.1, some err, [.run txn.id, .commit txn.id, .discard txn.id]))) := by
  have hN : (d.NewTxn E false).2 = E.NewTxnFrom d.addTxnID.2 false := rfl
  have hid : ({ d with maxTxnRetries := m } : db).addTxnID.2 = d.addTxnID.2 := rfl
  refine ⟨?_, ?_, ?_⟩
  · simp only [implicitTxnDB_AddSchema_cases, implicitTxnDB_ExecRequest_cases,
      implicitTxnDB_PatchSchema_cases, hid]
    cases hT : E.NewTxnFrom d.addTxnID.2 false with
    | error err => simp
    | ok txn =>
      refine ⟨?_, ?_, ?_⟩
      · cases hA : E.addSchema txn s with
        | error err => simp [hA]
        | ok cols => cases hC : E.Commit txn <;> simp [hA, hC]
      · by_cases hX : (E.execRequest txn s).2.length > 0
        · simp [hX]
        · cases hC : E.Commit txn <;> simp [hX, hC]
      · cases hP : E.patchSchema txn s <;> simp [hP]
  · intro events hev
    simp only [implicitTxnDB_AddSchema_cases, implicitTxnDB_ExecRequest_cases,
      implicitTxnDB_PatchSchema_cases] at hev
    cases hT : E.NewTxnFrom d.addTxnID.2 false with
    | error err =>
      rw [hT] at hev
      rcases hev with h | h | h <;> exact Or.inl h
    | ok txn =>
      rw [hT] at hev
      simp only at hev
      rcases hev with h | h | h
      · cases hA : E.addSchema txn s with
        | error err =>
          rw [hA] at h
          exact Or.inr (Or.inl ⟨txn.id, h⟩)
        | ok cols =>
          rw [hA] at h
          cases hC : E.Commit txn <;> rw [hC] at h <;> exact Or.inr (Or.inr ⟨txn.id, h⟩)
      · split at h
        · exact Or.inr (Or.inl ⟨txn.id, h⟩)
        · cases hC : E.Commit txn <;> rw [hC] at h <;> exact Or.inr (Or.inr ⟨txn.id, h⟩)
      · cases hP : E.patchSchema txn s with
        | some err =>
          rw [hP] at h
          exact Or.inr (Or.inl ⟨txn.id, h⟩)
        | none =>
          rw [hP] at h
          exact Or.inr (Or.inr ⟨txn.id, h⟩)
  · intro txn err hT hC
    rw [hN] at hT
    refine ⟨?_, ?_, ?_⟩
    · intro cols hA
      rw [implicitTxnDB_AddSchema_cases, hT]
      simp only [hA, hC]
    · intro hX
      rw [implicitTxnDB_ExecRequest_cases, hT]
      simp [hX, hC]
    · intro hP
      rw [implicitTxnDB_PatchSchema_cases, hT]
      simp only [hP, hC]

theorem implicitTxnDB_single_attempt_witness :
    implicitTxnDB.AddSchema conflictOnFirstEnv newDBStruct (lit "type A")
      = (newDBStruct.addTxnID.1, .error .ErrTxnConflict, [.run 1, .commit 1, .discard 1]) :=
  ((implicitTxnDB_single_attempt conflictOnFirstEnv newDBStruct (lit "type A") none).2.2
    ⟨1, false, false⟩ .ErrTxnConflict rfl rfl).1 [1] rfl

/-! ## `net/peer.go`: the broadcast loop -/

theorem RegisterNewDocument_events (P : PeerEnv) (dockey c : Str) :
    ∀ e ∈ (Peer.RegisterNewDocument P dockey c).2,
      (∀ l, e ≠ .create l) ∧ (∀ l, e ≠ .update l) ∧ (∀ l, e ≠ .skip l) := by
  intro e he
  simp only [Peer.RegisterNewDocument] at he
  cases hG : P.GetBlock c with
  | error err => rw [hG] at he; simp at he
  | ok b =>
    rw [hG] at he
    cases hA : P.addPubSubTopic dockey with
    | some err =>
      rw [hA] at he
      simp only [List.mem_singleton] at he
      subst he
      simp
    | none =>
      rw [hA] at he
      simp only [List.mem_cons, List.mem_singleton, List.not_mem_nil, or_false] at he
      rcases he with rfl | rfl <;> simp

theorem handleDocCreateLog_events (P : PeerEnv) (lg : Log) :
    ∀ e ∈ (Peer.handleDocCreateLog P lg).2,
      (∀ l, e ≠ .create l) ∧ (∀ l, e ≠ .update l) ∧ (∀ l, e ≠ .skip l) := by
  intro e he
  simp only [Peer.handleDocCreateLog] at he
  cases hK : P.NewFromString lg.DocKey with
  | error err => rw [hK] at he; simp at he
  | ok dockey =>
    rw [hK] at he
    simp only [List.mem_cons] at he
    rcases he with rfl | he
    · simp
    · exact RegisterNewDocument_events P dockey lg.Cid e he

theorem handleDocUpdateLog_events (P : PeerEnv) (lg : Log) :
    ∀ e ∈ (Peer.handleDocUpdateLog P lg).2,
      (∀ l, e ≠ .create l) ∧ (∀ l, e ≠ .update l) ∧ (∀ l, e ≠ .skip l) := by
  intro e he
  simp only [Peer.handleDocUpdateLog] at he
  cases hK : P.NewFromString lg.DocKey with
  | error err => rw [hK] at he; simp at he
  | ok dockey =>
    rw [hK] at he
    simp only [List.mem_cons, List.mem_singleton, List.not_mem_nil, or_false] at he
    rcases he with rfl | rfl <;> simp

theorem logErrorEvents_events (o : Option Error) :
    ∀ e ∈ logErrorEvents o,
      (∀ l, e ≠ .create l) ∧ (∀ l, e ≠ .update l) ∧ (∀ l, e ≠ .skip l) := by
  intro e he
  cases o with
  | none => simp [logErrorEvents] at he
  | some err =>
    simp only [logErrorEvents, List.mem_singleton] at he
    subst he
    simp

/-- The loop of `handleBroadcastLoop` runs its body on every value the channel delivers,
in order. -/
theorem handleBroadcastLoop_flatten (P : PeerEnv) (msgs : List BusMessage) :
    Peer.handleBroadcastLoop P (some msgs)
      = (msgs.map (Peer.handleBroadcastMessage P)).flatten := by
  induction msgs with
  | nil => simp [Peer.handleBroadcastLoop]
  | cons v rest ih => simp [Peer.handleBroadcastLoop, ih]

/-- Claim C15. `handleBroadcastLoop` runs its loop body on every value the channel
delivers, in order, so for a `core.Log` at any place among the values received the
events of the loop are those before it, those of the loop body on the log, and those
after it; and on a `core.Log` the loop body does exactly one of three things, by the
priority: with priority 1 it calls `handleDocCreateLog`, with a priority above 1 it calls
`handleDocUpdateLog`, and with priority 0 it skips the log, with no create, no update
and no publish. -/
theorem handleBroadcastLoop_classifies (P : PeerEnv) (lg : Log) :
    (lg.Priority = 1 →
        Peer.handleBroadcastMessage P (.log lg) =
          .create lg :: (Peer.handleDocCreateLog P lg).2 ++
            logErrorEvents (Peer.handleDocCreateLog P lg).1) ∧
      (lg.Priority > 1 →
        Peer.handleBroadcastMessage P (.log lg) =
          .update lg :: (Peer.handleDocUpdateLog P lg).2 ++
            logErrorEvents (Peer.handleDocUpdateLog P lg).1) ∧
      (lg.Priority = 0 → Peer.handleBroadcastMessage P (.log lg) = [.skip lg]) ∧
      ((Peer.handleBroadcastMessage P (.log lg)).head? = some (.create lg) ↔ lg.Priority = 1) ∧
      ((Peer.handleBroadcastMessage P (.log lg)).head? = some (.update lg) ↔ lg.Priority > 1) ∧
      ((Peer.handleBroadcastMessage P (.log lg)).head? = some (.skip lg) ↔ lg.Priority = 0) ∧
      (∀ e ∈ (Peer.handleBroadcastMessage P (.log lg)).tail,
        (∀ l, e ≠ .create l) ∧ (∀ l, e ≠ .update l) ∧ (∀ l, e ≠ .skip l)) ∧
      Peer.handleBroadcastLoop P (some [.log lg]) = Peer.handleBroadcastMessage P (.log lg) ∧
      (∀ msgs : List BusMessage,
        Peer.handleBroadcastLoop P (some msgs)
          = (msgs.map (Peer.handleBroadcastMessage P)).flatten) ∧
      (∀ pre post : List BusMessage,
        Peer.handleBroadcastLoop P (some (pre ++ .log lg :: post))
          = Peer.handleBroadcastLoop P (some pre) ++ Peer.handleBroadcastMessage P (.log lg) ++
              Peer.handleBroadcastLoop P (some post)) := by
  have hone : Peer.handleBroadcastLoop P (some [.log lg])
      = Peer.handleBroadcastMessage P (.log lg) := by
    simp [Peer.handleBroadcastLoop]
  have hpos : ∀ pre post : List BusMessage,
      Peer.handleBroadcastLoop P (some (pre ++ .log lg :: post))
        = Peer.handleBroadcastLoop P (some pre) ++ Peer.handleBroadcastMessage P (.log lg) ++
            Peer.handleBroadcastLoop P (some post) := by
    intro pre post
    simp [handleBroadcastLoop_flatten]
  have hloop := And.intro hone (And.intro (handleBroadcastLoop_flatten P) hpos)
  by_cases h1 : lg.Priority = 1
  · have e : Peer.handleBroadcastMessage P (.log lg) =
        .create lg :: (Peer.handleDocCreateLog P lg).2 ++
          logErrorEvents (Peer.handleDocCreateLog P lg).1 := by
      simp [Peer.handleBroadcastMessage, h1]
    refine ⟨fun _ => e, fun h => by omega, fun h => by omega, ?_, ?_, ?_, ?_, hloop⟩
    · rw [e]; simp [h1]
    · rw [e]; simp [h1]
    · rw [e]; simp [h1]
    · rw [e]
      intro x hx
      simp only [List.cons_append, List.tail_cons, List.mem_append] at hx
      rcases hx with hx | hx
      · exact handleDocCreateLog_events P lg x hx
      · exact logErrorEvents_events _ x hx
  · by_cases h2 : lg.Priority > 1
    · have e : Peer.handleBroadcastMessage P (.log lg) =
          .update lg :: (Peer.handleDocUpdateLog P lg).2 ++
            logErrorEvents (Peer.handleDocUpdateLog P lg).1 := by
        simp [Peer.handleBroadcastMessage, h1, h2]
      have h0 : lg.Priority ≠ 0 := by omega
      refine ⟨fun h => absurd h h1, fun _ => e, fun h => absurd h h0, ?_, ?_, ?_, ?_, hloop⟩
      · rw [e]; simp [h1]
      · rw [e]; simp [h2]
      · rw [e]; simp [h0]
      · rw [e]
        intro x hx
        simp only [List.cons_append, List.tail_cons, List.mem_append] at hx
        rcases hx with hx | hx
        · exact handleDocUpdateLog_events P lg x hx
        · exact logErrorEvents_events _ x hx
    · have h0 : lg.Priority = 0 := by omega
      have e : Peer.handleBroadcastMessage P (.log lg) = [.skip lg] := by
        simp [Peer.handleBroadcastMessage, h1, h2]
      refine ⟨fun h => absurd h h1, fun h => absurd h h2, fun _ => e, ?_, ?_, ?_, ?_, hloop⟩
      · rw [e]; simp [h1]
      · rw [e]; simp [h2]
      · rw [e]; simp [h0]
      · rw [e]; simp

theorem handleBroadcastLoop_classifies_witness :
    Peer.handleBroadcastMessage examplePeerEnv
        (.log ⟨lit "bae-1", lit "bafy1", lit "schema", [], 0⟩)
      = [.skip ⟨lit "bae-1", lit "bafy1", lit "schema", [], 0⟩] ∧
    Peer.handleBroadcastMessage examplePeerEnv
        (.log ⟨lit "bae-1", lit "bafy1", lit "schema", [], 1⟩)
      = .create ⟨lit "bae-1", lit "bafy1", lit "schema", [], 1⟩ ::
          (Peer.handleDocCreateLog examplePeerEnv
            ⟨lit "bae-1", lit "bafy1", lit "schema", [], 1⟩).2 ++
          logErrorEvents (Peer.handleDocCreateLog examplePeerEnv
            ⟨lit "bae-1", lit "bafy1", lit "schema", [], 1⟩).1 ∧
    Peer.handleBroadcastLoop examplePeerEnv
        (some ([.log ⟨lit "bae-2", lit "bafy2", lit "schema", [], 2⟩, .other 7] ++
          .log ⟨lit "bae-1", lit "bafy1", lit "schema", [], 0⟩ ::
            [.log ⟨lit "bae-3", lit "bafy3", lit "schema", [], 1⟩]))
      = [.update ⟨lit "bae-2", lit "bafy2", lit "schema", [], 2⟩,
          .pushLogToReplicators ⟨lit "bae-2", lit "bafy2", lit "schema", [], 2⟩,
          .publishLog (lit "bae-2") (lit "bafy2"),
          .skip ⟨lit "bae-1", lit "bafy1", lit "schema", [], 0⟩,
          .create ⟨lit "bae-3", lit "bafy3", lit "schema", [], 1⟩,
          .pushLogToReplicators ⟨lit "bae-3", lit "bafy3", lit "schema", [], 1⟩,
          .addPubSubTopic (lit "bae-3"),
          .publishLog (lit "bae-3") (lit "bafy3")] :=
  ⟨(handleBroadcastLoop_classifies examplePeerEnv
      ⟨lit "bae-1", lit "bafy1", lit "schema", [], 0⟩).2.2.1 rfl,
    (handleBroadcastLoop_classifies examplePeerEnv
      ⟨lit "bae-1", lit "bafy1", lit "schema", [], 1⟩).1 rfl,
    ((handleBroadcastLoop_classifies examplePeerEnv
      ⟨lit "bae-1", lit "bafy1", lit "schema", [], 0⟩).2.2.2.2.2.2.2.2.1
        ([.log ⟨lit "bae-2", lit "bafy2", lit "schema", [], 2⟩, .other 7] ++
          .log ⟨lit "bae-1", lit "bafy1", lit "schema", [], 0⟩ ::
            [.log ⟨lit "bae-3", lit "bafy3", lit "schema", [], 1⟩])).trans (by decide)⟩

/-! ## `db/fetcher/indexer.go`: `IndexFetcher.FetchNext` -/

theorem isNil_iff (raw : Str) : (raw.length = 1 ∧ raw.get? 0 = some cborNil) ↔ raw = [cborNil] := by
  cases raw with
  | nil => simp
  | cons a rest =>
    cases rest with
    | nil => simp
    | cons b rest => simp

theorem fetchIndexedFields_eq (FieldValues : List Str) (fields : List FieldDescription) (i : Nat)
    (properties : List (FieldDescription × encProperty)) (hasNilField : Bool)
    (h : i + fields.length ≤ FieldValues.length) :
    ∃ properties2, fetchIndexedFields FieldValues fields i properties hasNilField =
      some (properties2,
        hasNilField || ((FieldValues.drop i).take fields.length).any (fun v => decide (v = [cborNil]))) := by
  induction fields generalizing i properties hasNilField with
  | nil => exact ⟨properties, by simp [fetchIndexedFields]⟩
  | cons f fields ih =>
    simp only [List.length_cons] at h
    have hi : i < FieldValues.length := by omega
    obtain ⟨raw, hget, hdrop⟩ : ∃ raw, FieldValues.get? i = some raw ∧
        FieldValues.drop i = raw :: FieldValues.drop (i + 1) :=
      ⟨_, List.get?_eq_get hi, List.drop_eq_getElem_cons hi⟩
    obtain ⟨p2, hp2⟩ := ih (i + 1) (setProperty f ⟨f, raw⟩ properties)
      (if raw.length = 1 ∧ raw.get? 0 = some cborNil then true else hasNilField) (by omega)
    refine ⟨p2, ?_⟩
    simp only [fetchIndexedFields, hget, hp2, hdrop, List.length_cons, List.take_succ_cons,
      List.any_cons]
    by_cases hn : raw = [cborNil]
    · have hc : raw.length = 1 ∧ raw.get? 0 = some cborNil := (isNil_iff _).2 hn
      rw [if_pos hc]
      simp [hn]
    · have hc : ¬ (raw.length = 1 ∧ raw.get? 0 = some cborNil) := fun h => hn ((isNil_iff _).1 h)
      rw [if_neg hc]
      simp [hn]

theorem index?_last (elements : List Str) (h : elements ≠ []) :
    index? elements ((elements.length : Int) - 1) = elements.getLast? := by
  have hl : 0 < elements.length := List.length_pos.2 h
  have h1 : (0 : Int) ≤ (elements.length : Int) - 1 ∧
      (elements.length : Int) - 1 < (elements.length : Int) := by omega
  have h2 : ((elements.length : Int) - 1).toNat = elements.length - 1 := by omega
  simp only [index?, h1, and_self, if_true, h2]
  rw [List.getLast?_eq_getElem?]
  simp

/-- Claim C16 as stated fails: for a unique index, the entry whose indexed field value
is the nil byte `0xf6` gives the document ID from the last segment of its key, not from
its value. -/
theorem FetchNext_unique_nil_field_id_from_key :
    IndexFetcher.fetchEntry [⟨lit "age", 1, 4, [], [], 1, false⟩] true
        (.ok ⟨⟨1, 1, [[cborNil], lit "bae-1"]⟩, true, lit "other"⟩)
      = .entry ⟨lit "bae-1",
          [(⟨lit "age", 1, 4, [], [], 1, false⟩, ⟨⟨lit "age", 1, 4, [], [], 1, false⟩, [cborNil]⟩)]⟩ ∧
      lit "bae-1" ≠ lit "other" := by
  decide

/-- Claim C16, amended. For an index entry returned by the index iterator that has a
field value for every indexed field, `FetchNext` takes the document ID from the value
of the entry when the index is unique and no value of an indexed field is the nil byte
`0xf6`, and from the last segment of the key of the entry otherwise: when the index is
not unique, and when it is unique and the value of an indexed field is nil. -/
theorem FetchNext_document_id (indexedFields : List FieldDescription) (Unique : Bool)
    (res : indexIterResult) (hfound : res.foundKey = true)
    (hlen : indexedFields.length ≤ res.key.FieldValues.length)
    (hne : res.key.FieldValues ≠ []) :
    ∃ doc, IndexFetcher.fetchEntry indexedFields Unique (.ok res) = .entry doc ∧
      (Unique = true →
        (∀ v ∈ res.key.FieldValues.take indexedFields.length, v ≠ [cborNil]) →
        doc.id = res.value) ∧
      (Unique = false ∨ (∃ v ∈ res.key.FieldValues.take indexedFields.length, v = [cborNil]) →
        some doc.id = res.key.FieldValues.getLast?) := by
  obtain ⟨props, hp⟩ := fetchIndexedFields_eq res.key.FieldValues indexedFields 0 [] false
    (by simpa using hlen)
  simp only [List.drop_zero, Bool.false_or] at hp
  obtain ⟨last, hlast⟩ : ∃ last, res.key.FieldValues.getLast? = some last := by
    cases h : res.key.FieldValues.getLast? with
    | none => exact absurd (List.getLast?_eq_none_iff.1 h) hne
    | some last => exact ⟨last, rfl⟩
  have hidx := index?_last res.key.FieldValues hne
  rw [hlast] at hidx
  by_cases hcond : (Unique && !((res.key.FieldValues.take indexedFields.length).any
      (fun v => decide (v = [cborNil])))) = true
  · refine ⟨⟨res.value, props⟩, ?_, fun _ _ => rfl, ?_⟩
    · simp only [IndexFetcher.fetchEntry, hfound, hp, hcond]
      simp
    · intro h
      simp only [Bool.and_eq_true, Bool.not_eq_true', List.any_eq_false, decide_eq_true_eq] at hcond
      rcases h with h | ⟨v, hv, hvn⟩
      · rw [h] at hcond; exact absurd hcond.1 (by simp)
      · exact absurd hvn (hcond.2 v hv)
  · refine ⟨⟨last, props⟩, ?_, ?_, fun _ => by rw [hlast]⟩
    · simp only [IndexFetcher.fetchEntry, hfound, hp, hcond, hidx]
      simp
    · intro hu hall
      exfalso
      apply hcond
      simp only [Bool.and_eq_true, Bool.not_eq_true', List.any_eq_false, decide_eq_true_eq]
      exact ⟨hu, hall⟩

theorem FetchNext_document_id_witness :
    ∃ doc, IndexFetcher.fetchEntry [⟨lit "age", 1, 4, [], [], 1, false⟩] true
        (.ok ⟨⟨1, 1, [lit "21"]⟩, true, lit "bae-1"⟩) = .entry doc ∧
      (true = true →
        (∀ v ∈ (IndexDataStoreKey.mk 1 1 [lit "21"]).FieldValues.take
          [FieldDescription.mk (lit "age") 1 4 [] [] 1 false].length, v ≠ [cborNil]) →
        doc.id = lit "bae-1") ∧
      (true = false ∨ (∃ v ∈ (IndexDataStoreKey.mk 1 1 [lit "21"]).FieldValues.take
          [FieldDescription.mk (lit "age") 1 4 [] [] 1 false].length, v = [cborNil]) →
        some doc.id = (IndexDataStoreKey.mk 1 1 [lit "21"]).FieldValues.getLast?) :=
  FetchNext_document_id [⟨lit "age", 1, 4, [], [], 1, false⟩] true
    ⟨⟨1, 1, [lit "21"]⟩, true, lit "bae-1"⟩ rfl (by decide) (by decide)

/-! ## `merkle/clock/ipld.go`: `makeNode` -/

theorem makeNodeLinks_spec {Node : Type} (L : DagLib Node)
    (hAdd : ∀ nd name l, ∃ nd2, L.AddRawLink nd name l = .ok nd2 ∧ L.Data nd2 = L.Data nd ∧
      L.Links nd2 = L.Links nd ++ [⟨name, l.Size, l.Cid⟩])
    (heads : List Str) (nd : Node) :
    ∃ nd2, makeNodeLinks L heads nd = .ok nd2 ∧ L.Data nd2 = L.Data nd ∧
      L.Links nd2 = L.Links nd ++ heads.map (fun h => ⟨[], 0, h⟩) := by
  induction heads generalizing nd with
  | nil => exact ⟨nd, rfl, rfl, by simp⟩
  | cons h heads ih =>
    obtain ⟨nd1, h1, h2, h3⟩ := hAdd nd [] ⟨[], 0, h⟩
    obtain ⟨nd2, h4, h5, h6⟩ := ih nd1
    refine ⟨nd2, ?_, ?_, ?_⟩
    · simp only [makeNodeLinks, h1, h4]
    · rw [h5, h2]
    · rw [h6, h3]; simp

/-- Claim C17. With `dag.NodeWithData` giving a node with the data and no links, and
`AddRawLink` appending a copy of the link, `makeNode(d, hs)` returns a node whose data is
the serialization `d.Marshal()` (no data when `d` is nil) and whose links are the CIDs
of `hs`, one link for each head in the same order; when `d.Marshal()` fails, `makeNode`
returns that error and no node. -/
theorem makeNode_data_and_links {Node Delta : Type} (L : DagLib Node)
    (Marshal : Delta → Except Error Str) (delta : Option Delta) (heads : List Str)
    (hData : ∀ data, L.Data (L.NodeWithData data) = data ∧ L.Links (L.NodeWithData data) = [])
    (hAdd : ∀ nd name l, ∃ nd2, L.AddRawLink nd name l = .ok nd2 ∧ L.Data nd2 = L.Data nd ∧
      L.Links nd2 = L.Links nd ++ [⟨name, l.Size, l.Cid⟩]) :
    (∀ d data, delta = some d → Marshal d = .ok data →
        ∃ nd, makeNode L Marshal delta heads = .ok nd ∧ L.Data nd = data ∧
          (L.Links nd).map (fun l => l.Cid) = heads ∧ (L.Links nd).length = heads.length) ∧
      (delta = none →
        ∃ nd, makeNode L Marshal delta heads = .ok nd ∧ L.Data nd = [] ∧
          (L.Links nd).map (fun l => l.Cid) = heads ∧ (L.Links nd).length = heads.length) ∧
      (∀ d err, delta = some d → Marshal d = .error err →
        makeNode L Marshal delta heads = .error err) := by
  have hmap : ∀ hs : List Str, (hs.map (fun h => (⟨[], 0, h⟩ : Link))).map (fun l => l.Cid) = hs := by
    intro hs
    induction hs with
    | nil => rfl
    | cons h hs ih => simp [ih]
  refine ⟨?_, ?_, ?_⟩
  · intro d data hd hm
    subst hd
    obtain ⟨nd, h1, h2, h3⟩ := makeNodeLinks_spec L hAdd heads (L.NodeWithData data)
    refine ⟨nd, ?_, ?_, ?_, ?_⟩
    · simp only [makeNode, hm, h1]
    · rw [h2, (hData data).1]
    · rw [h3, (hData data).2, List.nil_append, hmap]
    · rw [h3, (hData data).2]; simp
  · intro hd
    subst hd
    obtain ⟨nd, h1, h2, h3⟩ := makeNodeLinks_spec L hAdd heads (L.NodeWithData [])
    refine ⟨nd, ?_, ?_, ?_, ?_⟩
    · simp only [makeNode, h1]
    · rw [h2, (hData []).1]
    · rw [h3, (hData []).2, List.nil_append, hmap]
    · rw [h3, (hData []).2]; simp
  · intro d err hd hm
    subst hd
    simp only [makeNode, hm]

theorem makeNode_data_and_links_witness :
    (∃ nd, makeNode exampleDagLib (fun d : Str => Except.ok (0 :: d)) (some (lit "delta"))
        [lit "bafy1", lit "bafy2"] = .ok nd ∧ exampleDagLib.Data nd = 0 :: lit "delta" ∧
        (exampleDagLib.Links nd).map (fun l => l.Cid) = [lit "bafy1", lit "bafy2"] ∧
        (exampleDagLib.Links nd).length = [lit "bafy1", lit "bafy2"].length) :=
  (makeNode_data_and_links exampleDagLib (fun d : Str => Except.ok (0 :: d)) (some (lit "delta"))
    [lit "bafy1", lit "bafy2"] (fun _ => ⟨rfl, rfl⟩)
    (fun _ _ _ => ⟨_, rfl, rfl, rfl⟩)).1 (lit "delta") (0 :: lit "delta") rfl rfl

/-! ## The access control module -/

theorem findObject_after_register (s : ACPState) (actor policyID resource docID : Str)
    (h : s.findObject policyID resource docID = none) :
    ({ s with objects := s.objects ++ [⟨policyID, resource, docID, actor⟩] } : ACPState).findObject
      policyID resource docID = some ⟨policyID, resource, docID, actor⟩ := by
  simp only [ACPState.findObject] at h ⊢
  rw [List.find?_append, h]
  simp

/-- Claim C18. After `RegisterDocObject(actor1, policyID, resource, docID)` succeeds,
`CheckDocAccess(ReadPermission, actor1, policyID, resource, docID)` returns true with no
error and the same call for any other actor returns false with no error; for a
document that is not registered `CheckDocAccess` returns false with no error, and with
an empty resource and document ID it returns false with
`ErrFailedToVerifyDocAccessWithACP`. -/
theorem CheckDocAccess_owner_only (s s2 : ACPState) (actor1 policyID resource docID : Str)
    (hreg : s.RegisterDocObject actor1 policyID resource docID = .ok s2) :
    s2.CheckDocAccess .ReadPermission actor1 policyID resource docID = (true, none) ∧
      (∀ actor2, actor2 ≠ actor1 →
        s2.CheckDocAccess .ReadPermission actor2 policyID resource docID = (false, none)) ∧
      (∀ (s3 : ACPState) (actor policyID3 resource3 docID3 : Str),
        resource3 ≠ [] → docID3 ≠ [] →
        s3.IsDocRegistered policyID3 resource3 docID3 = (false, none) →
        s3.CheckDocAccess .ReadPermission actor policyID3 resource3 docID3 = (false, none)) ∧
      (∀ (s3 : ACPState) (actor policyID3 : Str),
        s3.CheckDocAccess .ReadPermission actor policyID3 [] []
          = (false, some .ErrFailedToVerifyDocAccessWithACP)) := by
  have hargs : ¬ (resource = [] ∨ docID = []) := by
    intro h
    simp [ACPState.RegisterDocObject, h] at hreg
  have hnone : s.findObject policyID resource docID = none := by
    cases hf : s.findObject policyID resource docID with
    | none => rfl
    | some o => simp [ACPState.RegisterDocObject, hargs, hf] at hreg
  have hs2 : s2 = { s with objects := s.objects ++ [⟨policyID, resource, docID, actor1⟩] } := by
    simp only [ACPState.RegisterDocObject, hargs, if_false, hnone, Except.ok.injEq] at hreg
    exact hreg.symm
  have hfind := findObject_after_register s actor1 policyID resource docID hnone
  rw [← hs2] at hfind
  refine ⟨?_, ?_, ?_, ?_⟩
  · simp [ACPState.CheckDocAccess, hargs, hfind]
  · intro actor2 hne
    simp only [ACPState.CheckDocAccess, hargs, if_false, hfind]
    simp [Ne.symm hne]
  · intro s3 actor policyID3 resource3 docID3 hr hd hnot
    have hargs3 : ¬ (resource3 = [] ∨ docID3 = []) := by
      intro h; rcases h with h | h
      · exact hr h
      · exact hd h
    simp only [ACPState.IsDocRegistered, hargs3, if_false, Prod.mk.injEq, and_true] at hnot
    cases hf : s3.findObject policyID3 resource3 docID3 with
    | none => simp [ACPState.CheckDocAccess, hargs3, hf]
    | some o => rw [hf] at hnot; simp at hnot
  · intro s3 actor policyID3
    simp [ACPState.CheckDocAccess]

theorem CheckDocAccess_owner_only_witness :
    (ACPState.mk [] [⟨lit "c9a0", lit "users", lit "documentID_XYZ", lit "cosmos1"⟩]).CheckDocAccess
        .ReadPermission (lit "cosmos1") (lit "c9a0") (lit "users") (lit "documentID_XYZ")
        = (true, none) ∧
      (ACPState.mk [] [⟨lit "c9a0", lit "users", lit "documentID_XYZ", lit "cosmos1"⟩]).CheckDocAccess
        .ReadPermission (lit "cosmos2") (lit "c9a0") (lit "users") (lit "documentID_XYZ")
        = (false, none) :=
  ⟨(CheckDocAccess_owner_only (ACPState.mk [] [])
      (ACPState.mk [] [⟨lit "c9a0", lit "users", lit "documentID_XYZ", lit "cosmos1"⟩])
      (lit "cosmos1") (lit "c9a0") (lit "users") (lit "documentID_XYZ") (by decide)).1,
    (CheckDocAccess_owner_only (ACPState.mk [] [])
      (ACPState.mk [] [⟨lit "c9a0", lit "users", lit "documentID_XYZ", lit "cosmos1"⟩])
      (lit "cosmos1") (lit "c9a0") (lit "users") (lit "documentID_XYZ") (by decide)).2.1
      (lit "cosmos2") (by decide)⟩

/-! ## DPI compliance -/

theorem isPrefixOf_eq_true_iff (a b : Str) : a.isPrefixOf b = true ↔ ∃ r, b = a ++ r := by
  rw [List.isPrefixOf_iff_prefix]
  constructor
  · rintro ⟨r, h⟩; exact ⟨r, h.symm⟩
  · rintro ⟨r, h⟩; exact ⟨r, h.symm⟩

theorem takeWhile_append_of_all (p : Byte → Bool) (a r : Str) (h : ∀ c ∈ a, p c = true) :
    (a ++ r).takeWhile p = a ++ r.takeWhile p := by
  induction a with
  | nil => rfl
  | cons x a ih =>
    have hx := h x (List.mem_cons_self _ _)
    simp only [List.cons_append, List.takeWhile_cons, hx, if_true]
    rw [ih (fun c hc => h c (List.mem_cons_of_mem _ hc))]

theorem isIdentChar_owner : ∀ c ∈ lit "owner", isIdentChar c = true := by
  have e : lit "owner" = [111, 119, 110, 101, 114] := by decide
  intro c hc
  rw [e] at hc
  simp only [List.mem_cons, List.mem_singleton, List.not_mem_nil, or_false] at hc
  rcases hc with rfl | rfl | rfl | rfl | rfl <;> decide

/-- An expression whose first token is not the required relation is rejected, with an
error that names the permission and the relation. -/
theorem validateDPIExpr_rejects (permission relation expr : Str)
    (hrel : ∀ c ∈ relation, isIdentChar c = true)
    (h : expr.takeWhile isIdentChar ≠ relation) :
    ∃ reason, validateDPIExpr permission relation expr
      = some (.DPINonCompliant permission relation reason) := by
  by_cases hp : relation.isPrefixOf expr = true
  · obtain ⟨r, rfl⟩ := (isPrefixOf_eq_true_iff _ _).1 hp
    rw [takeWhile_append_of_all _ _ _ hrel] at h
    cases r with
    | nil => simp at h
    | cons c r =>
      have hc : isIdentChar c = true := by
        by_contra hn
        simp [List.takeWhile_cons, hn] at h
      have h32 : c ≠ 32 := by
        intro e; rw [e] at hc; exact absurd hc (by decide)
      have h43 : c ≠ 43 := by
        intro e; rw [e] at hc; exact absurd hc (by decide)
      refine ⟨.invalidCharAfterRelation c, ?_⟩
      simp [validateDPIExpr, hp, List.dropWhile_cons, h32, h43]
  · exact ⟨.exprMustStartWithRelation, by simp [validateDPIExpr, hp]⟩

theorem validatePolicyDirectives_first (s : SchemaState) (pre post : List SchemaTypeDef)
    (t : SchemaTypeDef) (err : Error) (hpre : ∀ u ∈ pre, u.policy = none)
    (ht : s.validatePolicyDirective t = some err) :
    s.validatePolicyDirectives (pre ++ t :: post) = some err := by
  induction pre with
  | nil => simp [SchemaState.validatePolicyDirectives, ht]
  | cons u pre ih =>
    have hu : s.validatePolicyDirective u = none := by
      simp [SchemaState.validatePolicyDirective, hpre u (List.mem_cons_self _ _)]
    simp only [List.cons_append, SchemaState.validatePolicyDirectives, hu]
    exact ih (fun v hv => hpre v (List.mem_cons_of_mem _ hv))

/-- Claim C19. A schema whose `@policy` directive names a resource of a registered
policy whose `write` permission expression does not start with the `owner` relation
token, because another relation comes first or because `owner` is only the prefix of a
longer identifier, is rejected by `AddSchema` with an error that names the permission
`write` and the relation `owner`, and no collection is created: the state stays as it
was. This holds for the expressions `w`, `writer + owner`, `writer+owner` and
`ownerBad` of the tests. -/
theorem AddSchema_rejects_write_not_starting_with_owner (s : SchemaState)
    (pre post : List SchemaTypeDef) (t : SchemaTypeDef) (id resource : Str)
    (policy : Policy) (r : PolicyResource) (p : PolicyPermission)
    (hpre : ∀ u ∈ pre, u.policy = none)
    (ht : t.policy = some (id, resource)) (hid : id ≠ []) (hres : resource ≠ [])
    (hpolicy : s.acp.policies.find? (fun q => decide (q.id = id)) = some policy)
    (hresource : policy.resources.find? (fun q => decide (q.name = resource)) = some r)
    (hperm : r.permissions.find? (fun q => decide (q.name = lit "write")) = some p)
    (hexpr : p.expr.takeWhile isIdentChar ≠ lit "owner") :
    (∃ reason, s.AddSchema (pre ++ t :: post)
        = (s, some (.DPINonCompliant (lit "write") (lit "owner") reason))) ∧
      (s.AddSchema (pre ++ t :: post)).1.collections = s.collections ∧
      (∀ e ∈ [lit "w", lit "writer + owner", lit "writer+owner", lit "ownerBad"],
        e.takeWhile isIdentChar ≠ lit "owner") := by
  obtain ⟨reason, hv⟩ := validateDPIExpr_rejects (lit "write") (lit "owner") p.expr
    isIdentChar_owner hexpr
  have hdir : s.validatePolicyDirective t
      = some (.DPINonCompliant (lit "write") (lit "owner") reason) := by
    simp only [SchemaState.validatePolicyDirective, ht, hid, hres, if_false,
      ACPState.ValidateResourceExistsOnValidDPI, hpolicy, hresource, validateDPIPermission,
      hperm, hv]
  have hall := validatePolicyDirectives_first s pre post t _ hpre hdir
  have hadd : s.AddSchema (pre ++ t :: post)
      = (s, some (.DPINonCompliant (lit "write") (lit "owner") reason)) := by
    simp only [SchemaState.AddSchema, hall]
  refine ⟨⟨reason, hadd⟩, by rw [hadd], by decide⟩

theorem AddSchema_rejects_write_not_starting_with_owner_witness :
    (∃ reason, (SchemaState.mk ⟨[testPolicy (lit "5fe4") (lit "writer + owner")], []⟩ [] 0).AddSchema
        ([] ++ testUsersType (lit "5fe4") :: [])
        = (SchemaState.mk ⟨[testPolicy (lit "5fe4") (lit "writer + owner")], []⟩ [] 0,
            some (.DPINonCompliant (lit "write") (lit "owner") reason))) :=
  (AddSchema_rejects_write_not_starting_with_owner
    (SchemaState.mk ⟨[testPolicy (lit "5fe4") (lit "writer + owner")], []⟩ [] 0) [] []
    (testUsersType (lit "5fe4")) (lit "5fe4") (lit "users")
    (testPolicy (lit "5fe4") (lit "writer + owner"))
    ⟨lit "users", [⟨lit "read", lit "owner"⟩, ⟨lit "write", lit "writer + owner"⟩],
      [⟨lit "owner", [lit "actor"]⟩, ⟨lit "writer", [lit "actor"]⟩]⟩
    ⟨lit "write", lit "writer + owner"⟩
    (by intro u hu; simp at hu) rfl (by decide) (by decide) (by decide) (by decide) (by decide)
    (by decide)).1

/-- The four expressions of the tests are rejected with the errors the tests expect,
and the expressions `owner` and `owner + reader` are compliant. -/
theorem validateDPIExpr_test_expressions :
    validateDPIExpr (lit "write") (lit "owner") (lit "w")
        = some (.DPINonCompliant (lit "write") (lit "owner") .exprMustStartWithRelation) ∧
      validateDPIExpr (lit "write") (lit "owner") (lit "writer + owner")
        = some (.DPINonCompliant (lit "write") (lit "owner") .exprMustStartWithRelation) ∧
      validateDPIExpr (lit "write") (lit "owner") (lit "writer+owner")
        = some (.DPINonCompliant (lit "write") (lit "owner") .exprMustStartWithRelation) ∧
      validateDPIExpr (lit "write") (lit "owner") (lit "ownerBad")
        = some (.DPINonCompliant (lit "write") (lit "owner") (.invalidCharAfterRelation 66)) ∧
      validateDPIExpr (lit "write") (lit "owner") (lit "owner") = none ∧
      validateDPIExpr (lit "read") (lit "owner") (lit "owner + reader") = none := by
  decide

/-! ## The Merkle clock -/

theorem makeNodeLinks_proto (heads : List Str) (data : Str) (links : List Link) :
    makeNodeLinks protoNodeLib heads (.proto data links)
      = .ok (.proto data (links ++ heads.map (fun h => ⟨[], 0, h⟩))) := by
  induction heads generalizing links with
  | nil => simp [makeNodeLinks]
  | cons h heads ih =>
    simp only [makeNodeLinks, protoNodeLib, List.map_cons]
    have := ih (links ++ [⟨[], 0, h⟩])
    simp only [protoNodeLib] at this
    rw [this]
    simp

theorem maxPriority_ge (H : List Head) : ∀ h ∈ H, h.priority ≤ maxPriority H := by
  induction H with
  | nil => intro h hh; simp at hh
  | cons x H ih =>
    intro h hh
    simp only [maxPriority]
    rcases List.mem_cons.1 hh with rfl | hm
    · exact Nat.le_max_left _ _
    · exact Nat.le_trans (ih h hm) (Nat.le_max_right _ _)

theorem maxPriority_attained (H : List Head) (hne : H ≠ []) :
    ∃ h ∈ H, h.priority = maxPriority H := by
  induction H with
  | nil => exact absurd rfl hne
  | cons x H ih =>
    simp only [maxPriority]
    by_cases hH : H = []
    · subst hH
      exact ⟨x, List.mem_cons_self _ _, by simp [maxPriority]⟩
    · obtain ⟨h, hm, he⟩ := ih hH
      by_cases hle : maxPriority H ≤ x.priority
      · exact ⟨x, List.mem_cons_self _ _, (Nat.max_eq_left hle).symm⟩
      · exact ⟨h, List.mem_cons_of_mem _ hm, by rw [he]; exact (Nat.max_eq_right (by omega)).symm⟩

theorem headsOf_after_replace (heads : List Head) (docID fieldID : Str) (new : Head)
    (hd : new.docID = docID) (hf : new.fieldID = fieldID) :
    (heads.filter (fun h => !decide (h.docID = docID ∧ h.fieldID = fieldID)) ++ [new]).filter
      (fun h => decide (h.docID = docID ∧ h.fieldID = fieldID)) = [new] := by
  rw [List.filter_append, List.filter_filter]
  have h1 : heads.filter (fun h => decide (h.docID = docID ∧ h.fieldID = fieldID) &&
      !decide (h.docID = docID ∧ h.fieldID = fieldID)) = [] := by
    apply List.filter_eq_nil_iff.2
    intro a _
    simp
  rw [h1]
  simp [hd, hf]

/-- One step of the clock: the block that `AddDelta` creates, read back through the
node getter. -/
theorem AddDelta_step (C : ClockEnv)
    (hC : ∀ delta, ∃ data, C.Marshal delta = .ok data ∧ C.Unmarshal data = .ok delta)
    (s : ClockState) (docID fieldID payload : Str) :
    ∃ (s2 : ClockState) (cid data : Str) (links : List Link),
      s.AddDelta C docID fieldID payload = .ok (s2, cid) ∧
      s2.getBlock cid = .ok (.proto data links) ∧
      links.map (fun l => l.Cid) = (s.headsOf docID fieldID).map (fun h => h.cid) ∧
      crdtNodeGetter.GetPriority (s2.nodeGetter C) cid
        = (1 + maxPriority (s.headsOf docID fieldID), none) ∧
      s2.headsOf docID fieldID
        = [⟨docID, fieldID, cid, 1 + maxPriority (s.headsOf docID fieldID)⟩] := by
  obtain ⟨data, hm, hu⟩ := hC ⟨maxPriority (s.headsOf docID fieldID) + 1, payload⟩
  have hnode : makeNode protoNodeLib C.Marshal
      (some (ClockDelta.mk (maxPriority (s.headsOf docID fieldID) + 1) payload))
      ((s.headsOf docID fieldID).map (fun h => h.cid))
      = .ok (.proto data (((s.headsOf docID fieldID).map (fun h => h.cid)).map
          (fun h => ⟨[], 0, h⟩))) := by
    simp only [makeNode, hm]
    have := makeNodeLinks_proto ((s.headsOf docID fieldID).map (fun h => h.cid)) data []
    simpa [protoNodeLib] using this
  refine ⟨{ blocks := (C.cidOf (.proto data (((s.headsOf docID fieldID).map (fun h => h.cid)).map
              (fun h => ⟨[], 0, h⟩))),
            .proto data (((s.headsOf docID fieldID).map (fun h => h.cid)).map
              (fun h => ⟨[], 0, h⟩))) :: s.blocks
            heads := s.heads.filter (fun h => !decide (h.docID = docID ∧ h.fieldID = fieldID))
              ++ [⟨docID, fieldID,
                C.cidOf (.proto data (((s.headsOf docID fieldID).map (fun h => h.cid)).map
                  (fun h => ⟨[], 0, h⟩))),
                maxPriority (s.headsOf docID fieldID) + 1⟩] },
    C.cidOf (.proto data (((s.headsOf docID fieldID).map (fun h => h.cid)).map
      (fun h => ⟨[], 0, h⟩))),
    data,
    ((s.headsOf docID fieldID).map (fun h => h.cid)).map (fun h => ⟨[], 0, h⟩),
    ?_, ?_, ?_, ?_, ?_⟩
  · simp only [ClockState.AddDelta, hnode]
  · simp [ClockState.getBlock]
  · simp [List.map_map, Function.comp]
  · simp [crdtNodeGetter.GetPriority, crdtNodeGetter.GetDelta, ClockState.getBlock,
      extractDelta, hu, Nat.add_comm]
  · simp only [ClockState.headsOf]
    rw [Nat.add_comm 1 _]
    exact headsOf_after_replace s.heads docID fieldID _ rfl rfl

/-- Claim C20. The block that a write creates has, as its height read by `GetPriority`,
1 plus the maximum priority of its parent heads, and 1 when it has no parents, and its
links are its parent heads; so the first composite block of a newly created document
has height 1, and the composite block of its first update has height 2 and links to the
first block. -/
theorem AddDelta_priority (C : ClockEnv)
    (hC : ∀ delta, ∃ data, C.Marshal delta = .ok data ∧ C.Unmarshal data = .ok delta)
    (s : ClockState) (docID fieldID payload : Str) :
    (∃ (s2 : ClockState) (cid data : Str) (links : List Link),
        s.AddDelta C docID fieldID payload = .ok (s2, cid) ∧
        s2.getBlock cid = .ok (.proto data links) ∧
        links.map (fun l => l.Cid) = (s.headsOf docID fieldID).map (fun h => h.cid) ∧
        crdtNodeGetter.GetPriority (s2.nodeGetter C) cid
          = (1 + maxPriority (s.headsOf docID fieldID), none) ∧
        (s.headsOf docID fieldID = [] →
          crdtNodeGetter.GetPriority (s2.nodeGetter C) cid = (1, none))) ∧
      (∀ h ∈ s.headsOf docID fieldID, h.priority ≤ maxPriority (s.headsOf docID fieldID)) ∧
      (s.headsOf docID fieldID ≠ [] →
        ∃ h ∈ s.headsOf docID fieldID, h.priority = maxPriority (s.headsOf docID fieldID)) ∧
      (s.headsOf docID COMPOSITE_NAMESPACE = [] → ∀ payload2 : Str,
        ∃ (s1 s2 : ClockState) (cid1 cid2 data2 : Str) (links2 : List Link),
          s.AddDelta C docID COMPOSITE_NAMESPACE payload = .ok (s1, cid1) ∧
          crdtNodeGetter.GetPriority (s1.nodeGetter C) cid1 = (1, none) ∧
          s1.AddDelta C docID COMPOSITE_NAMESPACE payload2 = .ok (s2, cid2) ∧
          crdtNodeGetter.GetPriority (s2.nodeGetter C) cid2 = (2, none) ∧
          s2.getBlock cid2 = .ok (.proto data2 links2) ∧
          links2.map (fun l => l.Cid) = [cid1]) := by
  refine ⟨?_, maxPriority_ge _, maxPriority_attained _, ?_⟩
  · obtain ⟨s2, cid, data, links, h1, h2, h3, h4, _⟩ := AddDelta_step C hC s docID fieldID payload
    refine ⟨s2, cid, data, links, h1, h2, h3, h4, ?_⟩
    intro hnil
    rw [h4, hnil]
    rfl
  · intro hnil payload2
    obtain ⟨s1, cid1, data1, links1, a1, _, _, a4, a5⟩ :=
      AddDelta_step C hC s docID COMPOSITE_NAMESPACE payload
    obtain ⟨s2, cid2, data2, links2, b1, b2, b3, b4, _⟩ :=
      AddDelta_step C hC s1 docID COMPOSITE_NAMESPACE payload2
    rw [hnil] at a4 a5
    rw [a5] at b3 b4
    exact ⟨s1, s2, cid1, cid2, data2, links2, a1, a4, b1, b4, b2, b3⟩

theorem unmarshalUnary_roundtrip (priority : Nat) (payload : Str) :
    unmarshalUnary (List.replicate priority 1 ++ 0 :: payload) = .ok ⟨priority, payload⟩ := by
  induction priority with
  | zero => simp [unmarshalUnary]
  | succ n ih =>
    have e : List.replicate (n + 1) (1 : Byte) ++ 0 :: payload
        = 1 :: (List.replicate n 1 ++ 0 :: payload) := rfl
    rw [e]
    simp only [unmarshalUnary]
    rw [ih]
    simp

theorem AddDelta_priority_witness :
    ∃ (s1 s2 : ClockState) (cid1 cid2 data2 : Str) (links2 : List Link),
      (ClockState.mk [] []).AddDelta exampleClockEnv (lit "bae-52b9") COMPOSITE_NAMESPACE
          (lit "John21") = .ok (s1, cid1) ∧
        crdtNodeGetter.GetPriority (s1.nodeGetter exampleClockEnv) cid1 = (1, none) ∧
        s1.AddDelta exampleClockEnv (lit "bae-52b9") COMPOSITE_NAMESPACE (lit "22")
          = .ok (s2, cid2) ∧
        crdtNodeGetter.GetPriority (s2.nodeGetter exampleClockEnv) cid2 = (2, none) ∧
        s2.getBlock cid2 = .ok (.proto data2 links2) ∧
        links2.map (fun l => l.Cid) = [cid1] :=
  (AddDelta_priority exampleClockEnv
    (fun delta => ⟨_, rfl, unmarshalUnary_roundtrip delta.priority delta.payload⟩)
    (ClockState.mk [] []) (lit "bae-52b9") COMPOSITE_NAMESPACE (lit "John21")).2.2.2 rfl
    (lit "22")

/-! ## `PrefixEnd` on maximal and on empty keys -/

/-- Claim C21. On a byte string made of `0xff` bytes only, the empty one included,
`bytesPrefixEnd` returns the string itself; and when the last non-empty string component
of a `DataStoreKey` (`FieldId`, else `DocID`, else `InstanceType`) is made of `0xff`
bytes only, `PrefixEnd` returns the key unchanged. -/
theorem PrefixEnd_all_ff_unchanged (b : Str) (hb : ∀ x ∈ b, x = 255)
    (k : DataStoreKey)
    (hk : (k.FieldId ≠ [] ∧ ∀ x ∈ k.FieldId, x = 255) ∨
      (k.FieldId = [] ∧ k.DocID ≠ [] ∧ ∀ x ∈ k.DocID, x = 255) ∨
      (k.FieldId = [] ∧ k.DocID = [] ∧ k.InstanceType ≠ [] ∧ ∀ x ∈ k.InstanceType, x = 255)) :
    bytesPrefixEnd b = b ∧ k.PrefixEnd = k := by
  have key : ∀ c : Str, (∀ x ∈ c, x = 255) → bytesPrefixEnd c = c := by
    intro c hc
    have e : c = List.replicate c.length 255 := List.eq_replicate_iff.2 ⟨rfl, hc⟩
    rw [e]
    exact bytesPrefixEnd_replicate_ff c.length
  refine ⟨key b hb, ?_⟩
  rcases k with ⟨root, inst, doc, fld⟩
  rcases hk with ⟨hf, hx⟩ | ⟨hf, hd, hx⟩ | ⟨hf, hd, hi, hx⟩
  · simp only at hf hx
    simp [DataStoreKey.PrefixEnd, hf, key fld hx]
  · simp only at hf hd hx
    simp [DataStoreKey.PrefixEnd, hf, hd, key doc hx]
  · simp only at hf hd hi hx
    simp [DataStoreKey.PrefixEnd, hf, hd, hi, key inst hx]

theorem PrefixEnd_all_ff_unchanged_witness :
    bytesPrefixEnd [255, 255] = [255, 255] ∧
      (DataStoreKey.mk 1 (lit "v") [255, 255, 255] []).PrefixEnd
        = DataStoreKey.mk 1 (lit "v") [255, 255, 255] [] :=
  PrefixEnd_all_ff_unchanged [255, 255] (by simp)
    (DataStoreKey.mk 1 (lit "v") [255, 255, 255] [])
    (Or.inr (Or.inl ⟨rfl, by simp, by simp⟩))

/-- Claim C22, at the key with every component empty: its bytes are `KeyMin`, and
`PrefixEnd` returns the same key, whose bytes are `KeyMin` again and not `KeyMax`;
`bytesPrefixEnd` sends `KeyMin` to `KeyMin` as well. -/
theorem DataStoreKey_PrefixEnd_KeyMin_not_KeyMax :
    (DataStoreKey.mk 0 [] [] []).Bytes = KeyMin ∧
      (DataStoreKey.mk 0 [] [] []).PrefixEnd = DataStoreKey.mk 0 [] [] [] ∧
      (DataStoreKey.mk 0 [] [] []).PrefixEnd.Bytes = KeyMin ∧
      (DataStoreKey.mk 0 [] [] []).PrefixEnd.Bytes ≠ KeyMax ∧
      bytesPrefixEnd KeyMin = KeyMin ∧
      bytesPrefixEnd KeyMin ≠ KeyMax := by
  decide

/-- Claim C23, at the key string `/1/v/doc/f` with the leading element `/extra`:
`NewDataStoreKey` parses `/1/v/doc/f`, and returns `ErrInvalidKey` for
`/extra/1/v/doc/f`; with the three element key string `/1/v/doc` the leading element is
not ignored either, it is read as the `CollectionRootID`. -/
theorem NewDataStoreKey_leading_elements_not_ignored :
    NewDataStoreKey (lit "/1/v/doc/f") = .ok (DataStoreKey.mk 1 (lit "v") (lit "doc") (lit "f")) ∧
      NewDataStoreKey (lit "/extra" ++ lit "/1/v/doc/f") = .error .ErrInvalidKey ∧
      NewDataStoreKey (lit "/1/v/doc") = .ok (DataStoreKey.mk 1 (lit "v") (lit "doc") []) ∧
      NewDataStoreKey (lit "/7" ++ lit "/1/v/doc")
        = .ok (DataStoreKey.mk 7 (lit "1") (lit "v") (lit "doc")) := by
  decide

/-- Claim C24, at the input `x/collection/index/1`, whose text before the first `'/'`
is `x`: `NewCollectionIndexKeyFromString` returns no error but the key of collection 1,
the key it returns for `/collection/index/1`. -/
theorem NewCollectionIndexKeyFromString_accepts_leading_text :
    NewCollectionIndexKeyFromString (lit "x/collection/index/1")
        = .ok (CollectionIndexKey.mk (some 1) []) ∧
      NewCollectionIndexKeyFromString (lit "/collection/index/1")
        = .ok (CollectionIndexKey.mk (some 1) []) ∧
      (Split slash (lit "x/collection/index/1")).head? = some (lit "x") := by
  decide

/-- The loop over the field values of `IndexDataStoreKey.ToString` writes the values
before the first empty one. -/
theorem writeFieldValues_takeWhile (vs : List Str) (sb : Str) :
    writeFieldValues vs sb
      = sb ++ ((vs.takeWhile (fun v => v ≠ [])).map (fun v => slash :: v)).flatten := by
  induction vs generalizing sb with
  | nil => simp [writeFieldValues]
  | cons v vs ih =>
    by_cases hv : v = []
    · simp [writeFieldValues, hv]
    · have hl : v.length ≠ 0 := by simpa using hv
      simp [writeFieldValues, hv, hl, ih, List.takeWhile_cons]

/-- Claim C26. `IndexDataStoreKey.ToString` is the empty string when `CollectionID` is
0, `/<CollectionID>` when `IndexID` is 0, and else `/<CollectionID>/<IndexID>` followed
by `/<value>` for the field values before the first empty one. -/
theorem IndexDataStoreKey_ToString_stops_at_empty (k : IndexDataStoreKey) :
    k.ToString =
      if k.CollectionID = 0 then []
      else if k.IndexID = 0 then slash :: Itoa (k.CollectionID : Int)
      else slash :: Itoa (k.CollectionID : Int) ++ slash :: Itoa (k.IndexID : Int) ++
        ((k.FieldValues.takeWhile (fun v => v ≠ [])).map (fun v => slash :: v)).flatten := by
  unfold IndexDataStoreKey.ToString
  by_cases hc : k.CollectionID = 0
  · simp [hc]
  · by_cases hi : k.IndexID = 0
    · simp [hc, hi]
    · simp [hc, hi, writeFieldValues_takeWhile]

/-! ## `FieldKindStringToEnumMapping` -/

theorem FieldKindStringToEnumMapping_keys_nodup :
    (FieldKindStringToEnumMapping.map (fun e => e.1)).Nodup := by
  decide

theorem FieldKindStringToEnumMapping_entry (s : Str) (k : FieldKind)
    (h : (s, k) ∈ FieldKindStringToEnumMapping) : FieldKind.String k = s := by
  simp only [FieldKindStringToEnumMapping, List.mem_cons, Prod.mk.injEq, List.mem_singleton,
    List.not_mem_nil, or_false] at h
  rcases h with h | h | h | h | h | h | h | h | h | h | h | h | h | h | h | h <;>
    (obtain ⟨rfl, rfl⟩ := h; decide)

theorem FieldKindStringToEnumMapping_back (k : FieldKind) (hk : k < 256) (v : FieldKind)
    (h : mapGet FieldKindStringToEnumMapping (FieldKind.String k) = some v) : v = k := by
  interval_cases k <;> revert h <;> revert v <;> decide

theorem FieldKindStringToEnumMapping_get (s : Str) (k : FieldKind)
    (h : (s, k) ∈ FieldKindStringToEnumMapping) :
    mapGet FieldKindStringToEnumMapping s = some k := by
  simp only [FieldKindStringToEnumMapping, List.mem_cons, Prod.mk.injEq, List.mem_singleton,
    List.not_mem_nil, or_false] at h
  rcases h with h | h | h | h | h | h | h | h | h | h | h | h | h | h | h | h <;>
    (obtain ⟨rfl, rfl⟩ := h; decide)

/-- Claim C25. For every entry `(s, k)` of `FieldKindStringToEnumMapping`, `k.String()`
is `s` and the map sends `s` to `k`, so no other key is mapped to `k`; and for every
`FieldKind` `k` (a `uint8`) whose `String()` is a key of the map, the map sends
`k.String()` back to `k`. -/
theorem FieldKindStringToEnumMapping_inverse (s : Str) (k : FieldKind) (hk : k < 2 ^ 8) :
    ((s, k) ∈ FieldKindStringToEnumMapping →
        FieldKind.String k = s ∧ mapGet FieldKindStringToEnumMapping s = some k) ∧
      (∀ s2 : Str, (s, k) ∈ FieldKindStringToEnumMapping →
        (s2, k) ∈ FieldKindStringToEnumMapping → s2 = s) ∧
      (∀ v : FieldKind, mapGet FieldKindStringToEnumMapping (FieldKind.String k) = some v →
        v = k) := by
  refine ⟨fun h => ⟨FieldKindStringToEnumMapping_entry s k h,
    FieldKindStringToEnumMapping_get s k h⟩, ?_, ?_⟩
  · intro s2 h1 h2
    rw [← FieldKindStringToEnumMapping_entry s k h1, ← FieldKindStringToEnumMapping_entry s2 k h2]
  · intro v hv
    exact FieldKindStringToEnumMapping_back k (by simpa using hk) v hv

theorem FieldKindStringToEnumMapping_inverse_witness :
    FieldKind_NILLABLE_INT_ARRAY < 2 ^ 8 ∧
      (lit "[Int]", FieldKind_NILLABLE_INT_ARRAY) ∈ FieldKindStringToEnumMapping ∧
      FieldKind.String FieldKind_NILLABLE_INT_ARRAY = lit "[Int]" ∧
      mapGet FieldKindStringToEnumMapping (lit "[Int]") = some FieldKind_NILLABLE_INT_ARRAY :=
  ⟨by decide, by decide,
    (FieldKindStringToEnumMapping_inverse (lit "[Int]") FieldKind_NILLABLE_INT_ARRAY
      (by decide)).1 (by decide)⟩

/-! ## `CollectionPolicyKey` -/

/-- The elements of `strings.Split(s, sep)` do not contain `sep`, and joined with `sep`
they give `s`. -/
theorem Split_spec (sep : Byte) (s : Str) :
    (∀ e ∈ Split sep s, sep ∉ e) ∧ List.intercalate [sep] (Split sep s) = s := by
  induction s with
  | nil => simp [Split, List.intercalate]
  | cons c cs ih =>
    obtain ⟨ih1, ih2⟩ := ih
    by_cases hc : c = sep
    · subst hc
      have hne := Split_ne_nil c cs
      simp only [Split, if_true]
      refine ⟨?_, ?_⟩
      · intro e he
        rcases List.mem_cons.1 he with rfl | he
        · simp
        · exact ih1 e he
      · cases hsp : Split c cs with
        | nil => exact absurd hsp hne
        | cons h t =>
          rw [hsp] at ih2
          simp [List.intercalate, List.intersperse] at ih2 ⊢
          exact ih2
    · cases hsp : Split sep cs with
      | nil => exact absurd hsp (Split_ne_nil sep cs)
      | cons h t =>
        rw [hsp] at ih1 ih2
        simp only [Split, hc, if_false, hsp]
        refine ⟨?_, ?_⟩
        · intro e he
          rcases List.mem_cons.1 he with rfl | he
          · intro hm
            rcases List.mem_cons.1 hm with hm | hm
            · exact hc hm.symm
            · exact ih1 h (List.mem_cons_self _ _) hm
          · exact ih1 e (List.mem_cons_of_mem _ he)
        · cases t with
          | nil =>
            simp [List.intercalate, List.intersperse] at ih2 ⊢
            exact ih2
          | cons t1 t2 =>
            simp [List.intercalate, List.intersperse] at ih2 ⊢
            exact ih2

theorem toUint32_lt (x : Int) : toUint32 x < 2 ^ 32 := by
  unfold toUint32
  have h1 : 0 ≤ x % 2 ^ 32 := Int.emod_nonneg _ (by norm_num)
  have h2 : x % 2 ^ 32 < 2 ^ 32 := Int.emod_lt_of_pos _ (by norm_num)
  omega

theorem COLLECTION_POLICY_eq : COLLECTION_POLICY = slash :: (COLLECTION ++ slash :: lit "policy") := by
  decide

theorem slash_not_mem_COLLECTION : slash ∉ COLLECTION := by decide

theorem slash_not_mem_policy : slash ∉ lit "policy" := by decide

theorem Split_policy_string (p d : Str) (hp : slash ∉ p) (hd : slash ∉ d) :
    Split slash (p ++ COLLECTION_POLICY ++ slash :: d) = [p, COLLECTION, lit "policy", d] := by
  rw [COLLECTION_POLICY_eq]
  have e : p ++ slash :: (COLLECTION ++ slash :: lit "policy") ++ slash :: d
      = p ++ slash :: (COLLECTION ++ slash :: (lit "policy" ++ slash :: d)) := by simp
  rw [e, Split_append_sep _ _ _ hp, Split_append_sep _ _ _ slash_not_mem_COLLECTION,
    Split_append_sep _ _ _ slash_not_mem_policy, Split_of_not_mem _ _ hd]

/-- What `NewCollectionPolicyKeyFromString` accepts. -/
theorem NewCollectionPolicyKeyFromString_ok (s : Str) (k : CollectionPolicyKey)
    (h : NewCollectionPolicyKeyFromString s = .ok k) :
    ∃ (p d : Str) (n : Int), slash ∉ p ∧ slash ∉ d ∧
      s = p ++ COLLECTION_POLICY ++ slash :: d ∧ Atoi d = .ok n ∧
      k.CollectionID = toUint32 n := by
  obtain ⟨hmem, hjoin⟩ := Split_spec slash s
  unfold NewCollectionPolicyKeyFromString at h
  simp only at h
  split at h
  · simp at h
  · rename_i hcond
    simp only [not_or, not_not] at hcond
    obtain ⟨hlen, h1, h2⟩ := hcond
    match hsp : Split slash s, hlen with
    | [p, b, c, d], _ =>
      rw [hsp] at h h1 h2 hmem hjoin
      simp only [List.getD_cons_succ, List.getD_cons_zero] at h h1 h2
      subst h1; subst h2
      cases hA : Atoi d with
      | error err => rw [hA] at h; simp at h
      | ok n =>
        rw [hA] at h
        simp only [Except.ok.injEq] at h
        refine ⟨p, d, n, hmem p (by simp), hmem d (by simp), ?_, hA, by rw [← h]⟩
        rw [← hjoin, COLLECTION_POLICY_eq]
        simp [List.intercalate, List.intersperse]

/-- Claim C28 as stated fails: `NewCollectionPolicyKeyFromString` succeeds on the
collection IDs `+5`, `007`, `-1` and `4294967301` after `/collection/policy/`, and on
`x/collection/policy/5`, strings that are not the `ToString()` of the key returned;
three of them give the key of `/collection/policy/5`. -/
theorem NewCollectionPolicyKeyFromString_accepts_noncanonical :
    NewCollectionPolicyKeyFromString (lit "/collection/policy/+5") = .ok ⟨5⟩ ∧
      NewCollectionPolicyKeyFromString (lit "/collection/policy/007") = .ok ⟨7⟩ ∧
      NewCollectionPolicyKeyFromString (lit "/collection/policy/-1") = .ok ⟨4294967295⟩ ∧
      NewCollectionPolicyKeyFromString (lit "/collection/policy/4294967301") = .ok ⟨5⟩ ∧
      NewCollectionPolicyKeyFromString (lit "x/collection/policy/5") = .ok ⟨5⟩ ∧
      NewCollectionPolicyKeyFromString (lit "/collection/policy/5") = .ok ⟨5⟩ ∧
      (CollectionPolicyKey.mk 5).ToString = lit "/collection/policy/5" ∧
      (CollectionPolicyKey.mk 5).ToString ≠ lit "/collection/policy/+5" ∧
      (CollectionPolicyKey.mk 7).ToString ≠ lit "/collection/policy/007" ∧
      (CollectionPolicyKey.mk 4294967295).ToString ≠ lit "/collection/policy/-1" := by
  decide

/-- Claim C28, amended. When `NewCollectionPolicyKeyFromString` succeeds on `s` with the
key `k`, `s` is `p ++ "/collection/policy/" ++ d` with no `'/'` in `p` and `d`, `Atoi`
reads `d` as a number `n` and `k.CollectionID` is `uint32(n)`; `k.ToString()` is `s`
exactly when `p` is empty and `d` is the decimal numeral of `k.CollectionID`; and
`k.ToString()` is accepted and gives `k` back. -/
theorem NewCollectionPolicyKeyFromString_canonical_iff (s : Str) (k : CollectionPolicyKey)
    (h : NewCollectionPolicyKeyFromString s = .ok k) :
    (∃ (p d : Str) (n : Int), slash ∉ p ∧ slash ∉ d ∧
        s = p ++ COLLECTION_POLICY ++ slash :: d ∧ Atoi d = .ok n ∧
        k.CollectionID = toUint32 n ∧
        (k.ToString = s ↔ p = [] ∧ d = Itoa (k.CollectionID : Int))) ∧
      NewCollectionPolicyKeyFromString k.ToString = .ok k := by
  obtain ⟨p, d, n, hp, hd, hs, hA, hk⟩ := NewCollectionPolicyKeyFromString_ok s k h
  have hI := slash_not_mem_Itoa k.CollectionID
  have hT : Split slash k.ToString = [[], COLLECTION, lit "policy", Itoa (k.CollectionID : Int)] := by
    have := Split_policy_string [] (Itoa (k.CollectionID : Int)) (by simp) hI
    simpa [CollectionPolicyKey.ToString] using this
  have hS : Split slash s = [p, COLLECTION, lit "policy", d] := by
    rw [hs]; exact Split_policy_string p d hp hd
  refine ⟨⟨p, d, n, hp, hd, hs, hA, hk, ?_⟩, ?_⟩
  · constructor
    · intro e
      rw [e, hS] at hT
      simp only [List.cons.injEq, and_true, true_and] at hT
      exact hT
    · rintro ⟨rfl, rfl⟩
      rw [hs]
      simp [CollectionPolicyKey.ToString]
  · have h32 : k.CollectionID < 2 ^ 32 := by rw [hk]; exact toUint32_lt n
    have hAI := Atoi_Itoa k.CollectionID (by omega)
    have hU := toUint32_natCast k.CollectionID h32
    simp [NewCollectionPolicyKeyFromString, hT, hAI, hU]

theorem NewCollectionPolicyKeyFromString_canonical_iff_witness :
    NewCollectionPolicyKeyFromString (lit "/collection/policy/42") = .ok ⟨42⟩ ∧
      NewCollectionPolicyKeyFromString (CollectionPolicyKey.mk 42).ToString = .ok ⟨42⟩ :=
  ⟨by decide,
    (NewCollectionPolicyKeyFromString_canonical_iff (lit "/collection/policy/42") ⟨42⟩
      (by decide)).2⟩

/-! ## `IndexFetcher.Init` -/

theorem schemaFieldNamed_eq_find (name : Str) (schemaFields : List FieldDescription) :
    schemaFieldNamed name schemaFields
      = schemaFields.find? (fun field => decide (field.Name = name)) := by
  induction schemaFields with
  | nil => rfl
  | cons field rest ih =>
    by_cases h : field.Name = name <;> simp [schemaFieldNamed, List.find?_cons, h, ih]

theorem appendIndexedFields_eq (schemaFields : List FieldDescription)
    (descs : List IndexedFieldDescription) (indexedFields : List FieldDescription) :
    appendIndexedFields schemaFields descs indexedFields
      = indexedFields ++ descs.filterMap (fun indexedField =>
          schemaFields.find? (fun field => decide (field.Name = indexedField.Name))) := by
  induction descs generalizing indexedFields with
  | nil => simp [appendIndexedFields]
  | cons d rest ih =>
    simp only [appendIndexedFields, schemaFieldNamed_eq_find, List.filterMap_cons]
    cases h : schemaFields.find? (fun field => decide (field.Name = d.Name)) with
    | none => simp [ih]
    | some field => simp [ih]

theorem continuesOuter_eq (name : Str) (indexedFields : List FieldDescription) :
    continuesOuter name indexedFields
      = decide (name ∈ indexedFields.map (fun indexedField => indexedField.Name)) := by
  induction indexedFields with
  | nil => simp [continuesOuter]
  | cons g rest ih =>
    by_cases h : name = g.Name <;> simp [continuesOuter, h, ih]

theorem appendDocFields_eq (indexedFields fields docFields : List FieldDescription) :
    appendDocFields indexedFields fields docFields
      = docFields ++ fields.filter (fun field =>
          decide (field.Name ∉ indexedFields.map (fun indexedField => indexedField.Name))) := by
  induction fields generalizing docFields with
  | nil => simp [appendDocFields]
  | cons field rest ih =>
    simp only [appendDocFields, continuesOuter_eq, List.filter_cons]
    by_cases h : field.Name ∈ indexedFields.map (fun indexedField => indexedField.Name)
    · simp [h, ih]
    · simp [h, ih]

/-- Claim C27. `Init` on a fetcher whose `indexedFields` is still empty and whose index
iterator is not yet set, as `NewIndexFetcher` returns it: `indexedFields` becomes the list of the schema fields named by the fields of the index description, in
the order of the index; `docFields` the requested fields whose name is not the name of
one of the `indexedFields`, in the order requested; and the document fetcher is
initialised only with `docFields` and only when `docFields` is not empty (it is, when
there is a document fetcher and the index iterator was created). -/
theorem IndexFetcher_Init_splits_fields (E : InitEnv) (f : IndexFetcher)
    (schemaFields fields : List FieldDescription) (hfresh : f.indexedFields = [])
    (hiter : f.hasIndexIter = false) :
    (IndexFetcher.Init E f schemaFields fields).1.indexedFields
        = f.indexDescFields.filterMap (fun indexedField =>
            schemaFields.find? (fun field => decide (field.Name = indexedField.Name))) ∧
      (IndexFetcher.Init E f schemaFields fields).1.docFields
        = fields.filter (fun field => decide (field.Name ∉
            (IndexFetcher.Init E f schemaFields fields).1.indexedFields.map
              (fun indexedField => indexedField.Name))) ∧
      (∀ fs, InitEvent.docFetcherInit fs ∈ (IndexFetcher.Init E f schemaFields fields).2.2 →
        fs = (IndexFetcher.Init E f schemaFields fields).1.docFields ∧
          (IndexFetcher.Init E f schemaFields fields).1.docFields ≠ []) ∧
      (f.hasDocFetcher = true → (IndexFetcher.Init E f schemaFields fields).1.hasIndexIter = true →
        (IndexFetcher.Init E f schemaFields fields).1.docFields ≠ [] →
        InitEvent.docFetcherInit (IndexFetcher.Init E f schemaFields fields).1.docFields
          ∈ (IndexFetcher.Init E f schemaFields fields).2.2) := by
  rcases f with ⟨hasDoc, descs, indexed, docs, hasIter⟩
  simp only at hfresh hiter
  subst hfresh
  subst hiter
  simp only [IndexFetcher.Init, appendIndexedFields_eq, appendDocFields_eq, List.nil_append]
  split
  · refine ⟨rfl, rfl, ?_, ?_⟩
    · intro fs h; simp at h
    · intro _ h; simp at h
  · split
    · rename_i hc
      refine ⟨rfl, rfl, ?_, ?_⟩
      · intro fs h
        simp only [List.mem_cons, List.mem_singleton, InitEvent.docFetcherInit.injEq,
          List.not_mem_nil, or_false, false_or, reduceCtorEq] at h
        refine ⟨h, ?_⟩
        intro e
        simp only at e hc
        rw [e] at hc
        simp at hc
      · intro _ _ _; simp
    · rename_i hc
      refine ⟨rfl, rfl, ?_, ?_⟩
      · intro fs h; simp at h
      · intro h1 _ h3
        exfalso
        apply hc
        refine ⟨h1, ?_⟩
        exact List.length_pos.2 h3

theorem IndexFetcher_Init_splits_fields_witness :
    (IndexFetcher.Init exampleInitEnv
        (NewIndexFetcher true [⟨lit "age"⟩, ⟨lit "gone"⟩, ⟨lit "name"⟩])
        [⟨lit "name", 1, 11, [], [], 0, false⟩, ⟨lit "age", 2, 4, [], [], 0, false⟩,
          ⟨lit "points", 3, 6, [], [], 0, false⟩]
        [⟨lit "points", 3, 6, [], [], 0, false⟩, ⟨lit "age", 2, 4, [], [], 0, false⟩]).1.indexedFields
      = [⟨lit "age", 2, 4, [], [], 0, false⟩, ⟨lit "name", 1, 11, [], [], 0, false⟩] ∧
    (IndexFetcher.Init exampleInitEnv
        (NewIndexFetcher true [⟨lit "age"⟩, ⟨lit "gone"⟩, ⟨lit "name"⟩])
        [⟨lit "name", 1, 11, [], [], 0, false⟩, ⟨lit "age", 2, 4, [], [], 0, false⟩,
          ⟨lit "points", 3, 6, [], [], 0, false⟩]
        [⟨lit "points", 3, 6, [], [], 0, false⟩, ⟨lit "age", 2, 4, [], [], 0, false⟩]).1.docFields
      = [⟨lit "points", 3, 6, [], [], 0, false⟩] :=
  ⟨((IndexFetcher_Init_splits_fields exampleInitEnv
        (NewIndexFetcher true [⟨lit "age"⟩, ⟨lit "gone"⟩, ⟨lit "name"⟩])
        [⟨lit "name", 1, 11, [], [], 0, false⟩, ⟨lit "age", 2, 4, [], [], 0, false⟩,
          ⟨lit "points", 3, 6, [], [], 0, false⟩]
        [⟨lit "points", 3, 6, [], [], 0, false⟩, ⟨lit "age", 2, 4, [], [], 0, false⟩]
        rfl rfl).1).trans (by decide),
    by decide⟩

/-! ## `Peer.AddReplicator` -/

/-- Claim C29, at a peer `hostA` without replicators, the collection `users` and the
multiaddr of `peerB`, when `db.NewTxn` fails, and when `GetAllDocKeys` fails:
`AddReplicator` returns an error, and the pair of the schema ID and `peerB`, not
registered before the call, is registered after it; a second call then fails with
`ReplicatorAlreadyExists`. -/
theorem AddReplicator_error_after_registering :
    (Peer.mk (lit "hostA") []).replicators.registered (lit "bafySchema") (lit "peerB") = false ∧
      (Peer.AddReplicator (exampleReplicatorEnv true false) (Peer.mk (lit "hostA") [])
          (lit "users") (lit "/p2p/peerB")).2.2.1
        = some (.FailedToGetTxn (.StoreError 5)) ∧
      (Peer.AddReplicator (exampleReplicatorEnv true false) (Peer.mk (lit "hostA") [])
          (lit "users") (lit "/p2p/peerB")).1.replicators.registered
            (lit "bafySchema") (lit "peerB") = true ∧
      (Peer.AddReplicator (exampleReplicatorEnv false true) (Peer.mk (lit "hostA") [])
          (lit "users") (lit "/p2p/peerB")).2.2.1
        = some (.FailedToGetDockey (.StoreError 6)) ∧
      (Peer.AddReplicator (exampleReplicatorEnv false true) (Peer.mk (lit "hostA") [])
          (lit "users") (lit "/p2p/peerB")).1.replicators.registered
            (lit "bafySchema") (lit "peerB") = true ∧
      (Peer.AddReplicator (exampleReplicatorEnv false false)
          (Peer.AddReplicator (exampleReplicatorEnv true false) (Peer.mk (lit "hostA") [])
            (lit "users") (lit "/p2p/peerB")).1
          (lit "users") (lit "/p2p/peerB")).2.2.1
        = some (.ReplicatorAlreadyExists (lit "users") (lit "peerB")) := by
  decide

theorem Replicators_get_set (m : Replicators) (schemaID s : Str) (reps : List Str) :
    (m.set schemaID reps).get s = if s = schemaID then some reps else m.get s := by
  induction m with
  | nil =>
    by_cases h : s = schemaID
    · simp [Replicators.set, Replicators.get, h]
    · have h2 : ¬ schemaID = s := fun e => h e.symm
      simp [Replicators.set, Replicators.get, h, h2]
  | cons kv rest ih =>
    obtain ⟨key, old⟩ := kv
    by_cases hk : key = schemaID
    · subst hk
      by_cases h : s = key
      · subst h; simp [Replicators.set, Replicators.get]
      · have h2 : ¬ key = s := fun e => h e.symm
        simp [Replicators.set, Replicators.get, h, h2]
    · by_cases h : key = s
      · subst h
        simp [Replicators.set, Replicators.get, hk]
      · simp [Replicators.set, Replicators.get, hk, h, ih]

/-- The error returns of `AddReplicator` before the pair is added leave the registered
pairs as they were. -/
theorem AddReplicator_early_error (R : ReplicatorEnv) (p : Peer)
    (collection paddr : Str) (err : AddReplicatorError)
    (h : (Peer.AddReplicator R p collection paddr).2.2.1 = some err)
    (h1 : ∀ e, err ≠ .FailedToGetTxn e) (h2 : ∀ e, err ≠ .FailedToGetDockey e)
    (schemaID pid : Str) :
    (Peer.AddReplicator R p collection paddr).1.replicators.registered schemaID pid
      = p.replicators.registered schemaID pid := by
  unfold Peer.AddReplicator at h ⊢
  simp only at h ⊢
  cases hG : R.GetCollection collection with
  | error e => simp [hG]
  | ok sid =>
    cases hV : R.ValueForProtocol paddr with
    | error e => simp [hG, hV]
    | ok p2p =>
      cases hD : R.Decode p2p with
      | error e => simp [hG, hV, hD]
      | ok q =>
        by_cases hself : q = p.hostID
        · simp [hG, hV, hD, hself]
        · cases hget : p.replicators.get sid with
          | some reps =>
            by_cases hmem : q ∈ reps
            · simp [hG, hV, hD, hself, hget, hmem]
            · cases hA : R.AddrInfoFromP2pAddr paddr with
              | error e => simp [hG, hV, hD, hself, hget, hmem, hA]
              | ok id =>
                exfalso
                simp only [hG, hV, hD, hself, hget, hmem, hA, if_false] at h
                cases hT : R.NewTxn true with
                | error e => simp [hT] at h; exact h1 e h.symm
                | ok txn =>
                  cases hK : R.GetAllDocKeys txn with
                  | some e => simp [hT, hK] at h; exact h2 e h.symm
                  | none => simp [hT, hK] at h
          | none =>
            cases hA : R.AddrInfoFromP2pAddr paddr with
            | error e =>
              simp only [hG, hV, hD, hself, hget, hA, if_false]
              simp only [Replicators.registered, Replicators_get_set]
              by_cases hs : schemaID = sid
              · subst hs; simp [hget]
              · simp [hs]
            | ok id =>
              exfalso
              simp only [hG, hV, hD, hself, hget, hA, if_false] at h
              cases hT : R.NewTxn true with
              | error e => simp [hT] at h; exact h1 e h.symm
              | ok txn =>
                cases hK : R.GetAllDocKeys txn with
                | some e => simp [hT, hK] at h; exact h2 e h.symm
                | none => simp [hT, hK] at h

theorem Replicators_registered_set_nil (m : Replicators) (sid : Str) (h : m.get sid = none)
    (s q : Str) : (m.set sid []).registered s q = m.registered s q := by
  simp only [Replicators.registered, Replicators_get_set]
  by_cases hs : s = sid
  · subst hs; simp [h]
  · simp [hs]

theorem Replicators_registered_add (m : Replicators) (sid pid : Str) (reps : List Str)
    (h : m.get sid = some reps) (s q : Str) :
    (m.add sid pid).registered s q = (decide (s = sid ∧ q = pid) || m.registered s q) := by
  unfold Replicators.add
  rw [h]
  by_cases hmem : pid ∈ reps
  · simp only [hmem, if_true]
    by_cases hs : s = sid ∧ q = pid
    · obtain ⟨rfl, rfl⟩ := hs
      simp [Replicators.registered, h, hmem]
    · simp [hs]
  · simp only [hmem, if_false, Replicators.registered, Replicators_get_set]
    by_cases hs : s = sid
    · subst hs
      by_cases hq : q = pid
      · subst hq; simp [h]
      · simp [h, hq]
    · simp [hs]

/-- The error returns of `AddReplicator` after the pair is added: the pair of the schema
ID of the collection and the peer ID returned is registered, the other pairs are as
before. -/
theorem AddReplicator_late_error (R : ReplicatorEnv) (p : Peer)
    (collection paddr : Str) (err : AddReplicatorError)
    (h : (Peer.AddReplicator R p collection paddr).2.2.1 = some err)
    (hlate : (∃ e, err = .FailedToGetTxn e) ∨ (∃ e, err = .FailedToGetDockey e)) :
    ∃ sid, R.GetCollection collection = .ok sid ∧
      p.replicators.registered sid (Peer.AddReplicator R p collection paddr).2.1 = false ∧
      ∀ s q, (Peer.AddReplicator R p collection paddr).1.replicators.registered s q
        = (decide (s = sid ∧ q = (Peer.AddReplicator R p collection paddr).2.1)
            || p.replicators.registered s q) := by
  have hne : (∀ c q, err ≠ .ReplicatorAlreadyExists c q) ∧ err ≠ .CantTargetOurselves ∧
      (∀ e, err ≠ .FailedToGetCollection e) ∧ (∀ e, err ≠ .multiaddr e) ∧
      (∀ e, err ≠ .FailedToAddressInfo e) := by
    rcases hlate with ⟨e, rfl⟩ | ⟨e, rfl⟩ <;> simp
  obtain ⟨n1, n2, n3, n4, n5⟩ := hne
  unfold Peer.AddReplicator at h ⊢
  simp only at h ⊢
  cases hG : R.GetCollection collection with
  | error e => simp [hG] at h; exact absurd h.symm (n3 e)
  | ok sid =>
    refine ⟨sid, rfl, ?_⟩
    cases hV : R.ValueForProtocol paddr with
    | error e => simp [hG, hV] at h; exact absurd h.symm (n4 e)
    | ok p2p =>
      cases hD : R.Decode p2p with
      | error e => simp [hG, hV, hD] at h; exact absurd h.symm (n4 e)
      | ok q =>
        by_cases hself : q = p.hostID
        · simp [hG, hV, hD, hself] at h; exact absurd h.symm n2
        · cases hget : p.replicators.get sid with
          | some reps =>
            by_cases hmem : q ∈ reps
            · simp [hG, hV, hD, hself, hget, hmem] at h
              exact absurd h.symm (n1 _ _)
            · cases hA : R.AddrInfoFromP2pAddr paddr with
              | error e =>
                simp [hG, hV, hD, hself, hget, hmem, hA] at h
                exact absurd h.symm (n5 e)
              | ok id =>
                have hb : p.replicators.registered sid q = false := by
                  simp [Replicators.registered, hget, hmem]
                cases hT : R.NewTxn true with
                | error e =>
                  simp only [hV, hD, hself, hget, hmem, hA, hT, if_false]
                  exact ⟨hb, Replicators_registered_add _ _ _ reps hget⟩
                | ok txn =>
                  cases hK : R.GetAllDocKeys txn with
                  | some e =>
                    simp only [hV, hD, hself, hget, hmem, hA, hT, hK, if_false]
                    exact ⟨hb, Replicators_registered_add _ _ _ reps hget⟩
                  | none =>
                    simp [hG, hV, hD, hself, hget, hmem, hA, hT, hK] at h
          | none =>
            have hb : p.replicators.registered sid q = false := by
              simp [Replicators.registered, hget]
            have hg2 : (p.replicators.set sid []).get sid = some [] := by
              simp [Replicators_get_set]
            have hr : ∀ s q2, ((p.replicators.set sid []).add sid q).registered s q2
                = (decide (s = sid ∧ q2 = q) || p.replicators.registered s q2) := by
              intro s q2
              rw [Replicators_registered_add _ _ _ [] hg2,
                Replicators_registered_set_nil _ _ hget]
            cases hA : R.AddrInfoFromP2pAddr paddr with
            | error e =>
              simp [hG, hV, hD, hself, hget, hA] at h
              exact absurd h.symm (n5 e)
            | ok id =>
              cases hT : R.NewTxn true with
              | error e =>
                simp only [hV, hD, hself, hget, hA, hT, if_false]
                exact ⟨hb, hr⟩
              | ok txn =>
                cases hK : R.GetAllDocKeys txn with
                | some e =>
                  simp only [hV, hD, hself, hget, hA, hT, hK, if_false]
                  exact ⟨hb, hr⟩
                | none =>
                  simp [hG, hV, hD, hself, hget, hA, hT, hK] at h

/-- Claim C29, amended. When `AddReplicator` returns an error other than the failure to
open the transaction or to list the document keys, the registered pairs of schema ID and
peer ID are the same as before the call; when it returns one of these two errors, the
pair of the schema ID of the collection and the peer ID returned, not registered before,
is registered after the call, and the other pairs are as before. -/
theorem AddReplicator_error_registered (R : ReplicatorEnv) (p : Peer)
    (collection paddr : Str) (err : AddReplicatorError)
    (h : (Peer.AddReplicator R p collection paddr).2.2.1 = some err) :
    ((∀ e, err ≠ .FailedToGetTxn e) → (∀ e, err ≠ .FailedToGetDockey e) →
        ∀ schemaID pid,
          (Peer.AddReplicator R p collection paddr).1.replicators.registered schemaID pid
            = p.replicators.registered schemaID pid) ∧
      (((∃ e, err = .FailedToGetTxn e) ∨ (∃ e, err = .FailedToGetDockey e)) →
        ∃ sid, R.GetCollection collection = .ok sid ∧
          p.replicators.registered sid (Peer.AddReplicator R p collection paddr).2.1 = false ∧
          (Peer.AddReplicator R p collection paddr).1.replicators.registered sid
            (Peer.AddReplicator R p collection paddr).2.1 = true ∧
          ∀ schemaID pid,
            (Peer.AddReplicator R p collection paddr).1.replicators.registered schemaID pid
              = (decide (schemaID = sid ∧ pid = (Peer.AddReplicator R p collection paddr).2.1)
                  || p.replicators.registered schemaID pid)) := by
  refine ⟨fun h1 h2 => AddReplicator_early_error R p collection paddr err h h1 h2,
    fun hlate => ?_⟩
  obtain ⟨sid, hG, hb, hall⟩ := AddReplicator_late_error R p collection paddr err h hlate
  refine ⟨sid, hG, hb, ?_, hall⟩
  rw [hall]
  simp

theorem AddReplicator_error_registered_witness :
    (Peer.AddReplicator (exampleReplicatorEnv false false) (Peer.mk (lit "hostA") [])
        (lit "users") (lit "/p2p/hostA")).2.2.1 = some .CantTargetOurselves ∧
      ∀ schemaID pid,
        (Peer.AddReplicator (exampleReplicatorEnv false false) (Peer.mk (lit "hostA") [])
          (lit "users") (lit "/p2p/hostA")).1.replicators.registered schemaID pid
        = (Peer.mk (lit "hostA") []).replicators.registered schemaID pid :=
  ⟨by decide,
    (AddReplicator_error_registered (exampleReplicatorEnv false false)
      (Peer.mk (lit "hostA") []) (lit "users") (lit "/p2p/hostA") .CantTargetOurselves
      (by decide)).1 (by intro e; simp) (by intro e; simp)⟩

/-! ## `explicitTxnDB` -/

/-- Claim C30. Each of `ExecRequest`, `AddSchema`, `PatchSchema`,
`SetActiveSchemaVersion`, `SetMigration`, `AddView`, `BasicImport` and `BasicExport` of
`explicitTxnDB` returns the result of the inner operation on the transaction of the
caller, and its events on transactions are the one run of the inner operation on that
transaction: no commit and no discard, whatever the inner operation returns. -/
theorem explicitTxnDB_runs_once_no_commit (E : StoreEnv) (txn : Txn) (a b : Str)
    (cfg : E.LensConfig) (config : E.BackupConfig) :
    ((explicitTxnDB.ExecRequest E.toTxnEnv txn a).1.Data = (E.execRequest txn a).1 ∧
      (explicitTxnDB.ExecRequest E.toTxnEnv txn a).1.Errors = (E.execRequest txn a).2 ∧
      (explicitTxnDB.AddSchema E.toTxnEnv txn a).1 = E.addSchema txn a ∧
      (explicitTxnDB.PatchSchema E.toTxnEnv txn a).1 = E.patchSchema txn a ∧
      (explicitTxnDB.SetActiveSchemaVersion E txn a).1 = E.setActiveSchemaVersion txn a ∧
      (explicitTxnDB.SetMigration E txn cfg).1 = E.setMigration txn cfg ∧
      (explicitTxnDB.AddView E txn a b).1 = E.addView txn a b ∧
      (explicitTxnDB.BasicImport E txn a).1 = E.basicImport txn a ∧
      (explicitTxnDB.BasicExport E txn config).1 = E.basicExport txn config) ∧
    ∀ events ∈ [(explicitTxnDB.ExecRequest E.toTxnEnv txn a).2,
        (explicitTxnDB.AddSchema E.toTxnEnv txn a).2,
        (explicitTxnDB.PatchSchema E.toTxnEnv txn a).2,
        (explicitTxnDB.SetActiveSchemaVersion E txn a).2,
        (explicitTxnDB.SetMigration E txn cfg).2,
        (explicitTxnDB.AddView E txn a b).2,
        (explicitTxnDB.BasicImport E txn a).2,
        (explicitTxnDB.BasicExport E txn config).2],
      events = [.run txn.id] ∧ events.count (.run txn.id) = 1 ∧
        ∀ id, TxnEvent.commit id ∉ events ∧ TxnEvent.discard id ∉ events := by
  refine ⟨⟨rfl, rfl, rfl, rfl, rfl, rfl, rfl, rfl, rfl⟩, ?_⟩
  intro events h
  have he : events = [.run txn.id] := by
    simp only [explicitTxnDB.ExecRequest, explicitTxnDB.AddSchema, explicitTxnDB.PatchSchema,
      explicitTxnDB.SetActiveSchemaVersion, explicitTxnDB.SetMigration, explicitTxnDB.AddView,
      explicitTxnDB.BasicImport, explicitTxnDB.BasicExport, List.mem_cons, List.mem_singleton,
      List.not_mem_nil, or_false, or_self] at h
    exact h
  subst he
  refine ⟨rfl, by simp, ?_⟩
  intro id
  simp

end DefraDB
